import Mathlib

/-!
Verification of aitop: pricing table, daily aggregation, provider merge and
the session parsers

A shallow embedding of `internal/model/pricing.go`, `internal/model/aggregate.go`,
the record types of `internal/model/types.go`, `internal/provider/provider.go`,
`internal/parser/jsonl.go`, `DecodeProjectPath` of `internal/parser/history.go`,
and `Load` with its parsers of `internal/provider/codex.go` and
`internal/provider/gemini.go`.

Modelling conventions.

* A Go `string` is a Lean `String` (a sequence of code points).  Every string
  operation of the embedded code compares against ASCII text only
  (`"claude-"`, `"models/"`, `-` and the digits `0`..`9`) or compares two
  strings lexicographically, for which byte-wise and code-point-wise tests
  agree on UTF-8 text.
* A Go `int` is an `Int`; an addition performed by the code is wrapped to
  64-bit two's complement by `wrapInt64`.
* A Go `float64` is a rational number: costs are computed in exact
  arithmetic, and the conversion `float64(n)` is the cast of `n`.  Where the
  rounding of the `float64` operations decides a question (the order of the
  additions of a sum), the functions are embedded a second time over `F64`,
  binary64 values with every operation rounded to nearest, ties to even.
* A Go `map[string]T` is an association list; the order of the list is the
  order in which a `range` loop visits the entries.  Where the code ranges
  over a map it has built itself, the visiting order is a parameter.
* A `time.Time` is the signed distance of the instant from the zero time; the
  strings that the code derives from `time.Now()` are parameters.
* A `Provider` is given by the values its methods return.
* A file is given by the lines a `bufio.Scanner` yields; the library decoders
  (`json.Unmarshal`, `time.Parse`, `Time.Format`) and `sort.Slice` are
  parameters, `none` standing for a non-nil error.
-/

namespace Aitop

/-! ## Primitive operations -/

/-- Result of an addition on Go's 64-bit `int`: two's complement wrap-around. -/
def wrapInt64 (n : Int) : Int := (n + 2 ^ 63) % 2 ^ 64 - 2 ^ 63

/-- Lexicographic comparison of two texts, character by character. -/
def strLess : List Char → List Char → Bool
  | _, [] => false
  | [], _ :: _ => true
  | a :: as, b :: bs => if a < b then true else if a = b then strLess as bs else false

/-- Go `a < b` on strings.  Go compares byte-wise, which on UTF-8 text is the
lexicographic order of the code points. -/
def strLt (a b : String) : Bool := strLess a.data b.data

/-- Go `strings.HasPrefix(s, pre)`. -/
def HasPrefix (s pre : String) : Bool := pre.data.isPrefixOf s.data

/-- Go `strings.TrimPrefix(s, pre)`: `s` without the leading `pre` when it has it,
`s` unchanged otherwise. -/
def TrimPrefix (s pre : String) : String :=
  if HasPrefix s pre then ⟨s.data.drop pre.data.length⟩ else s

/-- Whether the anchored pattern `-\d{8}$` matches the text `cs` from its first
character on: `cs` is exactly a hyphen followed by eight ASCII digits. -/
def dateSuffixMatch (cs : List Char) : Bool :=
  match cs with
  | [c0, d1, d2, d3, d4, d5, d6, d7, d8] =>
    c0 == '-' && [d1, d2, d3, d4, d5, d6, d7, d8].all Char.isDigit
  | _ => false

/-- Go `dateSuffixRe.ReplaceAllString(name, "")` for `dateSuffixRe = -\d{8}$`:
scan the text from the left; at the first position where the pattern matches
(the match then runs to the end of the text) the match is replaced by the empty
string, every other character is kept. -/
def replaceDateSuffix : List Char → List Char
  | [] => []
  | c :: cs => if dateSuffixMatch (c :: cs) then [] else c :: replaceDateSuffix cs

/-! ## Record types (`types.go`, `pricing.go`) -/

/-- Per-million-token prices. -/
structure ModelPricing where
  InputPerMTok : ℚ
  OutputPerMTok : ℚ
  CacheReadPerMTok : ℚ
  CacheWritePerMTok : ℚ
  deriving DecidableEq

/-- Aggregated token counts. -/
structure TokenUsage where
  InputTokens : Int
  OutputTokens : Int
  CacheRead : Int
  CacheWrite : Int
  deriving DecidableEq

/-- Per-model usage record of the stats cache. -/
structure ModelUsage where
  InputTokens : Int
  OutputTokens : Int
  CacheReadInputTokens : Int
  CacheCreationInputTokens : Int
  deriving DecidableEq

/-- One day of the activity log. -/
structure DailyActivity where
  Date : String
  MessageCount : Int
  SessionCount : Int
  ToolCallCount : Int
  deriving DecidableEq

/-- One day of the token log: total tokens per model. -/
structure DailyModelTokens where
  Date : String
  TokensByModel : List (String × Int)
  deriving DecidableEq

/-- Longest session record of the stats cache. -/
structure LongestSession where
  SessionID : String
  Duration : Int
  MessageCount : Int
  Timestamp : String
  deriving DecidableEq

/-- Top-level structure of `stats-cache.json`. -/
structure StatsCache where
  Version : Int
  LastComputedDate : String
  DailyActivity : List DailyActivity
  DailyModelTokens : List DailyModelTokens
  ModelUsage : List (String × ModelUsage)
  TotalSessions : Int
  TotalMessages : Int
  LongestSession : LongestSession
  FirstSessionDate : String
  HourCounts : List (String × Int)

/-- Aggregated stats for a single day.  A nil `TokensByModel` map and an empty
one are both the empty list: indexing and ranging treat them alike. -/
structure DailyStats where
  Date : String
  Messages : Int
  Sessions : Int
  ToolCalls : Int
  TotalTokens : Int
  TokensByModel : List (String × Int)
  Cost : ℚ
  deriving DecidableEq

/-- Aggregated stats for a time period. -/
structure PeriodSummary where
  Label : String
  Days : Int
  Messages : Int
  Sessions : Int
  ToolCalls : Int
  TotalTokens : Int
  Cost : ℚ
  ModelCosts : List (String × ℚ)
  deriving DecidableEq

/-- Spending rate information. -/
structure BurnRate where
  DailyAvg : ℚ
  ProjectedMonth : ℚ
  TrendVsLastWeek : ℚ
  deriving DecidableEq

/-! ## Pricing (`pricing.go`) -/

/-- The pricing table, entries in source order; a rate the source omits is the
zero value of its field. -/
def pricingTable : List (String × ModelPricing) :=
  [ ("opus-4-6", ⟨5.0, 25.0, 0.50, 6.25⟩),
    ("opus-4-5", ⟨5.0, 25.0, 0.50, 6.25⟩),
    ("sonnet-4-5", ⟨3.0, 15.0, 0.30, 3.75⟩),
    ("haiku-4-5", ⟨0.80, 4.0, 0.08, 1.0⟩),
    ("opus-4-1", ⟨15.0, 75.0, 1.50, 18.75⟩),
    ("gpt-4o", ⟨2.50, 10.0, 0, 0⟩),
    ("gpt-4.1", ⟨2.0, 8.0, 0, 0⟩),
    ("o3", ⟨10.0, 40.0, 0, 0⟩),
    ("o4-mini", ⟨1.10, 4.40, 0, 0⟩),
    ("gemini-2.5-pro", ⟨1.25, 10.0, 0, 0⟩),
    ("gemini-2.5-flash", ⟨0.30, 2.50, 0, 0⟩) ]

/-- The keys of the pricing table. -/
def pricingKeys : List String := pricingTable.map Prod.fst

/-- `NormalizeModelName`: strip a leading `claude-`, then a leading `models/`,
then a trailing date suffix. -/
def NormalizeModelName (model : String) : String :=
  let name := TrimPrefix model "claude-"
  let name := TrimPrefix name "models/"
  ⟨replaceDateSuffix name.data⟩

/-- `GetPricing` with the order in which the `range` loop of the fallback visits
the table made explicit: `order` lists the table entries in visiting order.  The
exact match is a map index and does not depend on it. -/
def GetPricingWith (order : List (String × ModelPricing)) (model : String) :
    ModelPricing × Bool :=
  let key := NormalizeModelName model
  match pricingTable.lookup key with
  | some p => (p, true)
  | none =>
    match order.find? (fun e => HasPrefix key e.1) with
    | some e => (e.2, true)
    | none => (⟨0, 0, 0, 0⟩, false)

/-- `GetPricing`: the table is visited in source order (`GetPricingWith_perm`
shows that the visiting order does not change the result). -/
def GetPricing (model : String) : ModelPricing × Bool :=
  GetPricingWith pricingTable model

/-- `CalculateCost`: dollar cost of a token usage breakdown. -/
def CalculateCost (model : String) (usage : TokenUsage) : ℚ :=
  match GetPricing model with
  | (_, false) => 0
  | (pricing, true) =>
    let cost := (usage.InputTokens : ℚ) * pricing.InputPerMTok / 1000000
    let cost := cost + (usage.OutputTokens : ℚ) * pricing.OutputPerMTok / 1000000
    let cost := cost + (usage.CacheRead : ℚ) * pricing.CacheReadPerMTok / 1000000
    let cost := cost + (usage.CacheWrite : ℚ) * pricing.CacheWritePerMTok / 1000000
    cost

/-- `CalculateCostFromModelUsage`. -/
def CalculateCostFromModelUsage (model : String) (mu : ModelUsage) : ℚ :=
  CalculateCost model
    { InputTokens := mu.InputTokens
      OutputTokens := mu.OutputTokens
      CacheRead := mu.CacheReadInputTokens
      CacheWrite := mu.CacheCreationInputTokens }

/-- `TotalCostFromModelUsage`: the loop over the usage map, entries visited in
list order. -/
def TotalCostFromModelUsage (usage : List (String × ModelUsage)) : ℚ :=
  usage.foldl (fun total e => total + CalculateCostFromModelUsage e.1 e.2) 0

/-- Component-wise sum of two token usages (the `a+b` of the cost-additivity
property; an operation of the specification, computed on unbounded integers). -/
def TokenUsage.add (a b : TokenUsage) : TokenUsage :=
  { InputTokens := a.InputTokens + b.InputTokens
    OutputTokens := a.OutputTokens + b.OutputTokens
    CacheRead := a.CacheRead + b.CacheRead
    CacheWrite := a.CacheWrite + b.CacheWrite }

/-! ## Daily aggregation (`aggregate.go`) -/

/-- Go map assignment `m[k] = v`: overwrite the entry of `k`, or add one. -/
def mapInsert {α : Type} (m : List (String × α)) (k : String) (v : α) :
    List (String × α) :=
  match m with
  | [] => [(k, v)]
  | e :: rest => if e.1 == k then (k, v) :: rest else e :: mapInsert rest k v

/-- The index `tokensByDate` built by the first loop of `AggregateDaily`. -/
def tokensByDate (tokens : List DailyModelTokens) : List (String × List (String × Int)) :=
  tokens.foldl (fun m dt => mapInsert m dt.Date dt.TokensByModel) []

/-- One iteration of the inner loop of `AggregateDaily` on the pair
`(totalTokens, cost)`. -/
def dayStep (acc : Int × ℚ) (e : String × Int) : Int × ℚ :=
  let totalTokens := wrapInt64 (acc.1 + e.2)
  match GetPricing e.1 with
  | (p, true) => (totalTokens, acc.2 + (e.2 : ℚ) * p.OutputPerMTok / 1000000)
  | (_, false) => (totalTokens, acc.2)

/-- The body of the outer loop of `AggregateDaily`: the `DailyStats` built for
one activity entry. -/
def dayStats (index : List (String × List (String × Int))) (da : DailyActivity) :
    DailyStats :=
  let found := index.lookup da.Date
  let totals : Int × ℚ :=
    match found with
    | some models => models.foldl dayStep (0, 0)
    | none => (0, 0)
  { Date := da.Date
    Messages := da.MessageCount
    Sessions := da.SessionCount
    ToolCalls := da.ToolCallCount
    TokensByModel := found.getD []
    TotalTokens := totals.1
    Cost := totals.2 }

/-- `AggregateDaily`: one `DailyStats` appended per activity entry. -/
def AggregateDaily (cache : StatsCache) : List DailyStats :=
  let index := tokensByDate cache.DailyModelTokens
  cache.DailyActivity.foldl (fun days da => days ++ [dayStats index da]) []

/-- The body of the loop of `PeriodFromDays`. -/
def periodStep (ps : PeriodSummary) (d : DailyStats) : PeriodSummary :=
  { ps with
    Messages := wrapInt64 (ps.Messages + d.Messages)
    Sessions := wrapInt64 (ps.Sessions + d.Sessions)
    ToolCalls := wrapInt64 (ps.ToolCalls + d.ToolCalls)
    TotalTokens := wrapInt64 (ps.TotalTokens + d.TotalTokens)
    Cost := ps.Cost + d.Cost }

/-- `PeriodFromDays`: aggregate a list of `DailyStats` into a `PeriodSummary`. -/
def PeriodFromDays (label : String) (days : List DailyStats) : PeriodSummary :=
  days.foldl periodStep
    { Label := label
      Days := (days.length : Int)
      Messages := 0
      Sessions := 0
      ToolCalls := 0
      TotalTokens := 0
      Cost := 0
      ModelCosts := [] }

/-- `FilterDaysAfter`: the days whose date string is `>= after`, appended in
order. -/
def FilterDaysAfter (days : List DailyStats) (after : String) : List DailyStats :=
  days.foldl (fun result d => if !strLt d.Date after then result ++ [d] else result) []

/-- `ComputeSummaries`.  The three strings are what the code obtains from the
clock: `time.Now()` formatted as a date, and the same 7 days and 1 month
earlier.  The result is `(today, week, month, allTime)`. -/
def ComputeSummaries (todayStr weekAgo monthAgo : String) (cache : StatsCache) :
    PeriodSummary × PeriodSummary × PeriodSummary × PeriodSummary :=
  let days := AggregateDaily cache
  let today := PeriodFromDays "Today" (FilterDaysAfter days todayStr)
  let week := PeriodFromDays "This Week" (FilterDaysAfter days weekAgo)
  let month := PeriodFromDays "This Month" (FilterDaysAfter days monthAgo)
  let allTime := PeriodFromDays "All Time" days
  let allTime := { allTime with Cost := TotalCostFromModelUsage cache.ModelUsage }
  (today, week, month, allTime)

/-- `ComputeBurnRate`.  The two strings are what the code obtains from the clock:
the dates 7 and 14 days before `time.Now()`.  The second component of the result
lists the divisors of the divisions the run performs, in order. -/
def ComputeBurnRate (weekAgo twoWeeksAgo : String) (days : List DailyStats) :
    BurnRate × List ℚ :=
  if days.length = 0 then
    (⟨0, 0, 0⟩, [])
  else
    let thisWeek := FilterDaysAfter days weekAgo
    let lastWeek := days.foldl
      (fun acc d =>
        if !strLt d.Date twoWeeksAgo && strLt d.Date weekAgo then acc ++ [d] else acc) []
    let thisWeekCost := thisWeek.foldl (fun c d => c + d.Cost) (0 : ℚ)
    let lastWeekCost := lastWeek.foldl (fun c d => c + d.Cost) (0 : ℚ)
    let activeDays : Nat := if thisWeek.length = 0 then 1 else thisWeek.length
    let dailyAvg := thisWeekCost / (activeDays : ℚ)
    let projected := dailyAvg * 30
    if lastWeekCost > 0 then
      (⟨dailyAvg, projected, ((thisWeekCost - lastWeekCost) / lastWeekCost) * 100⟩,
        [(activeDays : ℚ), lastWeekCost])
    else
      (⟨dailyAvg, projected, 0⟩, [(activeDays : ℚ)])

/-! ## Providers (`provider.go`) -/

/-- A `time.Time` instant: the signed number of nanoseconds from the zero time
(January 1, year 1, 00:00 UTC) to the instant.  Go represents instants before
the zero time as well. -/
structure Time where
  nanos : Int
  deriving DecidableEq

/-- The zero value of `time.Time`. -/
def Time.zero : Time := ⟨0⟩

/-- Go `t.IsZero()`. -/
def Time.IsZero (t : Time) : Bool := t.nanos == 0

/-- Go `t.Before(u)`. -/
def Time.Before (t u : Time) : Bool := decide (t.nanos < u.nanos)

/-- Go `t.After(u)`. -/
def Time.After (t u : Time) : Bool := decide (u.nanos < t.nanos)

/-- Aggregated daily data across providers. -/
structure DailyUsage where
  Date : String
  Cost : ℚ
  Tokens : Int
  Messages : Int
  Sessions : Int
  Generations : Int
  deriving DecidableEq

/-- Per-model stats. -/
structure ModelBreakdown where
  Model : String
  InputTokens : Int
  OutputTokens : Int
  CacheRead : Int
  CacheWrite : Int
  Cost : ℚ
  Generations : Int
  deriving DecidableEq

/-- A single session's data. -/
structure SessionInfo where
  ID : String
  Project : String
  StartTime : Time
  EndTime : Time
  Messages : Int
  UserMessages : Int
  Tokens : Int
  Cost : ℚ
  Model : String
  deriving DecidableEq

/-- Normalized usage data from one AI tool. -/
structure ProviderData where
  ProviderName : String
  Icon : String
  Color : String
  TotalCost : ℚ
  DailyUsage : List DailyUsage
  Models : List ModelBreakdown
  Sessions : List SessionInfo
  Generations : Int
  FirstSeen : Time
  LastSeen : Time
  Metadata : List (String × String)
  deriving DecidableEq

/-- A value of the `Provider` interface, given by what its methods return:
`Load` is `Except.ok data` for `(data, nil)` and `Except.error msg` for a
non-nil error. -/
structure Provider where
  Name : String
  Icon : String
  Color : String
  Load : Except String ProviderData
  Available : Bool

/-- Combined data from all providers. -/
structure AggregatedData where
  Providers : List ProviderData
  TotalCost : ℚ
  DailyUsage : List DailyUsage
  TotalTokens : Int
  TotalSessions : Int
  FirstSeen : Time
  LastSeen : Time
  deriving DecidableEq

/-- The state of the main loop of `LoadAll`: the aggregate under construction
and the per-date map. -/
structure LoadState where
  agg : AggregatedData
  dailyMap : List (String × DailyUsage)

/-- The body of the loop over `data.DailyUsage`: merge one entry into the
per-date map (an absent date starts from the zero `DailyUsage`). -/
def mergeDaily (dailyMap : List (String × DailyUsage)) (d : DailyUsage) :
    List (String × DailyUsage) :=
  let existing := (dailyMap.lookup d.Date).getD ⟨"", 0, 0, 0, 0, 0⟩
  mapInsert dailyMap d.Date
    { Date := d.Date
      Cost := existing.Cost + d.Cost
      Tokens := wrapInt64 (existing.Tokens + d.Tokens)
      Messages := wrapInt64 (existing.Messages + d.Messages)
      Sessions := wrapInt64 (existing.Sessions + d.Sessions)
      Generations := wrapInt64 (existing.Generations + d.Generations) }

/-- The body of the loop over `data.Sessions`. -/
def sessionStep (agg : AggregatedData) (s : SessionInfo) : AggregatedData :=
  { agg with
    TotalSessions := wrapInt64 (agg.TotalSessions + 1)
    TotalTokens := wrapInt64 (agg.TotalTokens + s.Tokens) }

/-- The part of the main loop body that runs once `Load` has succeeded with
`data`. -/
def dataStep (st : LoadState) (data : ProviderData) : LoadState :=
  let agg := st.agg
  let agg := { agg with Providers := agg.Providers ++ [data] }
  let agg := { agg with TotalCost := agg.TotalCost + data.TotalCost }
  let dailyMap := data.DailyUsage.foldl mergeDaily st.dailyMap
  let agg := data.Sessions.foldl sessionStep agg
  let agg :=
    if agg.FirstSeen.IsZero || (!data.FirstSeen.IsZero && data.FirstSeen.Before agg.FirstSeen)
    then { agg with FirstSeen := data.FirstSeen } else agg
  let agg :=
    if data.LastSeen.After agg.LastSeen then { agg with LastSeen := data.LastSeen } else agg
  { agg := agg, dailyMap := dailyMap }

/-- The body of the main loop of `LoadAll`: an unavailable provider is skipped
before `Load` is consulted, a provider whose `Load` fails is skipped. -/
def loadStep (st : LoadState) (p : Provider) : LoadState :=
  if !p.Available then st
  else
    match p.Load with
    | Except.error _ => st
    | Except.ok data => dataStep st data

/-- The inner loop of `sortDailyUsage`, started at index `j`: while `j > 0` and
`days[j].Date < days[j-1].Date`, swap the two entries and decrement `j`. -/
def sortInner (days : List DailyUsage) : Nat → List DailyUsage
  | 0 => days
  | j + 1 =>
    match days[j + 1]?, days[j]? with
    | some a, some b =>
      if strLt a.Date b.Date then sortInner ((days.set (j + 1) b).set j a) j else days
    | _, _ => days

/-- `sortDailyUsage`: insertion sort by date; the outer loop runs the inner
loop for `i = 1, ..., len(days) - 1`. -/
def sortDailyUsage (days : List DailyUsage) : List DailyUsage :=
  (List.range' 1 (days.length - 1)).foldl sortInner days

/-- `LoadAll` with the order in which the final `range` loop visits the
per-date map made explicit: `visit m` lists the entries of `m` in visiting
order. -/
def LoadAllWith (visit : List (String × DailyUsage) → List (String × DailyUsage))
    (providers : List Provider) : AggregatedData :=
  let st := providers.foldl loadStep
    { agg := ⟨[], 0, [], 0, 0, Time.zero, Time.zero⟩, dailyMap := [] }
  let agg := (visit st.dailyMap).foldl
    (fun agg e => { agg with DailyUsage := agg.DailyUsage ++ [e.2] }) st.agg
  { agg with DailyUsage := sortDailyUsage agg.DailyUsage }

/-- `LoadAll`: the per-date map is visited in insertion order
(`LoadAllWith_perm` shows that the visiting order does not change the
result). -/
def LoadAll (providers : List Provider) : AggregatedData :=
  LoadAllWith id providers

/-! ## Project paths (`parser/history.go`) -/

/-- Go `strings.ReplaceAll(s, old, new)` for one-character `old` and `new`:
every occurrence of the character is replaced. -/
def replaceChar (old new : Char) (s : List Char) : List Char :=
  s.map (fun c => if c = old then new else c)

/-- `DecodeProjectPath`: a name with a leading `-` becomes `/` followed by the
rest of the name (`dirName[1:]`) with every `-` replaced by `/`. -/
def DecodeProjectPath (dirName : String) : String :=
  if HasPrefix dirName "-" then
    "/" ++ ⟨replaceChar '-' '/' (dirName.data.drop 1)⟩
  else dirName

/-- The dash encoding of a path: every `/` replaced by `-`. -/
def encodeProjectPath (p : String) : String := ⟨replaceChar '/' '-' p.data⟩

/-! ## Session logs (`parser/jsonl.go`, `types.go`) -/

/-- Token counts of one message of a session log. -/
structure Usage where
  InputTokens : Int
  OutputTokens : Int
  CacheReadInputTokens : Int
  CacheCreationInputTokens : Int
  deriving DecidableEq

/-- The `message` object of a log line; `Usage` is `none` for a nil pointer. -/
structure MessageDetail where
  Role : String
  Model : String
  Usage : Option Usage
  deriving DecidableEq

/-- A decoded line of a JSONL session file; `Typ` is the field `Type`, and
`Message` is `none` for a nil pointer. -/
structure SessionMessage where
  Typ : String
  SessionID : String
  Timestamp : String
  UUID : String
  Message : Option MessageDetail
  CWD : String
  deriving DecidableEq

/-- An aggregated view of a single session. -/
structure Session where
  ID : String
  Project : String
  StartTime : Time
  EndTime : Time
  MessageCount : Int
  UserMessages : Int
  TokenUsage : TokenUsage
  Models : List (String × Aitop.TokenUsage)
  deriving DecidableEq

/-- What a `bufio.Scanner` delivers for an opened file: the lines it yields, in
order, and the value of `scanner.Err()` once it has stopped (`none` for nil; a
line beyond the line limit stops the scanner with an error). -/
structure ScannedFile where
  lines : List String
  err : Option String

/-- Lines 61 to 71 of `ParseSessionFile`: add the usage of a message to the
session total and to the entry of its model. -/
def applyUsage (session : Session) (modelName : String) (u : Usage) : Session :=
  let session :=
    { session with
      TokenUsage :=
        { InputTokens := wrapInt64 (session.TokenUsage.InputTokens + u.InputTokens)
          OutputTokens := wrapInt64 (session.TokenUsage.OutputTokens + u.OutputTokens)
          CacheRead := wrapInt64 (session.TokenUsage.CacheRead + u.CacheReadInputTokens)
          CacheWrite :=
            wrapInt64 (session.TokenUsage.CacheWrite + u.CacheCreationInputTokens) } }
  let mu := (session.Models.lookup modelName).getD ⟨0, 0, 0, 0⟩
  { session with
    Models := mapInsert session.Models modelName
      { InputTokens := wrapInt64 (mu.InputTokens + u.InputTokens)
        OutputTokens := wrapInt64 (mu.OutputTokens + u.OutputTokens)
        CacheRead := wrapInt64 (mu.CacheRead + u.CacheReadInputTokens)
        CacheWrite := wrapInt64 (mu.CacheWrite + u.CacheCreationInputTokens) } }

/-- Lines 34 to 36 of `ParseSessionFile`: the session takes the first non-empty
session id. -/
def setSessionID (session : Session) (msg : SessionMessage) : Session :=
  if session.ID = "" ∧ msg.SessionID ≠ "" then { session with ID := msg.SessionID }
  else session

/-- Lines 38 to 47: a timestamp that parses moves the start and end times.
`parseTime` is `time.Parse(time.RFC3339, ·)`, `none` for an error. -/
def stampSession (parseTime : String → Option Time) (session : Session)
    (msg : SessionMessage) : Session :=
  if msg.Timestamp ≠ "" then
    match parseTime msg.Timestamp with
    | some ts =>
      let session :=
        if session.StartTime.IsZero || ts.Before session.StartTime then
          { session with StartTime := ts }
        else session
      if ts.After session.EndTime then { session with EndTime := ts } else session
    | none => session
  else session

/-- Lines 49 to 51: count a message of type `user`. -/
def countUser (session : Session) (msg : SessionMessage) : Session :=
  if msg.Typ = "user" then
    { session with UserMessages := wrapInt64 (session.UserMessages + 1) }
  else session

/-- Lines 53 to 72: an assistant message with a usage payload is counted, and
its usage is added when its model name is not empty. -/
def countAssistant (session : Session) (msg : SessionMessage) : Session :=
  if msg.Typ = "assistant" then
    match msg.Message with
    | some detail =>
      match detail.Usage with
      | some u =>
        let session := { session with MessageCount := wrapInt64 (session.MessageCount + 1) }
        if detail.Model = "" then session else applyUsage session detail.Model u
      | none => session
    | none => session
  else session

/-- The body of the scanning loop of `ParseSessionFile` for a line that decodes
to `msg`: its four blocks in sequence. -/
def applyMessage (parseTime : String → Option Time) (session : Session)
    (msg : SessionMessage) : Session :=
  countAssistant (countUser (stampSession parseTime (setSessionID session msg) msg) msg) msg

/-- One iteration of the scanning loop: a line that `json.Unmarshal` rejects
(`decode` gives `none`) is skipped. -/
def parseLine (decode : String → Option SessionMessage) (parseTime : String → Option Time)
    (session : Session) (line : String) : Session :=
  match decode line with
  | none => session
  | some msg => applyMessage parseTime session msg

/-- `ParseSessionFile` on the outcome of `os.Open` and of the scan: an open
error gives `(nil, err)`, otherwise the session built from the lines comes with
`scanner.Err()`. -/
def ParseSessionFile (decode : String → Option SessionMessage)
    (parseTime : String → Option Time) (project : String)
    (opened : Except String ScannedFile) : Option Session × Option String :=
  match opened with
  | Except.error e => (none, some e)
  | Except.ok file =>
    (some (file.lines.foldl (parseLine decode parseTime)
      { ID := ""
        Project := project
        StartTime := Time.zero
        EndTime := Time.zero
        MessageCount := 0
        UserMessages := 0
        TokenUsage := ⟨0, 0, 0, 0⟩
        Models := [] }), file.err)

/-! ## Codex rollout files (`provider/codex.go`) -/

/-- The `payload` object of a `session_meta` line. -/
structure codexSessionMetaPayload where
  ID : String
  Timestamp : String
  CWD : String
  CLIVersion : String
  Source : String
  ModelProvider : String
  deriving DecidableEq

/-- The first line of a new-format rollout file; `Typ` is the field `Type`. -/
structure codexSessionMeta where
  Timestamp : String
  Typ : String
  Payload : codexSessionMetaPayload
  deriving DecidableEq

/-- The first line of an old-format rollout file. -/
structure codexOldMeta where
  ID : String
  Timestamp : String
  deriving DecidableEq

/-- The `payload` object of a `turn_context` line. -/
structure codexTurnContextPayload where
  CWD : String
  Model : String
  deriving DecidableEq

/-- A `turn_context` line: it carries the model name. -/
structure codexTurnContext where
  Typ : String
  Payload : codexTurnContextPayload
  deriving DecidableEq

/-- The `payload` object of an `event_msg` line; `Info` is the raw JSON text of
the `info` member, `none` for a nil `json.RawMessage`. -/
structure codexEventMsgPayload where
  Typ : String
  Info : Option String
  deriving DecidableEq

/-- An `event_msg` line. -/
structure codexEventMsg where
  Timestamp : String
  Typ : String
  Payload : codexEventMsgPayload
  deriving DecidableEq

/-- The member `total_token_usage` of a token snapshot. -/
structure codexTotalTokenUsage where
  InputTokens : Int
  CachedInputTokens : Int
  OutputTokens : Int
  ReasoningOutputTokens : Int
  TotalTokens : Int
  deriving DecidableEq

/-- Cumulative token usage carried by a `token_count` event. -/
structure codexTokenInfo where
  TotalTokenUsage : codexTotalTokenUsage
  deriving DecidableEq

/-- The `payload` object of a `response_item` line. -/
structure codexResponseItemPayload where
  Typ : String
  Role : String
  deriving DecidableEq

/-- A `response_item` line. -/
structure codexResponseItem where
  Typ : String
  Payload : codexResponseItemPayload
  deriving DecidableEq

/-- A message line of an old-format file. -/
structure codexOldMessage where
  Typ : String
  Role : String
  deriving DecidableEq

/-- The anonymous struct `peek` of `parseRolloutFile`. -/
structure codexPeek where
  Typ : String
  ID : String
  Role : String
  deriving DecidableEq

/-- Parsed data of a single rollout file. -/
structure codexSession where
  id : String
  project : String
  modelName : String
  startTime : Time
  endTime : Time
  messages : Int
  userMessages : Int
  tokens : codexTokenInfo
  dateKey : String
  deriving DecidableEq

/-- The library calls of `parseRolloutFile`: what `json.Unmarshal` gives for
each Go type the parser decodes into (`none` for a non-nil error), and
`time.Parse` with the layouts `time.RFC3339Nano` and `time.RFC3339`. -/
structure RolloutEnv where
  peek : String → Option codexPeek
  sessionMeta : String → Option codexSessionMeta
  oldMeta : String → Option codexOldMeta
  turnContext : String → Option codexTurnContext
  eventMsg : String → Option codexEventMsg
  tokenInfo : String → Option codexTokenInfo
  responseItem : String → Option codexResponseItem
  oldMessage : String → Option codexOldMessage
  parseNano : String → Option Time
  parseSec : String → Option Time

/-- The variables of the scanning loop of `parseRolloutFile`. -/
structure RolloutState where
  s : codexSession
  firstTimestamp : String
  lastTimestamp : String
  deriving DecidableEq

/-- Case `peek.Type == "session_meta"` (lines 282 to 290). -/
def caseSessionMeta (env : RolloutEnv) (st : RolloutState) (line : String) : RolloutState :=
  match env.sessionMeta line with
  | none => st
  | some m =>
    { s := { st.s with id := m.Payload.ID, project := m.Payload.CWD }
      firstTimestamp := m.Payload.Timestamp
      lastTimestamp := m.Payload.Timestamp }

/-- Case `peek.ID != "" && peek.Type == ""` (lines 292 to 299). -/
def caseOldMeta (env : RolloutEnv) (st : RolloutState) (line : String) : RolloutState :=
  match env.oldMeta line with
  | none => st
  | some m =>
    { s := { st.s with id := m.ID }
      firstTimestamp := m.Timestamp
      lastTimestamp := m.Timestamp }

/-- Case `peek.Type == "turn_context"` (lines 301 to 311). -/
def caseTurnContext (env : RolloutEnv) (st : RolloutState) (line : String) : RolloutState :=
  match env.turnContext line with
  | none => st
  | some tc =>
    let s := st.s
    let s := if tc.Payload.Model ≠ "" then { s with modelName := tc.Payload.Model } else s
    let s := if tc.Payload.CWD ≠ "" then { s with project := tc.Payload.CWD } else s
    { st with s := s }

/-- Lines 317 to 319: a non-empty event timestamp becomes `lastTimestamp`. -/
def stampEvent (st : RolloutState) (evt : codexEventMsg) : RolloutState :=
  if evt.Timestamp ≠ "" then { st with lastTimestamp := evt.Timestamp } else st

/-- Lines 320 to 327: a decodable `token_count` snapshot whose `total_tokens`
is positive replaces `s.tokens`. -/
def snapshotEvent (env : RolloutEnv) (st : RolloutState) (evt : codexEventMsg) :
    RolloutState :=
  if evt.Payload.Typ = "token_count" then
    match evt.Payload.Info with
    | none => st
    | some raw =>
      match env.tokenInfo raw with
      | none => st
      | some info =>
        if info.TotalTokenUsage.TotalTokens > 0 then { st with s := { st.s with tokens := info } }
        else st
  else st

/-- Lines 328 to 334: count `user_message` and `agent_message` events. -/
def countEvent (st : RolloutState) (evt : codexEventMsg) : RolloutState :=
  let s := st.s
  let s :=
    if evt.Payload.Typ = "user_message" then
      { s with
        userMessages := wrapInt64 (s.userMessages + 1)
        messages := wrapInt64 (s.messages + 1) }
    else s
  let s :=
    if evt.Payload.Typ = "agent_message" then { s with messages := wrapInt64 (s.messages + 1) }
    else s
  { st with s := s }

/-- Case `peek.Type == "event_msg"` (lines 313 to 335). -/
def caseEventMsg (env : RolloutEnv) (st : RolloutState) (line : String) : RolloutState :=
  match env.eventMsg line with
  | none => st
  | some evt => countEvent (snapshotEvent env (stampEvent st evt) evt) evt

/-- The counting shared by lines 341 to 346 and 353 to 358: a `user` role
counts as a user message and a message, an `assistant` role as a message. -/
def countRole (st : RolloutState) (role : String) : RolloutState :=
  if role = "user" then
    { st with
      s := { st.s with
        userMessages := wrapInt64 (st.s.userMessages + 1)
        messages := wrapInt64 (st.s.messages + 1) } }
  else if role = "assistant" then
    { st with s := { st.s with messages := wrapInt64 (st.s.messages + 1) } }
  else st

/-- Case `peek.Type == "response_item"` (lines 337 to 347). -/
def caseResponseItem (env : RolloutEnv) (st : RolloutState) (line : String) : RolloutState :=
  match env.responseItem line with
  | none => st
  | some ri => countRole st ri.Payload.Role

/-- Case `peek.Type == "message" && peek.Role != ""` (lines 349 to 359). -/
def caseOldMessage (env : RolloutEnv) (st : RolloutState) (line : String) : RolloutState :=
  match env.oldMessage line with
  | none => st
  | some msg => countRole st msg.Role

/-- The body of the scanning loop of `parseRolloutFile` (lines 266 to 360): an
empty line and a line whose `peek` fails to decode are skipped, then the first
matching case of the `switch` runs. -/
def rolloutStep (env : RolloutEnv) (st : RolloutState) (line : String) : RolloutState :=
  if line.utf8ByteSize = 0 then st
  else
    match env.peek line with
    | none => st
    | some peek =>
      if peek.Typ = "session_meta" then caseSessionMeta env st line
      else if peek.ID ≠ "" ∧ peek.Typ = "" then caseOldMeta env st line
      else if peek.Typ = "turn_context" then caseTurnContext env st line
      else if peek.Typ = "event_msg" then caseEventMsg env st line
      else if peek.Typ = "response_item" then caseResponseItem env st line
      else if peek.Typ = "message" ∧ peek.Role ≠ "" then caseOldMessage env st line
      else st

/-- Lines 365 to 369 and 372 to 376: parse with `time.RFC3339Nano`, then with
`time.RFC3339`. -/
def parseStamp (env : RolloutEnv) (stamp : String) : Option Time :=
  match env.parseNano stamp with
  | some t => some t
  | none => env.parseSec stamp

/-- Lines 363 to 384 of `parseRolloutFile`: parse the two timestamps and set
the default model. -/
def finishRollout (env : RolloutEnv) (st : RolloutState) : codexSession :=
  let s := st.s
  let s :=
    if st.firstTimestamp ≠ "" then
      match parseStamp env st.firstTimestamp with
      | some t => { s with startTime := t }
      | none => s
    else s
  let s :=
    if st.lastTimestamp ≠ "" then
      match parseStamp env st.lastTimestamp with
      | some t => { s with endTime := t }
      | none => s
    else s
  if s.modelName = "" then { s with modelName := "codex-unknown" } else s

/-- The zero value of `codexSession` with `dateKey` set (lines 260 and 261). -/
def newCodexSession (dateKey : String) : codexSession :=
  { id := "", project := "", modelName := "", startTime := Time.zero, endTime := Time.zero
    messages := 0, userMessages := 0, tokens := ⟨⟨0, 0, 0, 0, 0⟩⟩, dateKey := dateKey }

/-- `parseRolloutFile`: `opened` is `Except.error e` when `os.Open` fails and
`Except.ok lines` with the lines the scanner yields otherwise (the scanner's
own error is never consulted); `dateKey` is `dateKeyFromPath(path)`. -/
def parseRolloutFile (env : RolloutEnv) (dateKey : String)
    (opened : Except String (List String)) : Except String codexSession :=
  match opened with
  | Except.error e => Except.error e
  | Except.ok lines =>
    Except.ok (finishRollout env
      (lines.foldl (rolloutStep env)
        { s := newCodexSession dateKey, firstTimestamp := "", lastTimestamp := "" }))

/-- A rollout file the directory walk of `parseSessions` reaches (a regular
file whose name ends in `.jsonl`): `dateKey` is `dateKeyFromPath(path)` and
`opened` is what opening and scanning the file gives. -/
structure RolloutFile where
  dateKey : String
  opened : Except String (List String)

/-- `parseSessions`: the sessions of the rollout files, in walk order; a file
that `parseRolloutFile` fails on is skipped. -/
def parseSessions (env : RolloutEnv) (files : List RolloutFile) : List codexSession :=
  files.filterMap (fun f =>
    match parseRolloutFile env f.dateKey f.opened with
    | Except.ok s => some s
    | Except.error _ => none)

/-- Line 145 of `Codex.Load`: output and reasoning tokens together. -/
def codexOutputTokens (s : codexSession) : Int :=
  wrapInt64 (s.tokens.TotalTokenUsage.OutputTokens
    + s.tokens.TotalTokenUsage.ReasoningOutputTokens)

/-- Line 146 of `Codex.Load`. -/
def codexTotalTokens (s : codexSession) : Int :=
  wrapInt64 (s.tokens.TotalTokenUsage.InputTokens + codexOutputTokens s)

/-- Lines 148 to 152 of `Codex.Load`: the cost of a session, priced on its
model name. -/
def codexCost (s : codexSession) : ℚ :=
  CalculateCost s.modelName
    { InputTokens := s.tokens.TotalTokenUsage.InputTokens
      OutputTokens := codexOutputTokens s
      CacheRead := s.tokens.TotalTokenUsage.CachedInputTokens
      CacheWrite := 0 }

/-- Lines 179 to 189 of `Codex.Load`: the `SessionInfo` of a session. -/
def codexSessionInfo (s : codexSession) : SessionInfo :=
  { ID := s.id
    Project := s.project
    StartTime := s.startTime
    EndTime := s.endTime
    Messages := s.messages
    UserMessages := s.userMessages
    Tokens := codexTotalTokens s
    Cost := codexCost s
    Model := s.modelName }

/-- The variables of the loop of `Codex.Load` over the sessions. -/
structure CodexLoadState where
  data : ProviderData
  modelMap : List (String × ModelBreakdown)
  dailyMap : List (String × DailyUsage)

/-- Lines 157 to 165 of `Codex.Load`: add a session to the entry of its model
(an absent model starts from `ModelBreakdown{Model: s.modelName}`). -/
def codexModelStep (modelMap : List (String × ModelBreakdown)) (s : codexSession) :
    List (String × ModelBreakdown) :=
  let mb := (modelMap.lookup s.modelName).getD ⟨s.modelName, 0, 0, 0, 0, 0, 0⟩
  mapInsert modelMap s.modelName
    { mb with
      InputTokens := wrapInt64 (mb.InputTokens + s.tokens.TotalTokenUsage.InputTokens)
      OutputTokens := wrapInt64 (mb.OutputTokens + codexOutputTokens s)
      CacheRead := wrapInt64 (mb.CacheRead + s.tokens.TotalTokenUsage.CachedInputTokens)
      Cost := mb.Cost + codexCost s }

/-- Lines 168 to 176 of `Codex.Load`: add a session to the entry of its date
(an absent date starts from `DailyUsage{Date: s.dateKey}`). -/
def codexDailyStep (dailyMap : List (String × DailyUsage)) (s : codexSession) :
    List (String × DailyUsage) :=
  let day := (dailyMap.lookup s.dateKey).getD ⟨s.dateKey, 0, 0, 0, 0, 0⟩
  mapInsert dailyMap s.dateKey
    { day with
      Cost := day.Cost + codexCost s
      Tokens := wrapInt64 (day.Tokens + codexTotalTokens s)
      Messages := wrapInt64 (day.Messages + s.messages)
      Sessions := wrapInt64 (day.Sessions + 1) }

/-- Lines 193 to 195 of `Codex.Load`. -/
def codexFirstSeen (data : ProviderData) (s : codexSession) : ProviderData :=
  if data.FirstSeen.IsZero || s.startTime.Before data.FirstSeen then
    { data with FirstSeen := s.startTime }
  else data

/-- Lines 196 to 200 of `Codex.Load`. -/
def codexLastSeen (data : ProviderData) (s : codexSession) : ProviderData :=
  if s.endTime.After data.LastSeen then { data with LastSeen := s.endTime }
  else if s.startTime.After data.LastSeen then { data with LastSeen := s.startTime }
  else data

/-- Lines 192 to 201 of `Codex.Load`: track the first and last instants seen,
for a session whose start time is not the zero time. -/
def codexSeenStep (data : ProviderData) (s : codexSession) : ProviderData :=
  if !s.startTime.IsZero then codexLastSeen (codexFirstSeen data s) s else data

/-- The body of the loop of `Codex.Load` over the sessions (lines 141 to
202). -/
def codexLoadStep (st : CodexLoadState) (s : codexSession) : CodexLoadState :=
  let data := { st.data with TotalCost := st.data.TotalCost + codexCost s }
  let modelMap := codexModelStep st.modelMap s
  let dailyMap := codexDailyStep st.dailyMap s
  let data := { data with Sessions := data.Sessions ++ [codexSessionInfo s] }
  { data := codexSeenStep data s, modelMap := modelMap, dailyMap := dailyMap }

/-- `Codex.Load` once `parseSessions` has returned `sessions`: `visitModels`
and `visitDaily` list the entries of the two maps in the order the final
`range` loops visit them, and `sortDaily` is what `sort.Slice` by date makes of
the daily slice. -/
def codexLoadSessions
    (visitModels : List (String × ModelBreakdown) → List (String × ModelBreakdown))
    (visitDaily : List (String × DailyUsage) → List (String × DailyUsage))
    (sortDaily : List DailyUsage → List DailyUsage)
    (sessions : List codexSession) : ProviderData :=
  let st := sessions.foldl codexLoadStep
    { data :=
        { ProviderName := "Codex", Icon := "⊡", Color := "#a6e3a1", TotalCost := 0
          DailyUsage := [], Models := [], Sessions := [], Generations := 0
          FirstSeen := Time.zero, LastSeen := Time.zero, Metadata := [] }
      modelMap := []
      dailyMap := [] }
  let data := (visitModels st.modelMap).foldl
    (fun data e => { data with Models := data.Models ++ [e.2] }) st.data
  let data := (visitDaily st.dailyMap).foldl
    (fun data e => { data with DailyUsage := data.DailyUsage ++ [e.2] }) data
  { data with DailyUsage := sortDaily data.DailyUsage }

/-- `Codex.Load` on the rollout files the walk of the sessions directory
reaches (the walk itself reports no error: its callback returns nil on every
entry). -/
def Codex.Load (env : RolloutEnv)
    (visitModels : List (String × ModelBreakdown) → List (String × ModelBreakdown))
    (visitDaily : List (String × DailyUsage) → List (String × DailyUsage))
    (sortDaily : List DailyUsage → List DailyUsage)
    (files : List RolloutFile) : ProviderData :=
  codexLoadSessions visitModels visitDaily sortDaily (parseSessions env files)

/-! ## Gemini sessions (`provider/gemini.go`) -/

/-- Token counts of a Gemini response message. -/
structure geminiTokens where
  Input : Int
  Output : Int
  Cached : Int
  Thoughts : Int
  Tool : Int
  Total : Int
  deriving DecidableEq

/-- A single message of a Gemini session: `Typ` is the field `Type`, `Tokens`
is `none` for a nil pointer, and `ToolCalls` holds the JSON text of each
element of the slice. -/
structure geminiMessage where
  Typ : String
  Content : String
  Tokens : Option geminiTokens
  Model : String
  ToolCalls : List String
  deriving DecidableEq

/-- The JSON structure of a Gemini session file. -/
structure geminiSession where
  SessionID : String
  ProjectHash : String
  StartTime : String
  LastUpdated : String
  Messages : List geminiMessage
  deriving DecidableEq

/-- The library calls and unspecified orders of `Gemini.Load`: `parseTime` is
`time.Parse(time.RFC3339, s)` (`none` for an error, where Go returns the zero
time), `formatDate t` is `t.Format("2006-01-02")`, the `visit` functions list
the entries of a map in the order a `range` loop visits them, and the `sort`
functions are what `sort.Slice` makes of a slice. -/
structure GeminiEnv where
  parseTime : String → Option Time
  formatDate : Time → String
  visitTokens : List (String × TokenUsage) → List (String × TokenUsage)
  visitModels : List (String × ModelBreakdown) → List (String × ModelBreakdown)
  visitDaily : List (String × DailyUsage) → List (String × DailyUsage)
  sortModels : List ModelBreakdown → List ModelBreakdown
  sortDaily : List DailyUsage → List DailyUsage

/-- The variables of the loop of `Gemini.Load` over the messages of a session,
with the map `modelAgg` shared by all sessions. -/
structure GeminiScan where
  totalInput : Int
  totalOutput : Int
  totalCached : Int
  msgCount : Int
  userMsgCount : Int
  sessionModel : String
  sessionModelTokens : List (String × TokenUsage)
  modelAgg : List (String × ModelBreakdown)

/-- Lines 132 to 134 of `Gemini.Load`: the counts of a message added to a
usage. -/
def tokensPlus (existing : TokenUsage) (t : geminiTokens) : TokenUsage :=
  { existing with
    InputTokens := wrapInt64 (existing.InputTokens + t.Input)
    OutputTokens := wrapInt64 (existing.OutputTokens + t.Output)
    CacheRead := wrapInt64 (existing.CacheRead + t.Cached) }

/-- Lines 131 to 135 of `Gemini.Load`: add the counts of a message to the
session's entry of model `m` (an absent entry is the zero `TokenUsage`). -/
def addSessionTokens (sessionModelTokens : List (String × TokenUsage)) (m : String)
    (t : geminiTokens) : List (String × TokenUsage) :=
  mapInsert sessionModelTokens m
    (tokensPlus ((sessionModelTokens.lookup m).getD ⟨0, 0, 0, 0⟩) t)

/-- Lines 143 to 146 of `Gemini.Load`: the counts of a message added to a
breakdown, and one more generation. -/
def breakdownPlus (mb : ModelBreakdown) (t : geminiTokens) : ModelBreakdown :=
  { mb with
    InputTokens := wrapInt64 (mb.InputTokens + t.Input)
    OutputTokens := wrapInt64 (mb.OutputTokens + t.Output)
    CacheRead := wrapInt64 (mb.CacheRead + t.Cached)
    Generations := wrapInt64 (mb.Generations + 1) }

/-- Lines 138 to 146 of `Gemini.Load`: add the counts of a message to the
breakdown of model `m` (an absent entry is `ModelBreakdown{Model: m}`). -/
def addModelAgg (modelAgg : List (String × ModelBreakdown)) (m : String)
    (t : geminiTokens) : List (String × ModelBreakdown) :=
  mapInsert modelAgg m
    (breakdownPlus ((modelAgg.lookup m).getD ⟨m, 0, 0, 0, 0, 0, 0⟩) t)

/-- Lines 125 to 128 of `Gemini.Load`: the model a message is counted under. -/
def geminiModelName (msg : geminiMessage) : String :=
  if msg.Model = "" then "gemini-2.5-pro" else msg.Model

/-- Lines 117 to 146 of `Gemini.Load`: account for a `gemini` message with a
token payload `t`. -/
def geminiAccumulate (st : GeminiScan) (msg : geminiMessage) (t : geminiTokens) :
    GeminiScan :=
  { st with
    totalInput := wrapInt64 (st.totalInput + t.Input)
    totalOutput := wrapInt64 (st.totalOutput + t.Output)
    totalCached := wrapInt64 (st.totalCached + t.Cached)
    sessionModel := geminiModelName msg
    sessionModelTokens := addSessionTokens st.sessionModelTokens (geminiModelName msg) t
    modelAgg := addModelAgg st.modelAgg (geminiModelName msg) t }

/-- The body of the loop over the messages of a session (lines 104 to 147). -/
def geminiMsgStep (st : GeminiScan) (msg : geminiMessage) : GeminiScan :=
  if msg.Typ = "user" then
    { st with
      msgCount := wrapInt64 (st.msgCount + 1)
      userMsgCount := wrapInt64 (st.userMsgCount + 1) }
  else if msg.Typ ≠ "gemini" then { st with msgCount := wrapInt64 (st.msgCount + 1) }
  else
    match msg.Tokens with
    | none => { st with msgCount := wrapInt64 (st.msgCount + 1) }
    | some t => geminiAccumulate { st with msgCount := wrapInt64 (st.msgCount + 1) } msg t

/-- Lines 99 to 147 of `Gemini.Load`: the loop over the messages of a session,
started from zero counters, an empty per-session map and the shared
`modelAgg`. -/
def geminiScan (modelAgg : List (String × ModelBreakdown)) (sess : geminiSession) :
    GeminiScan :=
  sess.Messages.foldl geminiMsgStep
    { totalInput := 0, totalOutput := 0, totalCached := 0, msgCount := 0, userMsgCount := 0
      sessionModel := "", sessionModelTokens := [], modelAgg := modelAgg }

/-- Line 93 of `Gemini.Load`. -/
def geminiStartTime (env : GeminiEnv) (sess : geminiSession) : Time :=
  (env.parseTime sess.StartTime).getD Time.zero

/-- Lines 94 to 97 of `Gemini.Load`. -/
def geminiEndTime (env : GeminiEnv) (sess : geminiSession) : Time :=
  if ((env.parseTime sess.LastUpdated).getD Time.zero).IsZero then geminiStartTime env sess
  else (env.parseTime sess.LastUpdated).getD Time.zero

/-- Lines 150 to 154 of `Gemini.Load`: the session cost, summed over the
per-session map in the order `visitTokens` lists it. -/
def geminiSessionCost (env : GeminiEnv) (scan : GeminiScan) : ℚ :=
  (env.visitTokens scan.sessionModelTokens).foldl (fun c e => c + CalculateCost e.1 e.2) 0

/-- Line 151 of `Gemini.Load`. -/
def geminiTotalTokens (scan : GeminiScan) : Int :=
  wrapInt64 (wrapInt64 (scan.totalInput + scan.totalOutput) + scan.totalCached)

/-- Lines 156 to 166 of `Gemini.Load`. -/
def geminiSessionInfo (env : GeminiEnv) (sess : geminiSession) (scan : GeminiScan) :
    SessionInfo :=
  { ID := sess.SessionID
    Project := sess.ProjectHash
    StartTime := geminiStartTime env sess
    EndTime := geminiEndTime env sess
    Messages := scan.msgCount
    UserMessages := scan.userMsgCount
    Tokens := geminiTotalTokens scan
    Cost := geminiSessionCost env scan
    Model := scan.sessionModel }

/-- Lines 171 to 175 of `Gemini.Load`. -/
def geminiFirstSeen (data : ProviderData) (startTime : Time) : ProviderData :=
  if !startTime.IsZero then
    if data.FirstSeen.IsZero || startTime.Before data.FirstSeen then
      { data with FirstSeen := startTime }
    else data
  else data

/-- Lines 176 to 178 of `Gemini.Load`. -/
def geminiLastSeen (data : ProviderData) (endTime : Time) : ProviderData :=
  if !endTime.IsZero && endTime.After data.LastSeen then { data with LastSeen := endTime }
  else data

/-- Lines 181 to 192 of `Gemini.Load`: add a session to the entry of its start
date (an absent date starts from `DailyUsage{Date: dateKey}`). -/
def geminiDaily (env : GeminiEnv) (dailyAgg : List (String × DailyUsage))
    (si : SessionInfo) : List (String × DailyUsage) :=
  if !si.StartTime.IsZero then
    let du := (dailyAgg.lookup (env.formatDate si.StartTime)).getD
      ⟨env.formatDate si.StartTime, 0, 0, 0, 0, 0⟩
    mapInsert dailyAgg (env.formatDate si.StartTime)
      { du with
        Cost := du.Cost + si.Cost
        Tokens := wrapInt64 (du.Tokens + si.Tokens)
        Messages := wrapInt64 (du.Messages + si.Messages)
        Sessions := wrapInt64 (du.Sessions + 1) }
  else dailyAgg

/-- The variables of the loop of `Gemini.Load` over the sessions. -/
structure GeminiLoadState where
  data : ProviderData
  modelAgg : List (String × ModelBreakdown)
  dailyAgg : List (String × DailyUsage)

/-- Lines 167 and 168 of `Gemini.Load`: record the session and add its cost to
the total. -/
def geminiRecord (data : ProviderData) (si : SessionInfo) : ProviderData :=
  { data with Sessions := data.Sessions ++ [si], TotalCost := data.TotalCost + si.Cost }

/-- The body of the loop of `Gemini.Load` over the sessions (lines 92 to
193). -/
def geminiSessionStep (env : GeminiEnv) (st : GeminiLoadState) (sess : geminiSession) :
    GeminiLoadState :=
  { data :=
      geminiLastSeen
        (geminiFirstSeen
          (geminiRecord st.data (geminiSessionInfo env sess (geminiScan st.modelAgg sess)))
          (geminiStartTime env sess))
        (geminiEndTime env sess)
    modelAgg := (geminiScan st.modelAgg sess).modelAgg
    dailyAgg :=
      geminiDaily env st.dailyAgg (geminiSessionInfo env sess (geminiScan st.modelAgg sess)) }

/-- Lines 197 to 202 of `Gemini.Load`: the breakdown of a model with its cost,
priced on the usage accumulated across sessions. -/
def geminiFinishModel (e : String × ModelBreakdown) : ModelBreakdown :=
  { e.2 with
    Cost := CalculateCost e.1
      { InputTokens := e.2.InputTokens, OutputTokens := e.2.OutputTokens
        CacheRead := e.2.CacheRead, CacheWrite := 0 } }

/-- `Gemini.Load` once `loadSessions` has returned `sessions`. -/
def geminiLoadSessions (env : GeminiEnv) (sessions : List geminiSession) : ProviderData :=
  let st := sessions.foldl (geminiSessionStep env)
    { data :=
        { ProviderName := "Gemini", Icon := "✦", Color := "#74c7ec", TotalCost := 0
          DailyUsage := [], Models := [], Sessions := [], Generations := 0
          FirstSeen := Time.zero, LastSeen := Time.zero, Metadata := [] }
      modelAgg := []
      dailyAgg := [] }
  { st.data with
    Models := env.sortModels ((env.visitModels st.modelAgg).map geminiFinishModel)
    DailyUsage := env.sortDaily ((env.visitDaily st.dailyAgg).map Prod.snd) }

/-- `Gemini.Load`: `loaded` is what `loadSessions` returns, `Except.error e`
for a non-nil error; the cost function is `CalculateCost` of the package
`internal/model`, which `gemini.go` imports under the module's former path. -/
def Gemini.Load (env : GeminiEnv) (loaded : Except String (List geminiSession)) :
    Except String ProviderData :=
  match loaded with
  | Except.error e => Except.error e
  | Except.ok sessions => Except.ok (geminiLoadSessions env sessions)

/-! ## Binary64 arithmetic (Go `float64`) -/

/-- A finite `float64` value `m * 2^e`.  The operations below return values in
normal form: `m = 0` and `e = 0`, or `2^52 ≤ |m| < 2^53`, so that two values are
equal exactly when their fields are.  The exponent is unbounded: overflow to
infinity and subnormal results, out of reach for token counts and prices, are
left out, and zero has no sign. -/
structure F64 where
  m : Int
  e : Int
  deriving DecidableEq

/-- The loop of `F64.log2`: halve `n` until it is below 2, at most `fuel`
times. -/
def F64.log2Loop : Nat → Nat → Nat
  | 0, _ => 0
  | fuel + 1, n => if n < 2 then 0 else F64.log2Loop fuel (n / 2) + 1

/-- The integer part of the binary logarithm of `n` (0 for `n = 0`). -/
def F64.log2 (n : Nat) : Nat := F64.log2Loop n n

/-- The pair `(N, D)` with `N / D = a / (den * 2^t)`. -/
def F64.scaled (a den : Nat) (t : Int) : Nat × Nat :=
  if 0 ≤ t then (a, den * 2 ^ t.toNat) else (a * 2 ^ (-t).toNat, den)

/-- IEEE 754 rounding to nearest, ties to even, with 53 significant bits: the
`float64` nearest to `num / den * 2^sh`, for `den > 0`. -/
def F64.round (num : Int) (den : Nat) (sh : Int) : F64 :=
  if num = 0 then ⟨0, 0⟩
  else
    let a := num.natAbs
    let t0 : Int := (F64.log2 a : Int) - (F64.log2 den : Int) - 53
    let t : Int :=
      if (F64.scaled a den t0).1 / (F64.scaled a den t0).2 ≥ 2 ^ 53 then t0 + 1 else t0
    let q := (F64.scaled a den t).1 / (F64.scaled a den t).2
    let r := (F64.scaled a den t).1 % (F64.scaled a den t).2
    let up : Bool :=
      decide (2 * r > (F64.scaled a den t).2)
        || (decide (2 * r = (F64.scaled a den t).2) && decide (q % 2 = 1))
    let q := if up then q + 1 else q
    let t := if q = 2 ^ 53 then t + 1 else t
    let q := if q = 2 ^ 53 then 2 ^ 52 else q
    ⟨if 0 < num then (q : Int) else -(q : Int), t + sh⟩

/-- Go `float64(n)` for an `int` `n`. -/
def F64.ofInt (n : Int) : F64 := F64.round n 1 0

/-- The `float64` constant a decimal literal denotes: the value nearest to the
exact rational. -/
def F64.ofRat (q : ℚ) : F64 := F64.round q.num q.den 0

/-- Go `x + y` on `float64`: the exact sum, rounded. -/
def F64.add (x y : F64) : F64 :=
  F64.round (x.m * 2 ^ (x.e - min x.e y.e).toNat + y.m * 2 ^ (y.e - min x.e y.e).toNat) 1
    (min x.e y.e)

/-- Go `x * y` on `float64`: the exact product, rounded. -/
def F64.mul (x y : F64) : F64 := F64.round (x.m * y.m) 1 (x.e + y.e)

/-- Go `x / y` on `float64`, for `y` not zero: the exact quotient, rounded. -/
def F64.div (x y : F64) : F64 :=
  F64.round (if 0 < y.m then x.m else -x.m) y.m.natAbs (x.e - y.e)

/-- `CalculateCost` with the rounding of each `float64` operation: the body of
`pricing.go` lines 106 to 117, every rate being the `float64` constant of its
decimal literal. -/
def CalculateCostF64 (model : String) (usage : TokenUsage) : F64 :=
  match GetPricing model with
  | (_, false) => ⟨0, 0⟩
  | (pricing, true) =>
    let cost := F64.div (F64.mul (F64.ofInt usage.InputTokens) (F64.ofRat pricing.InputPerMTok))
      (F64.ofInt 1000000)
    let cost := F64.add cost
      (F64.div (F64.mul (F64.ofInt usage.OutputTokens) (F64.ofRat pricing.OutputPerMTok))
        (F64.ofInt 1000000))
    let cost := F64.add cost
      (F64.div (F64.mul (F64.ofInt usage.CacheRead) (F64.ofRat pricing.CacheReadPerMTok))
        (F64.ofInt 1000000))
    let cost := F64.add cost
      (F64.div (F64.mul (F64.ofInt usage.CacheWrite) (F64.ofRat pricing.CacheWritePerMTok))
        (F64.ofInt 1000000))
    cost

/-- `CalculateCostFromModelUsage` with the rounding of each `float64`
operation. -/
def CalculateCostFromModelUsageF64 (model : String) (mu : ModelUsage) : F64 :=
  CalculateCostF64 model
    { InputTokens := mu.InputTokens
      OutputTokens := mu.OutputTokens
      CacheRead := mu.CacheReadInputTokens
      CacheWrite := mu.CacheCreationInputTokens }

/-- `TotalCostFromModelUsage` with the rounding of each `float64` operation:
`total += cost` for the entries of the usage map in the order the `range` loop
visits them, which is the order of the list. -/
def TotalCostFromModelUsageF64 (usage : List (String × ModelUsage)) : F64 :=
  usage.foldl (fun total e => F64.add total (CalculateCostFromModelUsageF64 e.1 e.2)) ⟨0, 0⟩

/-- The cost of a day in `AggregateDaily` with the rounding of each `float64`
operation (`aggregate.go`, the loop over `models`): `cost += float64(tokens) *
p.OutputPerMTok / 1_000_000` for the models whose pricing is found, in the
order the `range` loop visits them, which is the order of the list. -/
def dayCostF64 (models : List (String × Int)) : F64 :=
  models.foldl
    (fun cost e =>
      match GetPricing e.1 with
      | (p, true) =>
        F64.add cost
          (F64.div (F64.mul (F64.ofInt e.2) (F64.ofRat p.OutputPerMTok)) (F64.ofInt 1000000))
      | (_, false) => cost)
    ⟨0, 0⟩

/-! ## Notions of the specification -/

/-- The string `s` begins with `pre`. -/
def BeginsWith (s pre : String) : Prop := ∃ t : String, s = pre ++ t

/-- The string `d` consists of eight decimal digits. -/
def IsDate8 (d : String) : Prop := d.data.length = 8 ∧ ∀ c ∈ d.data, c.isDigit = true

/-- The string `s` ends with a hyphen followed by eight decimal digits. -/
def EndsWithDate (s : String) : Prop := ∃ p d : String, IsDate8 d ∧ s = p ++ "-" ++ d

/-- A dollar amount rounded to the cent, in cents. -/
def roundCents (q : ℚ) : Int := ⌊q * 100 + 1 / 2⌋

/-- The million-token usage of `TestCalculateCost`. -/
def millionEach : TokenUsage :=
  { InputTokens := 1000000, OutputTokens := 1000000, CacheRead := 1000000,
    CacheWrite := 1000000 }

/-- The single-entry usage table of the cache-summary scenario. -/
def cacheSummaryUsage : List (String × ModelUsage) :=
  [ ("claude-opus-4-6",
      { InputTokens := 112444, OutputTokens := 958448,
        CacheReadInputTokens := 623295535, CacheCreationInputTokens := 44469146 }) ]

/-- The integer `n` is a value of Go's 64-bit `int`. -/
def InInt64 (n : Int) : Prop := -2 ^ 63 ≤ n ∧ n < 2 ^ 63

instance (n : Int) : Decidable (InInt64 n) := by
  unfold InInt64
  exact inferInstance

/-- Sum of the per-model token totals of one day. -/
def tokenSum (models : List (String × Int)) : Int := (models.map Prod.snd).sum

/-- Sum, over the models for which `GetPricing` is found, of
`tokens * OutputPerMTok / 1,000,000`. -/
def outputRateCost (models : List (String × Int)) : ℚ :=
  ((models.filter (fun e => (GetPricing e.1).2)).map
    (fun e => (e.2 : ℚ) * (GetPricing e.1).1.OutputPerMTok / 1000000)).sum

/-- A stats cache with two activity days and a token log that also holds a day
without activity. -/
def sampleCache : StatsCache :=
  { Version := 1
    LastComputedDate := "2025-11-03"
    DailyActivity := [⟨"2025-11-01", 10, 2, 3⟩, ⟨"2025-11-02", 4, 1, 0⟩]
    DailyModelTokens :=
      [ ⟨"2025-11-01", [("claude-opus-4-6", 1000), ("unknown-model", 50)]⟩,
        ⟨"2025-10-31", [("o3", 7)]⟩ ]
    ModelUsage := []
    TotalSessions := 3
    TotalMessages := 14
    LongestSession := ⟨"s", 0, 0, ""⟩
    FirstSessionDate := "2025-10-31"
    HourCounts := [] }

/-- The first day of `sampleCache` as aggregated: 1050 tokens, of which the 1000
of `claude-opus-4-6` are priced at the output rate 25 per million. -/
def sampleDay : DailyStats :=
  { Date := "2025-11-01"
    Messages := 10
    Sessions := 2
    ToolCalls := 3
    TotalTokens := 1050
    TokensByModel := [("claude-opus-4-6", 1000), ("unknown-model", 50)]
    Cost := 0.025 }

/-- The days counted in the current week: those with `Date >= weekAgo`. -/
def thisWeekDays (weekAgo : String) (days : List DailyStats) : List DailyStats :=
  days.filter (fun d => decide (weekAgo ≤ d.Date))

/-- The days counted in the preceding week: those with
`twoWeeksAgo <= Date < weekAgo`. -/
def lastWeekDays (weekAgo twoWeeksAgo : String) (days : List DailyStats) :
    List DailyStats :=
  days.filter (fun d => decide (twoWeeksAgo ≤ d.Date) && decide (d.Date < weekAgo))

/-- Total cost of a list of days. -/
def costSum (days : List DailyStats) : ℚ := (days.map (fun d => d.Cost)).sum

/-- The zero value of `DailyUsage`. -/
def zeroUsage : DailyUsage := ⟨"", 0, 0, 0, 0, 0⟩

/-- The entries of a list of daily usages that carry the date `date`. -/
def onDate (date : String) (entries : List DailyUsage) : List DailyUsage :=
  entries.filter (fun e => decide (e.Date = date))

/-- The per-date total of a list of entries: the cost summed exactly, the four
counters summed in 64-bit integer arithmetic. -/
def dateTotal (date : String) (entries : List DailyUsage) : DailyUsage :=
  { Date := date
    Cost := ((onDate date entries).map (fun e => e.Cost)).sum
    Tokens := wrapInt64 ((onDate date entries).map (fun e => e.Tokens)).sum
    Messages := wrapInt64 ((onDate date entries).map (fun e => e.Messages)).sum
    Sessions := wrapInt64 ((onDate date entries).map (fun e => e.Sessions)).sum
    Generations := wrapInt64 ((onDate date entries).map (fun e => e.Generations)).sum }

/-- The data of the providers that `LoadAll` does not skip, in input order:
those that are available and whose `Load` succeeds. -/
def loaded (providers : List Provider) : List ProviderData :=
  providers.filterMap (fun p =>
    if p.Available then
      match p.Load with
      | Except.ok data => some data
      | Except.error _ => none
    else none)

/-- All daily entries of the loaded providers, in processing order. -/
def loadedEntries (providers : List Provider) : List DailyUsage :=
  (loaded providers).flatMap (fun d => d.DailyUsage)

/-- All sessions of the loaded providers, in processing order. -/
def loadedSessions (providers : List Provider) : List SessionInfo :=
  (loaded providers).flatMap (fun d => d.Sessions)

/-- The update of `agg.FirstSeen` by one loaded provider. -/
def firstSeenStep (cur next : Time) : Time :=
  if cur.IsZero || (!next.IsZero && next.Before cur) then next else cur

/-- The update of `agg.LastSeen` by one loaded provider. -/
def lastSeenStep (cur next : Time) : Time :=
  if next.After cur then next else cur

/-- The entry of a daily usage list for `date`, a date absent from the list
counting as the zero entry. -/
def usageOn (date : String) (days : List DailyUsage) : DailyUsage :=
  (days.find? (fun d => decide (d.Date = date))).getD zeroUsage

/-- Whether `LoadAll` keeps a provider: it is available and its `Load`
succeeds. -/
def loads (p : Provider) : Bool :=
  p.Available &&
    match p.Load with
    | Except.ok _ => true
    | Except.error _ => false

/-- Data of a first sample provider: two days, one session. -/
def sampleDataA : ProviderData :=
  { ProviderName := "claude"
    Icon := ""
    Color := ""
    TotalCost := 3
    DailyUsage := [⟨"2025-11-02", 2, 10, 1, 1, 0⟩, ⟨"2025-11-01", 1, 5, 1, 1, 0⟩]
    Models := []
    Sessions := [⟨"s1", "/p", ⟨100⟩, ⟨200⟩, 2, 1, 15, 3, "claude-opus-4-6"⟩]
    Generations := 0
    FirstSeen := ⟨100⟩
    LastSeen := ⟨200⟩
    Metadata := [] }

/-- Data of a second sample provider: one day shared with the first, one
session. -/
def sampleDataB : ProviderData :=
  { ProviderName := "cursor"
    Icon := ""
    Color := ""
    TotalCost := 4
    DailyUsage := [⟨"2025-11-01", 3, 7, 2, 1, 4⟩]
    Models := []
    Sessions := [⟨"s2", "/q", ⟨50⟩, ⟨150⟩, 2, 1, 7, 4, "gpt-4o"⟩]
    Generations := 4
    FirstSeen := ⟨50⟩
    LastSeen := ⟨150⟩
    Metadata := [] }

/-- An available provider that loads `sampleDataA`. -/
def sampleProviderA : Provider := ⟨"claude", "", "", Except.ok sampleDataA, true⟩

/-- An available provider that loads `sampleDataB`. -/
def sampleProviderB : Provider := ⟨"cursor", "", "", Except.ok sampleDataB, true⟩

/-- A provider whose data source is absent. -/
def sampleProviderDown : Provider := ⟨"gemini", "", "", Except.ok sampleDataB, false⟩

/-- An available provider whose `Load` fails. -/
def sampleProviderBroken : Provider := ⟨"codex", "", "", Except.error "unreadable", true⟩

/-- Four providers, two of which are skipped. -/
def sampleProviders : List Provider :=
  [sampleProviderA, sampleProviderDown, sampleProviderBroken, sampleProviderB]

/-- Data of a provider whose only activity is dated one day before the zero
time. -/
def ancientData : ProviderData :=
  { ProviderName := "cursor"
    Icon := ""
    Color := ""
    TotalCost := 0
    DailyUsage := []
    Models := []
    Sessions := []
    Generations := 0
    FirstSeen := ⟨-86400000000000⟩
    LastSeen := ⟨-86400000000000⟩
    Metadata := [] }

/-- An available provider that loads `ancientData`. -/
def ancientProvider : Provider := ⟨"cursor", "", "", Except.ok ancientData, true⟩

/-- The `sampleProviders` with the `Load` of the absent source replaced by a
failing one. -/
def sampleProvidersAlt : List Provider :=
  [sampleProviderA, ⟨"gemini", "", "", Except.error "never consulted", false⟩,
    sampleProviderBroken, sampleProviderB]

/-- Data of a provider with one session of `2^63 - 1` tokens, the largest value
of Go's `int`. -/
def hugeData : ProviderData :=
  { ProviderName := "claude"
    Icon := ""
    Color := ""
    TotalCost := 0
    DailyUsage := []
    Models := []
    Sessions := [⟨"big", "/p", ⟨1⟩, ⟨2⟩, 1, 1, 9223372036854775807, 0, "claude-opus-4-6"⟩]
    Generations := 0
    FirstSeen := ⟨1⟩
    LastSeen := ⟨2⟩
    Metadata := [] }

/-- Data of a provider with one session of one token. -/
def tinyData : ProviderData :=
  { ProviderName := "codex"
    Icon := ""
    Color := ""
    TotalCost := 0
    DailyUsage := []
    Models := []
    Sessions := [⟨"small", "/q", ⟨3⟩, ⟨4⟩, 1, 1, 1, 0, "o3"⟩]
    Generations := 0
    FirstSeen := ⟨3⟩
    LastSeen := ⟨4⟩
    Metadata := [] }

/-- An available provider that loads `hugeData`. -/
def hugeProvider : Provider := ⟨"claude", "", "", Except.ok hugeData, true⟩

/-- An available provider that loads `tinyData`. -/
def tinyProvider : Provider := ⟨"codex", "", "", Except.ok tinyData, true⟩

/-- Two token-log entries for the same date that hold the same per-model
table, possibly listed in a different order. -/
def sameTokens (a b : DailyModelTokens) : Prop :=
  a.Date = b.Date ∧ a.TokensByModel.Perm b.TokensByModel

/-- The fields of a `DailyStats` other than the per-model table. -/
def DailyStats.figures (d : DailyStats) : String × Int × Int × Int × Int × ℚ :=
  (d.Date, d.Messages, d.Sessions, d.ToolCalls, d.TotalTokens, d.Cost)

/-- The `sampleCache` with every per-model table listed in reverse order. -/
def sampleCacheAlt : StatsCache :=
  { sampleCache with
    DailyModelTokens :=
      [ ⟨"2025-11-01", [("claude-opus-4-6", 1000), ("unknown-model", 50)].reverse⟩,
        ⟨"2025-10-31", [("o3", 7)].reverse⟩ ] }

/-- Two per-date indexes that agree at every date up to the listing order of the
per-model tables. -/
def sameIndex (m₁ m₂ : List (String × List (String × Int))) : Prop :=
  ∀ d : String, (m₁.lookup d = none ∧ m₂.lookup d = none)
    ∨ ∃ x₁ x₂, m₁.lookup d = some x₁ ∧ m₂.lookup d = some x₂ ∧ x₁.Perm x₂

/-- The session a log starts from. -/
def emptySession (project : String) : Session :=
  { ID := ""
    Project := project
    StartTime := Time.zero
    EndTime := Time.zero
    MessageCount := 0
    UserMessages := 0
    TokenUsage := ⟨0, 0, 0, 0⟩
    Models := [] }

/-- The line decodes. -/
def decodes (decode : String → Option SessionMessage) (line : String) : Bool :=
  (decode line).isSome

/-- The line decodes to a message of type `user`. -/
def isUserLine (decode : String → Option SessionMessage) (line : String) : Bool :=
  match decode line with
  | some msg => decide (msg.Typ = "user")
  | none => false

/-- The usage payload of a line that decodes to a message of type `assistant`
carrying one, together with the model name of the message. -/
def usageOfLine (decode : String → Option SessionMessage) (line : String) :
    Option (String × Usage) :=
  match decode line with
  | some msg =>
    if msg.Typ = "assistant" then
      match msg.Message with
      | some detail =>
        match detail.Usage with
        | some u => some (detail.Model, u)
        | none => none
      | none => none
    else none
  | none => none

/-- The line decodes to an assistant message with a usage payload. -/
def hasUsageLine (decode : String → Option SessionMessage) (line : String) : Bool :=
  (usageOfLine decode line).isSome

/-- The line is billable: an assistant message with a usage payload and a
non-empty model name. -/
def isBillableLine (decode : String → Option SessionMessage) (line : String) : Bool :=
  match usageOfLine decode line with
  | some (m, _) => decide (m ≠ "")
  | none => false

/-- A token usage with the counts of one message added, as lines 61 to 64 and
67 to 70 of `ParseSessionFile` add them. -/
def addUsage (t : TokenUsage) (u : Usage) : TokenUsage :=
  { InputTokens := wrapInt64 (t.InputTokens + u.InputTokens)
    OutputTokens := wrapInt64 (t.OutputTokens + u.OutputTokens)
    CacheRead := wrapInt64 (t.CacheRead + u.CacheReadInputTokens)
    CacheWrite := wrapInt64 (t.CacheWrite + u.CacheCreationInputTokens) }

/-- The model name and usage of a billable line. -/
def billableOfLine (decode : String → Option SessionMessage) (line : String) :
    Option (String × Usage) :=
  match usageOfLine decode line with
  | some (m, u) => if m = "" then none else some (m, u)
  | none => none

/-- The usages of the billable lines of a log, in order. -/
def billableUsages (decode : String → Option SessionMessage) (lines : List String) :
    List Usage :=
  lines.filterMap (fun l => (billableOfLine decode l).map Prod.snd)

/-- One component of a session's token usage agrees with the per-model table
and with the billable lines: `total` is the sum of the per-model values and the
sum of the per-line values, in 64-bit integer arithmetic, and the plain sum
whenever that sum is a 64-bit value. -/
def componentConsistent (total : Int) (perModel perLine : List Int) : Prop :=
  total = wrapInt64 perModel.sum
  ∧ total = wrapInt64 perLine.sum
  ∧ (InInt64 perModel.sum → total = perModel.sum)
  ∧ (InInt64 perLine.sum → total = perLine.sum)

/-- The four components of the token usage of `s` agree with its per-model
table and with the billable lines of `lines`. -/
def usageConsistent (decode : String → Option SessionMessage) (s : Session)
    (lines : List String) : Prop :=
  componentConsistent s.TokenUsage.InputTokens
      (s.Models.map (fun e => e.2.InputTokens))
      ((billableUsages decode lines).map (fun u => u.InputTokens))
  ∧ componentConsistent s.TokenUsage.OutputTokens
      (s.Models.map (fun e => e.2.OutputTokens))
      ((billableUsages decode lines).map (fun u => u.OutputTokens))
  ∧ componentConsistent s.TokenUsage.CacheRead
      (s.Models.map (fun e => e.2.CacheRead))
      ((billableUsages decode lines).map (fun u => u.CacheReadInputTokens))
  ∧ componentConsistent s.TokenUsage.CacheWrite
      (s.Models.map (fun e => e.2.CacheWrite))
      ((billableUsages decode lines).map (fun u => u.CacheCreationInputTokens))

/-- A log line holding an assistant message with role `assistant`, the usage
payload `input_tokens: 5, output_tokens: 7` and no model name. -/
def lineNoModel : String :=
  "\x7b\"type\":\"assistant\",\"message\":\x7b\"role\":\"assistant\",\"usage\":\x7b\"input_tokens\":5,\"output_tokens\":7\x7d\x7d\x7d"

/-- A log line holding a user message. -/
def lineUser : String :=
  "\x7b\"type\":\"user\",\"sessionId\":\"s1\",\"timestamp\":\"2025-11-01T10:00:00Z\"\x7d"

/-- A log line holding an assistant message of `claude-opus-4-6` with usage
`(10, 20, 30, 40)`. -/
def lineOpus : String :=
  "\x7b\"type\":\"assistant\",\"message\":\x7b\"model\":\"claude-opus-4-6\",\"usage\":\x7b\"input_tokens\":10,\"output_tokens\":20,\"cache_read_input_tokens\":30,\"cache_creation_input_tokens\":40\x7d\x7d\x7d"

/-- A line that is not JSON. -/
def lineGarbage : String := "not json"

/-- What `json.Unmarshal` returns on the four sample lines (and an error on any
other text). -/
def sampleDecode (line : String) : Option SessionMessage :=
  if line = lineNoModel then
    some ⟨"assistant", "", "", "", some ⟨"assistant", "", some ⟨5, 7, 0, 0⟩⟩, ""⟩
  else if line = lineUser then
    some ⟨"user", "s1", "2025-11-01T10:00:00Z", "", none, ""⟩
  else if line = lineOpus then
    some ⟨"assistant", "", "", "", some ⟨"", "claude-opus-4-6", some ⟨10, 20, 30, 40⟩⟩, ""⟩
  else none

/-- What `time.Parse` returns on the sample timestamp (and an error
otherwise). -/
def sampleParseTime (ts : String) : Option Time :=
  if ts = "2025-11-01T10:00:00Z" then some ⟨63897588000000000000⟩ else none

/-- The event a line delivers to the `event_msg` case of `parseRolloutFile`:
the line is not empty, its `peek` decodes with type `event_msg`, and the line
decodes as an event. -/
def eventOfLine (env : RolloutEnv) (line : String) : Option codexEventMsg :=
  if line.utf8ByteSize = 0 then none
  else
    match env.peek line with
    | none => none
    | some peek => if peek.Typ = "event_msg" then env.eventMsg line else none

/-- The snapshot of an `event_msg` line of payload type `token_count` with a
decodable `info` object. -/
def snapshotOfLine (env : RolloutEnv) (line : String) : Option codexTokenInfo :=
  match eventOfLine env line with
  | none => none
  | some evt =>
    if evt.Payload.Typ = "token_count" then evt.Payload.Info.bind env.tokenInfo else none

/-- The snapshot of a line, when its `total_tokens` is positive. -/
def positiveSnapshotOfLine (env : RolloutEnv) (line : String) : Option codexTokenInfo :=
  (snapshotOfLine env line).filter (fun info => decide (0 < info.TotalTokenUsage.TotalTokens))

/-- The timestamp carried by a header line (a decodable `session_meta` line or
old-format header). -/
def headerStampOfLine (env : RolloutEnv) (line : String) : Option String :=
  if line.utf8ByteSize = 0 then none
  else
    match env.peek line with
    | none => none
    | some peek =>
      if peek.Typ = "session_meta" then
        (env.sessionMeta line).map (fun m => m.Payload.Timestamp)
      else if peek.ID ≠ "" ∧ peek.Typ = "" then
        (env.oldMeta line).map (fun m => m.Timestamp)
      else none

/-- The timestamp carried by a header line or an `event_msg` line. -/
def stampOfLine (env : RolloutEnv) (line : String) : Option String :=
  match headerStampOfLine env line with
  | some t => some t
  | none => (eventOfLine env line).map (fun evt => evt.Timestamp)

/-- The timestamp a line leaves in `lastTimestamp`: the timestamp of a header
line, empty or not, or the non-empty timestamp of an `event_msg` line. -/
def lastStampOfLine (env : RolloutEnv) (line : String) : Option String :=
  match headerStampOfLine env line with
  | some t => some t
  | none => ((eventOfLine env line).map (fun evt => evt.Timestamp)).filter (fun t => t ≠ "")

/-- The parseable timestamps carried by the header and `event_msg` lines of a
file, in file order. -/
def stampTimes (env : RolloutEnv) (lines : List String) : List Time :=
  lines.filterMap (fun l => (stampOfLine env l).bind (parseStamp env))

/-- The non-empty model name of a decodable `turn_context` line. -/
def modelOfLine (env : RolloutEnv) (line : String) : Option String :=
  if line.utf8ByteSize = 0 then none
  else
    match env.peek line with
    | none => none
    | some peek =>
      if peek.Typ = "turn_context" then
        ((env.turnContext line).map (fun tc => tc.Payload.Model)).filter (fun m => m ≠ "")
      else none

/-- A `turn_context` line naming the model `gpt-4o`. -/
def lineTurnA : String :=
  "\x7b\"type\":\"turn_context\",\"payload\":\x7b\"model\":\"gpt-4o\"\x7d\x7d"

/-- A `turn_context` line naming the model `gpt-4.1`. -/
def lineTurnB : String :=
  "\x7b\"type\":\"turn_context\",\"payload\":\x7b\"model\":\"gpt-4.1\"\x7d\x7d"

/-- The `info` object of a snapshot with input 10, output 5 and total 15. -/
def rawSnap15 : String :=
  "\x7b\"total_token_usage\":\x7b\"input_tokens\":10,\"output_tokens\":5,\"total_tokens\":15\x7d\x7d"

/-- The `info` object of a snapshot with input 100 and output 50 that carries
no `total_tokens` member. -/
def rawSnapNoTotal : String :=
  "\x7b\"total_token_usage\":\x7b\"input_tokens\":100,\"output_tokens\":50\x7d\x7d"

/-- The `info` object of a snapshot with input 100, output 50 and total 150. -/
def rawSnap150 : String :=
  "\x7b\"total_token_usage\":\x7b\"input_tokens\":100,\"output_tokens\":50,\"total_tokens\":150\x7d\x7d"

/-- A `token_count` event stamped 12:00 carrying `rawSnap15`. -/
def lineSnap15 : String :=
  "\x7b\"timestamp\":\"2025-11-01T12:00:00Z\",\"type\":\"event_msg\",\"payload\":\x7b\"type\":\"token_count\",\"info\":"
    ++ rawSnap15 ++ "\x7d\x7d"

/-- A `token_count` event stamped 10:00 carrying `rawSnapNoTotal`. -/
def lineSnapNoTotal : String :=
  "\x7b\"timestamp\":\"2025-11-01T10:00:00Z\",\"type\":\"event_msg\",\"payload\":\x7b\"type\":\"token_count\",\"info\":"
    ++ rawSnapNoTotal ++ "\x7d\x7d"

/-- A `token_count` event stamped 13:00 carrying `rawSnap150`. -/
def lineSnap150 : String :=
  "\x7b\"timestamp\":\"2025-11-01T13:00:00Z\",\"type\":\"event_msg\",\"payload\":\x7b\"type\":\"token_count\",\"info\":"
    ++ rawSnap150 ++ "\x7d\x7d"

/-- What `time.Parse` returns on the three sample timestamps (and an error
otherwise). -/
def sampleStamp (ts : String) : Option Time :=
  if ts = "2025-11-01T10:00:00Z" then some ⟨63897588000000000000⟩
  else if ts = "2025-11-01T12:00:00Z" then some ⟨63897595200000000000⟩
  else if ts = "2025-11-01T13:00:00Z" then some ⟨63897598800000000000⟩
  else none

/-- What the library calls return on the sample lines, for the decoders the
parser consults on them (and an error on any other text). -/
def sampleRolloutEnv : RolloutEnv where
  peek := fun line =>
    if line = lineTurnA ∨ line = lineTurnB then some ⟨"turn_context", "", ""⟩
    else if line = lineSnap15 ∨ line = lineSnapNoTotal ∨ line = lineSnap150 then
      some ⟨"event_msg", "", ""⟩
    else none
  sessionMeta := fun _ => none
  oldMeta := fun _ => none
  turnContext := fun line =>
    if line = lineTurnA then some ⟨"turn_context", ⟨"", "gpt-4o"⟩⟩
    else if line = lineTurnB then some ⟨"turn_context", ⟨"", "gpt-4.1"⟩⟩
    else none
  eventMsg := fun line =>
    if line = lineSnap15 then
      some ⟨"2025-11-01T12:00:00Z", "event_msg", ⟨"token_count", some rawSnap15⟩⟩
    else if line = lineSnapNoTotal then
      some ⟨"2025-11-01T10:00:00Z", "event_msg", ⟨"token_count", some rawSnapNoTotal⟩⟩
    else if line = lineSnap150 then
      some ⟨"2025-11-01T13:00:00Z", "event_msg", ⟨"token_count", some rawSnap150⟩⟩
    else none
  tokenInfo := fun raw =>
    if raw = rawSnap15 then some ⟨⟨10, 0, 5, 0, 15⟩⟩
    else if raw = rawSnapNoTotal then some ⟨⟨100, 0, 50, 0, 0⟩⟩
    else if raw = rawSnap150 then some ⟨⟨100, 0, 50, 0, 150⟩⟩
    else none
  responseItem := fun _ => none
  oldMessage := fun _ => none
  parseNano := sampleStamp
  parseSec := sampleStamp

/-- The token payload of a message that `Gemini.Load` accounts for: the
message is of type `gemini` and carries a token payload. -/
def geminiBillable (msg : geminiMessage) : Option geminiTokens :=
  if msg.Typ = "gemini" then msg.Tokens else none

/-- The accounted messages of a session, in order, each as its model name
(`gemini-2.5-pro` when the message omits it) and its token payload. -/
def geminiPriced (msgs : List geminiMessage) : List (String × geminiTokens) :=
  msgs.filterMap (fun msg => (geminiBillable msg).map (fun t => (geminiModelName msg, t)))

/-- The sum of the count `f` over the accounted messages of model `m`. -/
def geminiCount (f : geminiTokens → Int) (msgs : List geminiMessage) (m : String) : Int :=
  (((geminiPriced msgs).filter (fun e => e.1 = m)).map (fun e => f e.2)).sum

/-- The usage `U_m` of model `m` in a list of messages, accumulated by 64-bit
integer additions: input, output and cached counts of the accounted messages of
model `m`. -/
def geminiUsage (msgs : List geminiMessage) (m : String) : TokenUsage :=
  { InputTokens := wrapInt64 (geminiCount (fun t => t.Input) msgs m)
    OutputTokens := wrapInt64 (geminiCount (fun t => t.Output) msgs m)
    CacheRead := wrapInt64 (geminiCount (fun t => t.Cached) msgs m)
    CacheWrite := 0 }

/-- The usage of model `m` in a list of messages, summed on unbounded
integers. -/
def geminiUsageExact (msgs : List geminiMessage) (m : String) : TokenUsage :=
  { InputTokens := geminiCount (fun t => t.Input) msgs m
    OutputTokens := geminiCount (fun t => t.Output) msgs m
    CacheRead := geminiCount (fun t => t.Cached) msgs m
    CacheWrite := 0 }

/-- The models of the accounted messages, each once, in order of first use. -/
def geminiModels (msgs : List geminiMessage) : List String :=
  ((geminiPriced msgs).map Prod.fst).foldl (fun acc m => if m ∈ acc then acc else acc ++ [m]) []

/-- The per-model sums of input, output and cached counts over the accounted
messages are 64-bit values. -/
def geminiInRange (msgs : List geminiMessage) : Prop :=
  ∀ m ∈ geminiModels msgs,
    InInt64 (geminiCount (fun t => t.Input) msgs m)
    ∧ InInt64 (geminiCount (fun t => t.Output) msgs m)
    ∧ InInt64 (geminiCount (fun t => t.Cached) msgs m)

instance (msgs : List geminiMessage) : Decidable (geminiInRange msgs) := by
  unfold geminiInRange
  infer_instance

/-- The sum over the models `m` of a session of `CalculateCost(m, U_m)`. -/
def geminiCostOf (msgs : List geminiMessage) : ℚ :=
  ((geminiModels msgs).map (fun m => CalculateCost m (geminiUsage msgs m))).sum

/-- A session without the messages `Gemini.Load` does not account for
(`user`-typed messages, messages of any other type than `gemini`, and messages
without a token payload). -/
def geminiKeepAccounted (sess : geminiSession) : geminiSession :=
  { sess with Messages := sess.Messages.filter (fun msg => (geminiBillable msg).isSome) }

/-- The cost of one accounted message, priced on its own counts. -/
def geminiMessageCost (e : String × geminiTokens) : ℚ :=
  CalculateCost e.1
    { InputTokens := e.2.Input, OutputTokens := e.2.Output, CacheRead := e.2.Cached
      CacheWrite := 0 }

/-- All the messages of a list of sessions, in order. -/
def geminiAllMessages (sessions : List geminiSession) : List geminiMessage :=
  sessions.flatMap (fun sess => sess.Messages)

/-- An environment that visits maps in insertion order, leaves slices as they
are, and knows one timestamp. -/
def sampleGeminiEnv : GeminiEnv where
  parseTime := sampleParseTime
  formatDate := fun _ => "2025-11-01"
  visitTokens := id
  visitModels := id
  visitDaily := id
  sortModels := id
  sortDaily := id

/-- A session with a user message, a `gemini` message without model name
(10, 20, 5), a `gemini` message of `gemini-2.5-flash` (1, 2, 3), a `gemini`
message without token payload, a second message without model name (100, 200,
50), and an `info` message that carries a token payload. -/
def sampleGeminiSession : geminiSession :=
  { SessionID := "g1", ProjectHash := "h", StartTime := "2025-11-01T10:00:00Z"
    LastUpdated := "", Messages :=
      [⟨"user", "hi", none, "", []⟩,
       ⟨"gemini", "a", some ⟨10, 20, 5, 0, 0, 35⟩, "", []⟩,
       ⟨"gemini", "b", some ⟨1, 2, 3, 0, 0, 6⟩, "gemini-2.5-flash", []⟩,
       ⟨"gemini", "c", none, "gemini-2.5-flash", []⟩,
       ⟨"gemini", "d", some ⟨100, 200, 50, 0, 0, 350⟩, "", []⟩,
       ⟨"info", "e", some ⟨7, 7, 7, 0, 0, 21⟩, "gemini-2.5-pro", []⟩] }

/-- A session whose single `gemini` message reports `2^62` input tokens. -/
def hugeGeminiSession (sid : String) : geminiSession :=
  { SessionID := sid, ProjectHash := "h", StartTime := "2025-11-01T10:00:00Z"
    LastUpdated := "", Messages :=
      [⟨"gemini", "a", some ⟨4611686018427387904, 0, 0, 0, 0, 4611686018427387904⟩,
        "gemini-2.5-pro", []⟩] }

/-- A cache whose first day holds `2^63 - 1` messages, and `2^63 - 1` tokens of
one model next to one token of another; its second day holds one message. -/
def overflowCache : StatsCache :=
  { Version := 1
    LastComputedDate := "2025-11-03"
    DailyActivity := [⟨"2025-11-01", 9223372036854775807, 1, 0⟩, ⟨"2025-11-02", 1, 1, 0⟩]
    DailyModelTokens :=
      [⟨"2025-11-01", [("model-a", 9223372036854775807), ("model-b", 1)]⟩]
    ModelUsage := []
    TotalSessions := 2
    TotalMessages := 0
    LongestSession := ⟨"s", 0, 0, ""⟩
    FirstSessionDate := "2025-11-01"
    HourCounts := [] }

/-- Two days, of `2^63 - 1` messages and of one message. -/
def overflowDays : List DailyStats :=
  [⟨"2025-11-01", 9223372036854775807, 1, 0, 0, [], 0⟩, ⟨"2025-11-02", 1, 1, 0, 0, [], 0⟩]

/-- Two days within the 64-bit range. -/
def sampleDays : List DailyStats :=
  [sampleDay, ⟨"2025-11-02", 4, 1, 0, 70, [], 0⟩]

/-- Two available providers that report the same date, one with `2^63 - 1`
tokens and one with one token. -/
def overflowProviders : List Provider :=
  [ ⟨"claude", "", "",
      Except.ok
        { ProviderName := "claude", Icon := "", Color := "", TotalCost := 0
          DailyUsage := [⟨"2025-11-01", 0, 9223372036854775807, 1, 1, 0⟩]
          Models := [], Sessions := [], Generations := 0
          FirstSeen := Time.zero, LastSeen := Time.zero, Metadata := [] }, true⟩,
    ⟨"codex", "", "",
      Except.ok
        { ProviderName := "codex", Icon := "", Color := "", TotalCost := 0
          DailyUsage := [⟨"2025-11-01", 0, 1, 1, 1, 0⟩]
          Models := [], Sessions := [], Generations := 0
          FirstSeen := Time.zero, LastSeen := Time.zero, Metadata := [] }, true⟩ ]

/-- A log line holding an assistant message of `model-a` with `2^63 - 1` input
tokens. -/
def lineHugeA : String :=
  "\x7b\"type\":\"assistant\",\"message\":\x7b\"model\":\"model-a\",\"usage\":\x7b\"input_tokens\":9223372036854775807\x7d\x7d\x7d"

/-- A log line holding an assistant message of `model-b` with one input
token. -/
def lineOneB : String :=
  "\x7b\"type\":\"assistant\",\"message\":\x7b\"model\":\"model-b\",\"usage\":\x7b\"input_tokens\":1\x7d\x7d\x7d"

/-- What `json.Unmarshal` returns on the two lines `lineHugeA` and `lineOneB`
(and an error on any other text). -/
def overflowDecode (line : String) : Option SessionMessage :=
  if line = lineHugeA then
    some ⟨"assistant", "", "", "", some ⟨"", "model-a", some ⟨9223372036854775807, 0, 0, 0⟩⟩, ""⟩
  else if line = lineOneB then
    some ⟨"assistant", "", "", "", some ⟨"", "model-b", some ⟨1, 0, 0, 0⟩⟩, ""⟩
  else none

/-- A usage table of three models whose costs are 0.1, 0.2 and 0.3 dollars:
50,000 input tokens of `gpt-4.1` at 2.00, 80,000 of `gpt-4o` at 2.50 and 30,000
of `o3` at 10.00 per million. -/
def threeModels : List (String × ModelUsage) :=
  [("gpt-4.1", ⟨50000, 0, 0, 0⟩), ("gpt-4o", ⟨80000, 0, 0, 0⟩), ("o3", ⟨30000, 0, 0, 0⟩)]

/-- A per-model token table of one day whose estimated costs are 0.1, 0.2 and
0.3 dollars: 12,500 tokens of `gpt-4.1` at the output rate 8.00, 20,000 of
`gpt-4o` at 10.00 and 7,500 of `o3` at 40.00 per million. -/
def threeDayTokens : List (String × Int) :=
  [("gpt-4.1", 12500), ("gpt-4o", 20000), ("o3", 7500)]

/-! ## Cost formula -/

theorem CalculateCost_of_found {model : String} {p : ModelPricing}
    (h : GetPricing model = (p, true)) (u : TokenUsage) :
    CalculateCost model u =
      ((u.InputTokens : ℚ) * p.InputPerMTok + (u.OutputTokens : ℚ) * p.OutputPerMTok
        + (u.CacheRead : ℚ) * p.CacheReadPerMTok
        + (u.CacheWrite : ℚ) * p.CacheWritePerMTok) / 1000000 := by
  simp only [CalculateCost, h]
  ring

theorem CalculateCost_of_not_found {model : String}
    (h : (GetPricing model).2 = false) (u : TokenUsage) :
    CalculateCost model u = 0 := by
  rcases hg : GetPricing model with ⟨p, b⟩
  rw [hg] at h
  simp only at h
  subst h
  simp only [CalculateCost, hg]

/-- C1: whenever the pricing of a model is found with rates `p`, the cost of a
usage `u` is `(input*rIn + output*rOut + cacheRead*rCacheRead +
cacheWrite*rCacheWrite) / 1,000,000`; the OpenAI and Gemini entries, whose cache
rates the table omits, carry cache rates zero; and one million tokens in each
category cost 36.75 on `claude-opus-4-6`, 22.05 on `claude-sonnet-4-5-20250929`
and 12.50 on `gpt-4o`. -/
theorem CalculateCost_formula :
    (∀ (model : String) (p : ModelPricing) (u : TokenUsage),
      GetPricing model = (p, true) →
      CalculateCost model u =
        ((u.InputTokens : ℚ) * p.InputPerMTok + (u.OutputTokens : ℚ) * p.OutputPerMTok
          + (u.CacheRead : ℚ) * p.CacheReadPerMTok
          + (u.CacheWrite : ℚ) * p.CacheWritePerMTok) / 1000000)
    ∧ (∀ K ∈ ["gpt-4o", "gpt-4.1", "o3", "o4-mini", "gemini-2.5-pro", "gemini-2.5-flash"],
        (GetPricing K).2 = true ∧ (GetPricing K).1.CacheReadPerMTok = 0
          ∧ (GetPricing K).1.CacheWritePerMTok = 0)
    ∧ CalculateCost "claude-opus-4-6" millionEach = 36.75
    ∧ CalculateCost "claude-sonnet-4-5-20250929" millionEach = 22.05
    ∧ CalculateCost "gpt-4o" millionEach = 12.50 := by
  refine ⟨fun model p u h => CalculateCost_of_found h u, ?_, ?_, ?_, ?_⟩
  · intro K hK
    simp only [List.mem_cons, List.mem_singleton, List.not_mem_nil, or_false] at hK
    rcases hK with rfl | rfl | rfl | rfl | rfl | rfl <;> exact ⟨rfl, rfl, rfl⟩
  · have h : GetPricing "claude-opus-4-6" = (⟨5.0, 25.0, 0.50, 6.25⟩, true) := rfl
    rw [CalculateCost_of_found h]
    norm_num [millionEach]
  · have h : GetPricing "claude-sonnet-4-5-20250929" = (⟨3.0, 15.0, 0.30, 3.75⟩, true) := rfl
    rw [CalculateCost_of_found h]
    norm_num [millionEach]
  · have h : GetPricing "gpt-4o" = (⟨2.50, 10.0, 0, 0⟩, true) := rfl
    rw [CalculateCost_of_found h]
    norm_num [millionEach]

/-- Witness of C1: the formula applied to `o3` and a usage of 1, 2, 3 and 4
tokens. -/
theorem CalculateCost_formula_witness :
    GetPricing "o3" = (⟨10.0, 40.0, 0, 0⟩, true)
    ∧ CalculateCost "o3" ⟨1, 2, 3, 4⟩ =
        (((1 : Int) : ℚ) * 10.0 + ((2 : Int) : ℚ) * 40.0 + ((3 : Int) : ℚ) * 0
          + ((4 : Int) : ℚ) * 0) / 1000000 :=
  ⟨rfl, CalculateCost_formula.1 "o3" ⟨10.0, 40.0, 0, 0⟩ ⟨1, 2, 3, 4⟩ rfl⟩

/-- C2: cost is additive in the usage, for every model name (found or not). -/
theorem CalculateCost_add (m : String) (a b : TokenUsage) :
    CalculateCost m (a.add b) = CalculateCost m a + CalculateCost m b := by
  rcases hg : GetPricing m with ⟨p, ok⟩
  cases ok
  · have h : (GetPricing m).2 = false := by rw [hg]
    simp only [CalculateCost_of_not_found h, add_zero]
  · simp only [CalculateCost_of_found hg, TokenUsage.add, Int.cast_add]
    ring

/-! ## Strings: prefixes and the date suffix -/

theorem HasPrefix_iff (s pre : String) : HasPrefix s pre = true ↔ BeginsWith s pre := by
  unfold HasPrefix BeginsWith
  rw [List.isPrefixOf_iff_prefix]
  constructor
  · rintro ⟨t, ht⟩
    exact ⟨⟨t⟩, String.ext (by simp [ht])⟩
  · rintro ⟨t, rfl⟩
    exact ⟨t.data, by simp⟩

theorem not_BeginsWith_of_HasPrefix_false {s pre : String} (h : HasPrefix s pre = false) :
    ¬ BeginsWith s pre := by
  intro hb
  rw [(HasPrefix_iff s pre).2 hb] at h
  exact Bool.noConfusion h

theorem TrimPrefix_append (pre t : String) : TrimPrefix (pre ++ t) pre = t := by
  have h : HasPrefix (pre ++ t) pre = true := (HasPrefix_iff _ _).2 ⟨t, rfl⟩
  unfold TrimPrefix
  rw [if_pos h]
  exact String.ext (by simp)

theorem TrimPrefix_of_not {s pre : String} (h : ¬ BeginsWith s pre) : TrimPrefix s pre = s := by
  unfold TrimPrefix
  rw [if_neg]
  intro hp
  exact h ((HasPrefix_iff s pre).1 hp)

theorem TrimPrefix_length_le (s pre : String) :
    (TrimPrefix s pre).data.length ≤ s.data.length := by
  unfold TrimPrefix
  split
  · simp
  · exact le_rfl

theorem TrimPrefix_length_lt {s pre : String} (h : BeginsWith s pre) (hne : 0 < pre.data.length) :
    (TrimPrefix s pre).data.length < s.data.length := by
  obtain ⟨t, rfl⟩ := h
  rw [TrimPrefix_append]
  simp only [String.data_append, List.length_append]
  omega

theorem dateSuffixMatch_iff (cs : List Char) :
    dateSuffixMatch cs = true ↔
      ∃ d : List Char, d.length = 8 ∧ (∀ c ∈ d, c.isDigit = true) ∧ cs = '-' :: d := by
  constructor
  · intro h
    unfold dateSuffixMatch at h
    split at h
    · rename_i c0 d1 d2 d3 d4 d5 d6 d7 d8
      simp only [Bool.and_eq_true, beq_iff_eq, List.all_eq_true] at h
      exact ⟨[d1, d2, d3, d4, d5, d6, d7, d8], rfl, h.2, by rw [h.1]⟩
    · exact absurd h (by simp)
  · rintro ⟨d, hlen, hdig, rfl⟩
    rcases d with _ | ⟨d1, _ | ⟨d2, _ | ⟨d3, _ | ⟨d4, _ | ⟨d5, _ | ⟨d6, _ | ⟨d7, _ | ⟨d8, _ | ⟨d9, r⟩⟩⟩⟩⟩⟩⟩⟩⟩ <;>
      simp at hlen
    simp only [dateSuffixMatch, Bool.and_eq_true, beq_iff_eq, List.all_eq_true, true_and]
    exact hdig

theorem dateSuffixMatch_of_IsDate8 {d : String} (h : IsDate8 d) :
    dateSuffixMatch ('-' :: d.data) = true :=
  (dateSuffixMatch_iff _).2 ⟨d.data, h.1, h.2, rfl⟩

theorem dateSuffixMatch_length {cs : List Char} (h : dateSuffixMatch cs = true) :
    cs.length = 9 := by
  obtain ⟨d, hlen, -, rfl⟩ := (dateSuffixMatch_iff cs).1 h
  simp [hlen]

theorem EndsWithDate_iff (s : String) :
    EndsWithDate s ↔ ∃ p t : List Char, s.data = p ++ t ∧ dateSuffixMatch t = true := by
  constructor
  · rintro ⟨p, d, hd, rfl⟩
    exact ⟨p.data, '-' :: d.data, by simp, dateSuffixMatch_of_IsDate8 hd⟩
  · rintro ⟨p, t, hs, ht⟩
    obtain ⟨d, hlen, hdig, rfl⟩ := (dateSuffixMatch_iff t).1 ht
    refine ⟨⟨p⟩, ⟨d⟩, ⟨hlen, hdig⟩, String.ext ?_⟩
    rw [hs]
    simp

theorem replaceDateSuffix_append_match (s t : List Char) (h : dateSuffixMatch t = true) :
    replaceDateSuffix (s ++ t) = s := by
  induction s with
  | nil =>
    cases t with
    | nil => simp [dateSuffixMatch] at h
    | cons c cs => simp [replaceDateSuffix, h]
  | cons a s ih =>
    have hlen := dateSuffixMatch_length h
    have hno : dateSuffixMatch (a :: (s ++ t)) = false := by
      cases hm : dateSuffixMatch (a :: (s ++ t)) with
      | false => rfl
      | true =>
        have := dateSuffixMatch_length hm
        simp at this
        omega
    simp [replaceDateSuffix, hno, ih]

theorem replaceDateSuffix_cases (cs : List Char) :
    (replaceDateSuffix cs = cs ∧ ∀ p t, cs = p ++ t → dateSuffixMatch t = false)
    ∨ ∃ p t, cs = p ++ t ∧ dateSuffixMatch t = true ∧ replaceDateSuffix cs = p := by
  induction cs with
  | nil =>
    left
    refine ⟨rfl, ?_⟩
    intro p t h
    have : t = [] := by
      have := congrArg List.length h
      simp at this
      exact List.length_eq_zero.1 (by omega)
    subst this
    rfl
  | cons c cs ih =>
    cases hm : dateSuffixMatch (c :: cs) with
    | true =>
      right
      exact ⟨[], c :: cs, rfl, hm, by simp [replaceDateSuffix, hm]⟩
    | false =>
      rcases ih with ⟨heq, hno⟩ | ⟨p, t, hcs, ht, hr⟩
      · left
        refine ⟨by simp [replaceDateSuffix, hm, heq], ?_⟩
        intro p t h
        cases p with
        | nil => simp at h; rw [← h]; exact hm
        | cons a p =>
          simp at h
          exact hno p t h.2
      · right
        exact ⟨c :: p, t, by simp [hcs], ht, by simp [replaceDateSuffix, hm, hr]⟩

theorem replaceDateSuffix_length_le (cs : List Char) :
    (replaceDateSuffix cs).length ≤ cs.length := by
  rcases replaceDateSuffix_cases cs with ⟨h, -⟩ | ⟨p, t, hcs, -, hr⟩
  · rw [h]
  · rw [hr, hcs]
    simp

theorem replaceDateSuffix_eq_self_iff (s : String) :
    replaceDateSuffix s.data = s.data ↔ ¬ EndsWithDate s := by
  rw [EndsWithDate_iff]
  constructor
  · rintro h ⟨p, t, hs, ht⟩
    rw [hs, replaceDateSuffix_append_match p t ht] at h
    have := congrArg List.length h
    have hl := dateSuffixMatch_length ht
    simp only [List.length_append] at this
    omega
  · intro h
    rcases replaceDateSuffix_cases s.data with ⟨heq, -⟩ | ⟨p, t, hcs, ht, -⟩
    · exact heq
    · exact absurd ⟨p, t, hcs, ht⟩ h

theorem not_prefix_append_cons {pre s t : List Char} {c : Char} (hc : c ∉ pre)
    (h : ¬ pre <+: s) : ¬ pre <+: s ++ c :: t := by
  intro hp
  by_cases hl : pre.length ≤ s.length
  · exact h (List.prefix_of_prefix_length_le hp (List.prefix_append s _) hl)
  · have h1 : s ++ [c] <+: s ++ c :: t := ⟨t, by simp⟩
    have h2 : s ++ [c] <+: pre :=
      List.prefix_of_prefix_length_le h1 hp (by simp; omega)
    exact hc (h2.subset (by simp))

/-! ## Normalisation -/

theorem NormalizeModelName_clean {s : String} (h1 : ¬ BeginsWith s "claude-")
    (h2 : ¬ BeginsWith s "models/") (h3 : ¬ EndsWithDate s) : NormalizeModelName s = s := by
  unfold NormalizeModelName
  simp only [TrimPrefix_of_not h1, TrimPrefix_of_not h2]
  exact String.ext ((replaceDateSuffix_eq_self_iff s).2 h3)

theorem NormalizeModelName_claude {s : String}
    (h2 : ¬ BeginsWith s "models/") (h3 : ¬ EndsWithDate s) :
    NormalizeModelName ("claude-" ++ s) = s := by
  unfold NormalizeModelName
  simp only [TrimPrefix_append, TrimPrefix_of_not h2]
  exact String.ext ((replaceDateSuffix_eq_self_iff s).2 h3)

theorem NormalizeModelName_models {s : String} (h3 : ¬ EndsWithDate s) :
    NormalizeModelName ("models/" ++ s) = s := by
  have h1 : ¬ BeginsWith ("models/" ++ s) "claude-" :=
    not_BeginsWith_of_HasPrefix_false rfl
  unfold NormalizeModelName
  simp only [TrimPrefix_of_not h1, TrimPrefix_append]
  exact String.ext ((replaceDateSuffix_eq_self_iff s).2 h3)

theorem NormalizeModelName_claude_date {s d : String}
    (h2 : ¬ BeginsWith s "models/") (hd : IsDate8 d) :
    NormalizeModelName ("claude-" ++ s ++ "-" ++ d) = s := by
  have hassoc : "claude-" ++ s ++ "-" ++ d = "claude-" ++ (s ++ "-" ++ d) := by
    simp only [String.append_assoc]
  have hm : ¬ BeginsWith (s ++ "-" ++ d) "models/" := by
    intro hb
    have hp := (HasPrefix_iff _ _).2 hb
    unfold HasPrefix at hp
    rw [List.isPrefixOf_iff_prefix] at hp
    have hdata : (s ++ "-" ++ d).data = s.data ++ '-' :: d.data := by simp
    rw [hdata] at hp
    refine not_prefix_append_cons (by decide) ?_ hp
    intro hs
    exact h2 ((HasPrefix_iff _ _).1 (by unfold HasPrefix; rw [List.isPrefixOf_iff_prefix]; exact hs))
  unfold NormalizeModelName
  rw [hassoc]
  simp only [TrimPrefix_append, TrimPrefix_of_not hm]
  apply String.ext
  have hdata : (s ++ "-" ++ d).data = s.data ++ '-' :: d.data := by simp
  rw [hdata]
  exact replaceDateSuffix_append_match _ _ (dateSuffixMatch_of_IsDate8 hd)

theorem NormalizeModelName_length_le (y : String) :
    (NormalizeModelName y).data.length ≤ y.data.length := by
  unfold NormalizeModelName
  exact le_trans (replaceDateSuffix_length_le _)
    (le_trans (TrimPrefix_length_le _ _) (TrimPrefix_length_le _ _))

theorem NormalizeModelName_eq_self_iff (y : String) :
    NormalizeModelName y = y ↔
      ¬ BeginsWith y "claude-" ∧ ¬ BeginsWith y "models/" ∧ ¬ EndsWithDate y := by
  constructor
  · intro h
    have hlen : (NormalizeModelName y).data.length = y.data.length := by rw [h]
    have h1 : ¬ BeginsWith y "claude-" := by
      intro hb
      have hlt := TrimPrefix_length_lt hb (by decide)
      have hle : (NormalizeModelName y).data.length ≤ (TrimPrefix y "claude-").data.length := by
        unfold NormalizeModelName
        exact le_trans (replaceDateSuffix_length_le _) (TrimPrefix_length_le _ _)
      omega
    have h2 : ¬ BeginsWith y "models/" := by
      intro hb
      have hlt := TrimPrefix_length_lt hb (by decide)
      have hle : (NormalizeModelName y).data.length ≤ (TrimPrefix y "models/").data.length := by
        unfold NormalizeModelName
        simp only [TrimPrefix_of_not h1]
        exact replaceDateSuffix_length_le _
      omega
    refine ⟨h1, h2, ?_⟩
    have h' := h
    unfold NormalizeModelName at h'
    simp only [TrimPrefix_of_not h1, TrimPrefix_of_not h2] at h'
    exact (replaceDateSuffix_eq_self_iff y).1 (congrArg String.data h')
  · rintro ⟨h1, h2, h3⟩
    exact NormalizeModelName_clean h1 h2 h3

/-- C3: on a name `s` that begins with neither `claude-` nor `models/` and does
not end with a hyphen and eight digits, normalisation is the identity, and it
strips a leading `claude-`, a leading `models/`, and a leading `claude-` together
with a trailing `-` and eight digits `d`; three names of the test table are
given as examples. -/
theorem NormalizeModelName_strips (s d : String) (h1 : ¬ BeginsWith s "claude-")
    (h2 : ¬ BeginsWith s "models/") (h3 : ¬ EndsWithDate s) (hd : IsDate8 d) :
    NormalizeModelName s = s
    ∧ NormalizeModelName ("claude-" ++ s) = s
    ∧ NormalizeModelName ("models/" ++ s) = s
    ∧ NormalizeModelName ("claude-" ++ s ++ "-" ++ d) = s
    ∧ NormalizeModelName "claude-opus-4-5-20251101" = "opus-4-5"
    ∧ NormalizeModelName "models/gemini-2.5-pro" = "gemini-2.5-pro"
    ∧ NormalizeModelName "claude-opus-4-5-thinking" = "opus-4-5-thinking" :=
  ⟨NormalizeModelName_clean h1 h2 h3, NormalizeModelName_claude h2 h3,
    NormalizeModelName_models h3, NormalizeModelName_claude_date h2 hd,
    by decide, by decide, by decide⟩

/-- Witness of C3: `s = "sonnet-4-5"` and `d = "20250929"`. -/
theorem NormalizeModelName_strips_witness :
    NormalizeModelName "sonnet-4-5" = "sonnet-4-5"
    ∧ NormalizeModelName ("claude-" ++ "sonnet-4-5") = "sonnet-4-5"
    ∧ NormalizeModelName ("models/" ++ "sonnet-4-5") = "sonnet-4-5"
    ∧ NormalizeModelName ("claude-" ++ "sonnet-4-5" ++ "-" ++ "20250929") = "sonnet-4-5" :=
  have h := NormalizeModelName_strips "sonnet-4-5" "20250929"
    (not_BeginsWith_of_HasPrefix_false (by decide))
    (not_BeginsWith_of_HasPrefix_false (by decide))
    ((replaceDateSuffix_eq_self_iff _).1 (by decide))
    ⟨by decide, by decide⟩
  ⟨h.1, h.2.1, h.2.2.1, h.2.2.2.1⟩

/-- C4 fails as stated: normalising `claude-claude-opus` twice strips a second
`claude-`. -/
theorem NormalizeModelName_not_idempotent :
    NormalizeModelName (NormalizeModelName "claude-claude-opus")
      ≠ NormalizeModelName "claude-claude-opus" := by
  decide

/-- C4, amended: normalising twice gives the same as normalising once exactly
when the once-normalised name no longer begins with `claude-` or `models/` and
no longer ends with a hyphen and eight digits. -/
theorem NormalizeModelName_idempotent_iff (x : String) :
    NormalizeModelName (NormalizeModelName x) = NormalizeModelName x ↔
      ¬ BeginsWith (NormalizeModelName x) "claude-"
        ∧ ¬ BeginsWith (NormalizeModelName x) "models/"
        ∧ ¬ EndsWithDate (NormalizeModelName x) :=
  NormalizeModelName_eq_self_iff (NormalizeModelName x)
/-! ## The pricing table -/

theorem find?_perm_of_unique {α : Type} {l₁ l₂ : List α} (hp : l₁.Perm l₂) (f : α → Bool)
    (huniq : ∀ a ∈ l₂, ∀ b ∈ l₂, f a = true → f b = true → a = b) :
    l₁.find? f = l₂.find? f := by
  cases h1 : l₁.find? f with
  | none =>
    rw [List.find?_eq_none] at h1
    symm
    rw [List.find?_eq_none]
    intro x hx
    exact h1 x (hp.mem_iff.2 hx)
  | some a =>
    have ha : a ∈ l₂ := hp.mem_iff.1 (List.mem_of_find?_eq_some h1)
    have hfa : f a = true := List.find?_some h1
    cases h2 : l₂.find? f with
    | none =>
      rw [List.find?_eq_none] at h2
      exact absurd hfa (h2 a ha)
    | some b =>
      rw [huniq a ha b (List.mem_of_find?_eq_some h2) hfa (List.find?_some h2)]

/-- No key of the table is a prefix of the key of another entry. -/
theorem pricingTable_prefix_free :
    pricingTable.Pairwise
      (fun a b => HasPrefix a.1 b.1 = false ∧ HasPrefix b.1 a.1 = false) := by
  unfold pricingTable
  decide

theorem pricingTable_prefix_unique (key : String) :
    ∀ a ∈ pricingTable, ∀ b ∈ pricingTable,
      HasPrefix key a.1 = true → HasPrefix key b.1 = true → a = b := by
  intro a ha b hb hka hkb
  by_contra hne
  have hsym : Symmetric
      (fun a b : String × ModelPricing =>
        HasPrefix a.1 b.1 = false ∧ HasPrefix b.1 a.1 = false) :=
    fun _ _ h => ⟨h.2, h.1⟩
  have hR := pricingTable_prefix_free.forall hsym ha hb hne
  unfold HasPrefix at hka hkb
  rw [List.isPrefixOf_iff_prefix] at hka hkb
  rcases List.prefix_or_prefix_of_prefix hka hkb with h | h
  · have : HasPrefix b.1 a.1 = true := by
      unfold HasPrefix
      rw [List.isPrefixOf_iff_prefix]
      exact h
    rw [hR.2] at this
    exact Bool.noConfusion this
  · have : HasPrefix a.1 b.1 = true := by
      unfold HasPrefix
      rw [List.isPrefixOf_iff_prefix]
      exact h
    rw [hR.1] at this
    exact Bool.noConfusion this

/-- The result of `GetPricing` does not depend on the order in which the
fallback loop visits the table. -/
theorem GetPricingWith_perm {order : List (String × ModelPricing)}
    (h : order.Perm pricingTable) (model : String) :
    GetPricingWith order model = GetPricing model := by
  unfold GetPricing GetPricingWith
  simp only
  rw [find?_perm_of_unique h _ (pricingTable_prefix_unique (NormalizeModelName model))]

theorem GetPricing_of_lookup {m : String} {p : ModelPricing}
    (h : pricingTable.lookup (NormalizeModelName m) = some p) : GetPricing m = (p, true) := by
  unfold GetPricing GetPricingWith
  simp only [h]

/-- Every entry of the table is the value the map holds at its key, and its key
is a canonical name: no `claude-`, no `models/`, no date suffix. -/
theorem pricingTable_entry {K : String} {p : ModelPricing} (h : (K, p) ∈ pricingTable) :
    pricingTable.lookup K = some p ∧ HasPrefix K "claude-" = false
      ∧ HasPrefix K "models/" = false ∧ replaceDateSuffix K.data = K.data := by
  simp only [pricingTable, List.mem_cons, List.mem_singleton, List.not_mem_nil, or_false,
    Prod.mk.injEq] at h
  rcases h with h | h | h | h | h | h | h | h | h | h | h <;> obtain ⟨rfl, rfl⟩ := h <;>
    exact ⟨rfl, rfl, rfl, rfl⟩

/-- C5: the exact match comes first.  Whatever the visiting order of the
fallback loop, a name whose canonical key `K` is a key of the table gets
`(pricingTable[K], true)`; hence for every table entry `(K, p)` and every eight
digits `d` the names `K`, `claude-K`, `models/K` and `claude-K-d` all get the
rates `p`; examples: output rate 25.0 for `claude-opus-4-5-20251101`, 75.0 for
`claude-opus-4-1-20250805`, 10.0 for `models/gemini-2.5-pro`. -/
theorem GetPricing_exact_match :
    (∀ (order : List (String × ModelPricing)) (m K : String) (p : ModelPricing),
        NormalizeModelName m = K → pricingTable.lookup K = some p →
        GetPricingWith order m = (p, true) ∧ GetPricing m = (p, true))
    ∧ (∀ (K d : String) (p : ModelPricing), (K, p) ∈ pricingTable → IsDate8 d →
        GetPricing K = (p, true)
        ∧ GetPricing ("claude-" ++ K) = (p, true)
        ∧ GetPricing ("models/" ++ K) = (p, true)
        ∧ GetPricing ("claude-" ++ K ++ "-" ++ d) = (p, true))
    ∧ (GetPricing "claude-opus-4-5-20251101").1.OutputPerMTok = 25.0
    ∧ (GetPricing "claude-opus-4-1-20250805").1.OutputPerMTok = 75.0
    ∧ (GetPricing "models/gemini-2.5-pro").1.OutputPerMTok = 10.0 := by
  refine ⟨?_, ?_, rfl, rfl, rfl⟩
  · intro order m K p hK hp
    subst hK
    refine ⟨?_, GetPricing_of_lookup hp⟩
    unfold GetPricingWith
    simp only [hp]
  · intro K d p hK hd
    obtain ⟨hl, h1, h2, h3⟩ := pricingTable_entry hK
    have h1' := not_BeginsWith_of_HasPrefix_false h1
    have h2' := not_BeginsWith_of_HasPrefix_false h2
    have h3' := (replaceDateSuffix_eq_self_iff K).1 h3
    refine ⟨GetPricing_of_lookup ?_, GetPricing_of_lookup ?_, GetPricing_of_lookup ?_,
      GetPricing_of_lookup ?_⟩
    · rw [NormalizeModelName_clean h1' h2' h3']; exact hl
    · rw [NormalizeModelName_claude h2' h3']; exact hl
    · rw [NormalizeModelName_models h3']; exact hl
    · rw [NormalizeModelName_claude_date h2' hd]; exact hl

/-- Witness of C5: the name `claude-haiku-4-5-20251001`, whose canonical key is
`haiku-4-5`, under the reversed visiting order. -/
theorem GetPricing_exact_match_witness :
    NormalizeModelName "claude-haiku-4-5-20251001" = "haiku-4-5"
    ∧ pricingTable.lookup "haiku-4-5" = some ⟨0.80, 4.0, 0.08, 1.0⟩
    ∧ GetPricingWith pricingTable.reverse "claude-haiku-4-5-20251001"
        = (⟨0.80, 4.0, 0.08, 1.0⟩, true)
    ∧ GetPricing ("claude-" ++ "haiku-4-5" ++ "-" ++ "20251001")
        = (⟨0.80, 4.0, 0.08, 1.0⟩, true) :=
  ⟨by decide, rfl,
    (GetPricing_exact_match.1 pricingTable.reverse "claude-haiku-4-5-20251001" "haiku-4-5"
      ⟨0.80, 4.0, 0.08, 1.0⟩ (by decide) rfl).1,
    (GetPricing_exact_match.2.1 "haiku-4-5" "20251001" ⟨0.80, 4.0, 0.08, 1.0⟩
      (by simp [pricingTable]) ⟨by decide, by decide⟩).2.2.2⟩

/-- C6: for every key `K` of the table and every visiting order of the fallback
loop, the name `K-thinking` is found and gets the same four rates as `K`. -/
theorem GetPricing_thinking (order : List (String × ModelPricing))
    (horder : order.Perm pricingTable) (K : String) (hK : K ∈ pricingKeys) :
    (GetPricingWith order (K ++ "-thinking")).2 = true
    ∧ (GetPricingWith order K).2 = true
    ∧ (GetPricingWith order (K ++ "-thinking")).1 = (GetPricingWith order K).1
    ∧ GetPricing (K ++ "-thinking") = GetPricing K := by
  rw [GetPricingWith_perm horder, GetPricingWith_perm horder]
  simp only [pricingKeys, pricingTable, List.map, List.mem_cons, List.mem_singleton,
    List.not_mem_nil, or_false] at hK
  rcases hK with rfl | rfl | rfl | rfl | rfl | rfl | rfl | rfl | rfl | rfl | rfl <;>
    exact ⟨rfl, rfl, rfl, rfl⟩

/-- Witness of C6: the key `opus-4-5` under the reversed visiting order. -/
theorem GetPricing_thinking_witness :
    (GetPricingWith pricingTable.reverse ("opus-4-5" ++ "-thinking")).2 = true
    ∧ (GetPricingWith pricingTable.reverse ("opus-4-5" ++ "-thinking")).1
        = (GetPricingWith pricingTable.reverse "opus-4-5").1 :=
  have h := GetPricing_thinking pricingTable.reverse (List.reverse_perm pricingTable)
    "opus-4-5" (by decide)
  ⟨h.1, h.2.2.1⟩

/-! ## Totals over a usage table -/

theorem foldl_add_eq_sum {α : Type} (g : α → ℚ) (l : List α) (a : ℚ) :
    l.foldl (fun t e => t + g e) a = a + (l.map g).sum := by
  induction l generalizing a with
  | nil => simp
  | cons x xs ih => simp [ih, add_assoc]

theorem TotalCostFromModelUsage_eq_sum (usage : List (String × ModelUsage)) :
    TotalCostFromModelUsage usage
      = (usage.map (fun e => CalculateCostFromModelUsage e.1 e.2)).sum := by
  unfold TotalCostFromModelUsage
  rw [foldl_add_eq_sum (fun e : String × ModelUsage => CalculateCostFromModelUsage e.1 e.2)]
  simp

/-- C7: `totally-unknown-model` and `unknown-model` are not found; a usage
priced against a model that is not found costs exactly 0 (a value is returned,
there is no error result); and removing such an entry from a usage table leaves
`TotalCostFromModelUsage` unchanged. -/
theorem unknown_model_costs_zero :
    (GetPricing "totally-unknown-model").2 = false
    ∧ (GetPricing "unknown-model").2 = false
    ∧ (∀ (model : String) (u : TokenUsage), (GetPricing model).2 = false →
        CalculateCost model u = 0)
    ∧ (∀ (before after : List (String × ModelUsage)) (model : String) (mu : ModelUsage),
        (GetPricing model).2 = false →
        TotalCostFromModelUsage (before ++ (model, mu) :: after)
          = TotalCostFromModelUsage (before ++ after)) := by
  refine ⟨rfl, rfl, fun model u h => CalculateCost_of_not_found h u, ?_⟩
  intro before after model mu h
  simp only [TotalCostFromModelUsage_eq_sum, List.map_append, List.map_cons, List.sum_append,
    List.sum_cons, CalculateCostFromModelUsage, CalculateCost_of_not_found h, zero_add]

/-- Witness of C7: `unknown-model` inside a two-entry usage table. -/
theorem unknown_model_costs_zero_witness :
    (GetPricing "unknown-model").2 = false
    ∧ CalculateCost "unknown-model" ⟨1, 2, 3, 4⟩ = 0
    ∧ TotalCostFromModelUsage ([("o3", ⟨1, 1, 1, 1⟩)] ++ ("unknown-model", ⟨5, 6, 7, 8⟩) :: [])
        = TotalCostFromModelUsage ([("o3", ⟨1, 1, 1, 1⟩)] ++ []) :=
  ⟨rfl, unknown_model_costs_zero.2.2.1 "unknown-model" ⟨1, 2, 3, 4⟩ rfl,
    unknown_model_costs_zero.2.2.2 [("o3", ⟨1, 1, 1, 1⟩)] [] "unknown-model" ⟨5, 6, 7, 8⟩ rfl⟩

theorem cacheSummary_value : TotalCostFromModelUsage cacheSummaryUsage = 614.10335 := by
  have h : GetPricing "claude-opus-4-6" = (⟨5.0, 25.0, 0.50, 6.25⟩, true) := rfl
  simp only [TotalCostFromModelUsage, cacheSummaryUsage, List.foldl_cons, List.foldl_nil,
    CalculateCostFromModelUsage, CalculateCost_of_found h]
  norm_num

/-- C8 fails as stated: the cost of the cache-summary scenario does not round to
613.76 dollars. -/
theorem cacheSummary_not_61376 :
    roundCents (TotalCostFromModelUsage cacheSummaryUsage) ≠ 61376 := by
  rw [cacheSummary_value]
  unfold roundCents
  intro h
  rw [Int.floor_eq_iff] at h
  norm_num at h

/-- C8, amended: for the single entry `claude-opus-4-6` with input 112444,
output 958448, cache read 623295535 and cache write 44469146 the total is
`112444*5/1e6 + 958448*25/1e6 + 623295535*0.50/1e6 + 44469146*6.25/1e6`, which
is 614.10335, that is 614.10 dollars when rounded to the cent. -/
theorem cacheSummary_cost :
    TotalCostFromModelUsage cacheSummaryUsage
      = 112444 * 5 / 1000000 + 958448 * 25 / 1000000 + 623295535 * 0.50 / 1000000
        + 44469146 * 6.25 / 1000000
    ∧ TotalCostFromModelUsage cacheSummaryUsage = 614.10335
    ∧ roundCents (TotalCostFromModelUsage cacheSummaryUsage) = 61410 := by
  refine ⟨?_, cacheSummary_value, ?_⟩
  · rw [cacheSummary_value]
    norm_num
  · rw [cacheSummary_value]
    unfold roundCents
    rw [Int.floor_eq_iff]
    norm_num

/-! ## Daily aggregation -/

theorem wrapInt64_zero : wrapInt64 0 = 0 := by decide

theorem wrapInt64_add_wrap (a b : Int) : wrapInt64 (wrapInt64 a + b) = wrapInt64 (a + b) := by
  unfold wrapInt64
  omega

theorem wrapInt64_of_inRange {n : Int} (h : InInt64 n) : wrapInt64 n = n := by
  unfold InInt64 at h
  unfold wrapInt64
  omega

theorem lookup_mapInsert_self {α : Type} (m : List (String × α)) (k : String) (v : α) :
    (mapInsert m k v).lookup k = some v := by
  induction m with
  | nil => simp [mapInsert, List.lookup]
  | cons e rest ih =>
    unfold mapInsert
    by_cases h : e.1 = k
    · simp [h, List.lookup]
    · have hk : (k == e.1) = false := by
        rw [beq_eq_false_iff_ne]
        exact fun h' => h h'.symm
      simp only [beq_iff_eq, h, if_false]
      rw [show e = (e.1, e.2) from rfl, List.lookup_cons, hk]
      exact ih

theorem lookup_mapInsert_of_ne {α : Type} (m : List (String × α)) {k d : String} (v : α)
    (hne : k ≠ d) : (mapInsert m k v).lookup d = m.lookup d := by
  induction m with
  | nil =>
    have hk : (d == k) = false := by
      rw [beq_eq_false_iff_ne]
      exact fun h' => hne h'.symm
    simp [mapInsert, List.lookup, hk]
  | cons e rest ih =>
    unfold mapInsert
    by_cases h : e.1 = k
    · have hk : (d == k) = false := by
        rw [beq_eq_false_iff_ne]
        exact fun h' => hne h'.symm
      have he : (d == e.1) = false := by rw [h]; exact hk
      simp only [beq_iff_eq, h, if_true]
      rw [List.lookup_cons, hk, show e = (e.1, e.2) from rfl, List.lookup_cons, he]
    · simp only [beq_iff_eq, h, if_false]
      rw [show e = (e.1, e.2) from rfl, List.lookup_cons, List.lookup_cons, ih]

theorem tokensByDate_append (l : List DailyModelTokens) (dt : DailyModelTokens) :
    tokensByDate (l ++ [dt]) = mapInsert (tokensByDate l) dt.Date dt.TokensByModel := by
  simp [tokensByDate, List.foldl_append]

theorem lookup_tokensByDate_none (l : List DailyModelTokens) (d : String)
    (h : ∀ e ∈ l, e.Date ≠ d) : (tokensByDate l).lookup d = none := by
  induction l using List.reverseRecOn with
  | nil => rfl
  | append_singleton l dt ih =>
    rw [tokensByDate_append, lookup_mapInsert_of_ne _ _ (h dt (by simp))]
    exact ih (fun e he => h e (by simp [he]))

theorem lookup_tokensByDate_last (before after : List DailyModelTokens) (dt : DailyModelTokens)
    (h : ∀ e ∈ after, e.Date ≠ dt.Date) :
    (tokensByDate (before ++ dt :: after)).lookup dt.Date = some dt.TokensByModel := by
  induction after using List.reverseRecOn with
  | nil => rw [tokensByDate_append, lookup_mapInsert_self]
  | append_singleton after e ih =>
    have hassoc : before ++ dt :: (after ++ [e]) = (before ++ dt :: after) ++ [e] := by simp
    rw [hassoc, tokensByDate_append, lookup_mapInsert_of_ne _ _ (h e (by simp))]
    exact ih (fun x hx => h x (by simp [hx]))

theorem foldl_append_singleton {α β : Type} (f : α → β) (l : List α) (init : List β) :
    l.foldl (fun days a => days ++ [f a]) init = init ++ l.map f := by
  induction l generalizing init with
  | nil => simp
  | cons x xs ih => simp [ih]

theorem AggregateDaily_eq_map (cache : StatsCache) :
    AggregateDaily cache
      = cache.DailyActivity.map (dayStats (tokensByDate cache.DailyModelTokens)) := by
  unfold AggregateDaily
  simp only
  rw [foldl_append_singleton]
  simp

theorem foldl_dayStep_fst (models : List (String × Int)) (t : Int) (c : ℚ) :
    (models.foldl dayStep (wrapInt64 t, c)).1 = wrapInt64 (t + tokenSum models) := by
  induction models generalizing t c with
  | nil => simp [tokenSum]
  | cons e rest ih =>
    have hstep : ∃ c', dayStep (wrapInt64 t, c) e = (wrapInt64 (t + e.2), c') := by
      unfold dayStep
      simp only [wrapInt64_add_wrap]
      split
      · exact ⟨_, rfl⟩
      · exact ⟨_, rfl⟩
    obtain ⟨c', hc'⟩ := hstep
    rw [List.foldl_cons, hc', ih]
    simp [tokenSum, add_assoc]

theorem foldl_dayStep_snd (models : List (String × Int)) (t : Int) (c : ℚ) :
    (models.foldl dayStep (t, c)).2 = c + outputRateCost models := by
  induction models generalizing t c with
  | nil => simp [outputRateCost]
  | cons e rest ih =>
    rcases hg : GetPricing e.1 with ⟨p, ok⟩
    cases ok
    · have hstep : dayStep (t, c) e = (wrapInt64 (t + e.2), c) := by
        unfold dayStep
        simp only [hg]
      rw [List.foldl_cons, hstep, ih]
      simp [outputRateCost, List.filter_cons, hg]
    · have hstep : dayStep (t, c) e
          = (wrapInt64 (t + e.2), c + (e.2 : ℚ) * p.OutputPerMTok / 1000000) := by
        unfold dayStep
        simp only [hg]
      rw [List.foldl_cons, hstep, ih]
      simp [outputRateCost, List.filter_cons, hg, add_assoc]

theorem dayStats_of_lookup_some {index : List (String × List (String × Int))}
    {da : DailyActivity} {models : List (String × Int)}
    (h : index.lookup da.Date = some models) :
    (dayStats index da).TotalTokens = wrapInt64 (tokenSum models)
      ∧ (dayStats index da).Cost = outputRateCost models := by
  unfold dayStats
  simp only [h]
  constructor
  · have := foldl_dayStep_fst models 0 0
    rw [wrapInt64_zero, zero_add] at this
    exact this
  · rw [foldl_dayStep_snd, zero_add]

theorem dayStats_of_lookup_none {index : List (String × List (String × Int))}
    {da : DailyActivity} (h : index.lookup da.Date = none) :
    (dayStats index da).TotalTokens = 0 ∧ (dayStats index da).Cost = 0 := by
  unfold dayStats
  simp [h]

/-- C9: `AggregateDaily` returns one entry per activity entry, in the same
order, the i-th carrying the date and the message, session and tool-call counts
of the i-th activity entry; a date found in the token log but in no activity
entry is the date of no returned entry. -/
theorem AggregateDaily_follows_activity (cache : StatsCache) :
    (AggregateDaily cache).length = cache.DailyActivity.length
    ∧ (AggregateDaily cache).map (fun d => (d.Date, d.Messages, d.Sessions, d.ToolCalls))
        = cache.DailyActivity.map
            (fun a => (a.Date, a.MessageCount, a.SessionCount, a.ToolCallCount))
    ∧ (∀ (i : Nat) (d : DailyStats), (AggregateDaily cache)[i]? = some d →
        ∃ a, cache.DailyActivity[i]? = some a ∧ d.Date = a.Date ∧ d.Messages = a.MessageCount
          ∧ d.Sessions = a.SessionCount ∧ d.ToolCalls = a.ToolCallCount)
    ∧ (∀ date : String, (∃ dt ∈ cache.DailyModelTokens, dt.Date = date) →
        (∀ a ∈ cache.DailyActivity, a.Date ≠ date) →
        ∀ d ∈ AggregateDaily cache, d.Date ≠ date) := by
  rw [AggregateDaily_eq_map]
  refine ⟨by simp, ?_, ?_, ?_⟩
  · rw [List.map_map]
    rfl
  · intro i d hd
    rw [List.getElem?_map] at hd
    cases ha : cache.DailyActivity[i]? with
    | none => rw [ha] at hd; exact Option.noConfusion hd
    | some a =>
      rw [ha] at hd
      simp only [Option.map_some', Option.some.injEq] at hd
      subst hd
      exact ⟨a, rfl, rfl, rfl, rfl, rfl⟩
  · intro date _ hno d hd
    obtain ⟨a, ha, rfl⟩ := List.mem_map.1 hd
    exact hno a ha

/-- Witness of C9: in `sampleCache` the date `2025-10-31` occurs in the token log
only. -/
theorem AggregateDaily_follows_activity_witness :
    (∃ dt ∈ sampleCache.DailyModelTokens, dt.Date = "2025-10-31")
    ∧ (∀ a ∈ sampleCache.DailyActivity, a.Date ≠ "2025-10-31")
    ∧ (∀ d ∈ AggregateDaily sampleCache, d.Date ≠ "2025-10-31")
    ∧ (AggregateDaily sampleCache).length = 2 :=
  have hin : ∃ dt ∈ sampleCache.DailyModelTokens, dt.Date = "2025-10-31" :=
    ⟨⟨"2025-10-31", [("o3", 7)]⟩, by simp [sampleCache], rfl⟩
  have hout : ∀ a ∈ sampleCache.DailyActivity, a.Date ≠ "2025-10-31" := by decide
  ⟨hin, hout,
    (AggregateDaily_follows_activity sampleCache).2.2.2 "2025-10-31" hin hout,
    (AggregateDaily_follows_activity sampleCache).1⟩

set_option maxRecDepth 8000 in
/-- C10 fails as stated: a day whose token entry holds `2^63 - 1` tokens of one
model and one token of another gets `TotalTokens = -2^63`, while the sum of the
per-model token totals is `2^63`. -/
theorem AggregateDaily_TotalTokens_wraps :
    (AggregateDaily overflowCache).map (fun d => (d.Date, d.TotalTokens))
      = [("2025-11-01", -9223372036854775808), ("2025-11-02", 0)]
    ∧ tokenSum [("model-a", 9223372036854775807), ("model-b", 1)] = 9223372036854775808 := by
  decide

/-- C10, amended: for every day `ds` returned by `AggregateDaily`, with `dt` the
entry of the token log that holds the date of `ds` (the last such entry),
`TotalTokens` is the sum of the per-model token totals of `dt` as Go's 64-bit
`int` computes it (wrapping around on overflow, and the plain sum whenever that
sum is a 64-bit value) and `Cost` is the sum, over
the models of `dt` whose pricing is found, of `tokens * OutputPerMTok /
1,000,000`; a model without pricing counts in `TotalTokens` and adds nothing to
`Cost`; a day with no entry in the token log has `TotalTokens` 0 and `Cost` 0. -/
theorem AggregateDaily_totals (cache : StatsCache) (ds : DailyStats)
    (hds : ds ∈ AggregateDaily cache) :
    (∀ (before after : List DailyModelTokens) (dt : DailyModelTokens),
        cache.DailyModelTokens = before ++ dt :: after →
        (∀ e ∈ after, e.Date ≠ dt.Date) → dt.Date = ds.Date →
        ds.TotalTokens = wrapInt64 (tokenSum dt.TokensByModel)
        ∧ (InInt64 (tokenSum dt.TokensByModel) → ds.TotalTokens = tokenSum dt.TokensByModel)
        ∧ ds.Cost = outputRateCost dt.TokensByModel)
    ∧ ((∀ e ∈ cache.DailyModelTokens, e.Date ≠ ds.Date) →
        ds.TotalTokens = 0 ∧ ds.Cost = 0)
    ∧ (∀ (models : List (String × Int)) (m : String) (tokens : Int),
        (GetPricing m).2 = false →
        tokenSum (models ++ [(m, tokens)]) = tokenSum models + tokens
        ∧ outputRateCost (models ++ [(m, tokens)]) = outputRateCost models) := by
  rw [AggregateDaily_eq_map] at hds
  obtain ⟨da, -, rfl⟩ := List.mem_map.1 hds
  have hdate : (dayStats (tokensByDate cache.DailyModelTokens) da).Date = da.Date := rfl
  refine ⟨?_, ?_, ?_⟩
  · intro before after dt hsplit hlast hd
    rw [hdate] at hd
    have hl : (tokensByDate cache.DailyModelTokens).lookup da.Date
        = some dt.TokensByModel := by
      rw [hsplit, ← hd]
      exact lookup_tokensByDate_last before after dt hlast
    obtain ⟨h1, h2⟩ := dayStats_of_lookup_some hl
    exact ⟨h1, fun hr => by rw [h1, wrapInt64_of_inRange hr], h2⟩
  · intro hno
    rw [hdate] at hno
    exact dayStats_of_lookup_none (lookup_tokensByDate_none _ _ hno)
  · intro models m tokens hm
    constructor
    · simp [tokenSum]
    · simp [outputRateCost, List.filter_append, hm]

theorem AggregateDaily_sampleCache :
    AggregateDaily sampleCache = [sampleDay, ⟨"2025-11-02", 4, 1, 0, 0, [], 0⟩] := by
  have h1 : GetPricing "claude-opus-4-6" = (⟨5.0, 25.0, 0.50, 6.25⟩, true) := rfl
  have h2 : GetPricing "unknown-model" = (⟨0, 0, 0, 0⟩, false) := rfl
  have hl1 : (tokensByDate sampleCache.DailyModelTokens).lookup "2025-11-01"
      = some [("claude-opus-4-6", 1000), ("unknown-model", 50)] := by decide
  have hl2 : (tokensByDate sampleCache.DailyModelTokens).lookup "2025-11-02" = none := by
    decide
  have hw1 : wrapInt64 (0 + 1000) = 1000 := by decide
  have hw2 : wrapInt64 (1000 + 50) = 1050 := by decide
  rw [AggregateDaily_eq_map]
  simp only [sampleCache, sampleDay, List.map_cons, List.map_nil] at hl1 hl2 ⊢
  simp only [dayStats, hl1, hl2, List.foldl_cons, List.foldl_nil, dayStep, h1, h2, hw1, hw2,
    Option.getD_some, Option.getD_none]
  norm_num

/-- Witness of C10: the first day of `sampleCache`, whose token entry is the
first of the token log. -/
theorem AggregateDaily_totals_witness :
    sampleDay ∈ AggregateDaily sampleCache
    ∧ sampleDay.TotalTokens = tokenSum [("claude-opus-4-6", 1000), ("unknown-model", 50)]
    ∧ sampleDay.Cost = outputRateCost [("claude-opus-4-6", 1000), ("unknown-model", 50)] :=
  have hmem : sampleDay ∈ AggregateDaily sampleCache := by
    rw [AggregateDaily_sampleCache]
    exact List.mem_cons_self _ _
  have h := (AggregateDaily_totals sampleCache sampleDay hmem).1 []
    [⟨"2025-10-31", [("o3", 7)]⟩]
    ⟨"2025-11-01", [("claude-opus-4-6", 1000), ("unknown-model", 50)]⟩ rfl (by decide) rfl
  ⟨hmem, h.2.1 (by decide), h.2.2⟩

/-! ## Period summaries and burn rate -/

theorem foldl_wrapInt64 {α : Type} (f : α → Int) (l : List α) (t : Int) :
    l.foldl (fun acc x => wrapInt64 (acc + f x)) (wrapInt64 t)
      = wrapInt64 (t + (l.map f).sum) := by
  induction l generalizing t with
  | nil => simp
  | cons x xs ih =>
    rw [List.foldl_cons, wrapInt64_add_wrap, ih]
    simp [add_assoc]

theorem foldl_wrapInt64_zero {α : Type} (f : α → Int) (l : List α) :
    l.foldl (fun acc x => wrapInt64 (acc + f x)) 0 = wrapInt64 (l.map f).sum := by
  have h := foldl_wrapInt64 f l 0
  rw [wrapInt64_zero, zero_add] at h
  exact h

theorem foldl_periodStep (days : List DailyStats) (ps : PeriodSummary) :
    (days.foldl periodStep ps).Label = ps.Label
    ∧ (days.foldl periodStep ps).Days = ps.Days
    ∧ (days.foldl periodStep ps).Messages
        = days.foldl (fun acc d => wrapInt64 (acc + d.Messages)) ps.Messages
    ∧ (days.foldl periodStep ps).Sessions
        = days.foldl (fun acc d => wrapInt64 (acc + d.Sessions)) ps.Sessions
    ∧ (days.foldl periodStep ps).ToolCalls
        = days.foldl (fun acc d => wrapInt64 (acc + d.ToolCalls)) ps.ToolCalls
    ∧ (days.foldl periodStep ps).TotalTokens
        = days.foldl (fun acc d => wrapInt64 (acc + d.TotalTokens)) ps.TotalTokens
    ∧ (days.foldl periodStep ps).Cost = ps.Cost + costSum days
    ∧ (days.foldl periodStep ps).ModelCosts = ps.ModelCosts := by
  induction days generalizing ps with
  | nil => simp [costSum]
  | cons d rest ih =>
    obtain ⟨h1, h2, h3, h4, h5, h6, h7, h8⟩ := ih (periodStep ps d)
    simp only [List.foldl_cons]
    refine ⟨h1, h2, h3, h4, h5, h6, ?_, h8⟩
    rw [h7]
    simp [periodStep, costSum, add_assoc]

theorem PeriodFromDays_fields (label : String) (days : List DailyStats) :
    (PeriodFromDays label days).Label = label
    ∧ (PeriodFromDays label days).Days = (days.length : Int)
    ∧ (PeriodFromDays label days).Messages = wrapInt64 (days.map (fun d => d.Messages)).sum
    ∧ (PeriodFromDays label days).Sessions = wrapInt64 (days.map (fun d => d.Sessions)).sum
    ∧ (PeriodFromDays label days).ToolCalls = wrapInt64 (days.map (fun d => d.ToolCalls)).sum
    ∧ (PeriodFromDays label days).TotalTokens
        = wrapInt64 (days.map (fun d => d.TotalTokens)).sum
    ∧ (PeriodFromDays label days).Cost = costSum days
    ∧ (PeriodFromDays label days).ModelCosts = [] := by
  unfold PeriodFromDays
  obtain ⟨h1, h2, h3, h4, h5, h6, h7, h8⟩ := foldl_periodStep days
    { Label := label, Days := (days.length : Int), Messages := 0, Sessions := 0,
      ToolCalls := 0, TotalTokens := 0, Cost := 0, ModelCosts := [] }
  refine ⟨h1, h2, ?_, ?_, ?_, ?_, ?_, h8⟩
  · rw [h3]; exact foldl_wrapInt64_zero _ _
  · rw [h4]; exact foldl_wrapInt64_zero _ _
  · rw [h5]; exact foldl_wrapInt64_zero _ _
  · rw [h6]; exact foldl_wrapInt64_zero _ _
  · rw [h7]; simp

/-- C11 fails as stated: over two days of `2^63 - 1` messages and of one
message, `PeriodFromDays` returns `Messages = -2^63`, while the sum of the
field over the list is `2^63`. -/
theorem PeriodFromDays_Messages_wraps :
    (PeriodFromDays "All Time" overflowDays).Messages = -9223372036854775808
    ∧ (overflowDays.map (fun d => d.Messages)).sum = 9223372036854775808 := by
  decide

/-- C11, amended: `PeriodFromDays` returns a summary with the given label,
`Days` the length of the list, `Messages`, `Sessions`, `ToolCalls` and
`TotalTokens` the sums of those fields over the list as Go's 64-bit `int`
computes them (wrapping around on overflow, and the plain sums whenever these
are 64-bit values) and `Cost` the sum of the costs; on the empty list it returns
the summary whose numeric fields are all zero. -/
theorem PeriodFromDays_sums (label : String) (days : List DailyStats) :
    (PeriodFromDays label days).Label = label
    ∧ (PeriodFromDays label days).Days = (days.length : Int)
    ∧ (PeriodFromDays label days).Messages = wrapInt64 (days.map (fun d => d.Messages)).sum
    ∧ (PeriodFromDays label days).Sessions = wrapInt64 (days.map (fun d => d.Sessions)).sum
    ∧ (PeriodFromDays label days).ToolCalls = wrapInt64 (days.map (fun d => d.ToolCalls)).sum
    ∧ (PeriodFromDays label days).TotalTokens
        = wrapInt64 (days.map (fun d => d.TotalTokens)).sum
    ∧ (PeriodFromDays label days).Cost = (days.map (fun d => d.Cost)).sum
    ∧ (InInt64 (days.map (fun d => d.Messages)).sum →
        (PeriodFromDays label days).Messages = (days.map (fun d => d.Messages)).sum)
    ∧ (InInt64 (days.map (fun d => d.Sessions)).sum →
        (PeriodFromDays label days).Sessions = (days.map (fun d => d.Sessions)).sum)
    ∧ (InInt64 (days.map (fun d => d.ToolCalls)).sum →
        (PeriodFromDays label days).ToolCalls = (days.map (fun d => d.ToolCalls)).sum)
    ∧ (InInt64 (days.map (fun d => d.TotalTokens)).sum →
        (PeriodFromDays label days).TotalTokens = (days.map (fun d => d.TotalTokens)).sum)
    ∧ PeriodFromDays label [] = ⟨label, 0, 0, 0, 0, 0, 0, []⟩ := by
  obtain ⟨h1, h2, h3, h4, h5, h6, h7, -⟩ := PeriodFromDays_fields label days
  refine ⟨h1, h2, h3, h4, h5, h6, h7, ?_, ?_, ?_, ?_, rfl⟩
  · intro h; rw [h3, wrapInt64_of_inRange h]
  · intro h; rw [h4, wrapInt64_of_inRange h]
  · intro h; rw [h5, wrapInt64_of_inRange h]
  · intro h; rw [h6, wrapInt64_of_inRange h]

/-- Witness of C11: the two-day list `sampleDays`, with 14 messages, 3
sessions, 3 tool calls and 1120 tokens in all. -/
theorem PeriodFromDays_sums_witness :
    (PeriodFromDays "This Week" sampleDays).Days = 2
    ∧ (PeriodFromDays "This Week" sampleDays).Messages = 14
    ∧ (PeriodFromDays "This Week" sampleDays).Sessions = 3
    ∧ (PeriodFromDays "This Week" sampleDays).ToolCalls = 3
    ∧ (PeriodFromDays "This Week" sampleDays).TotalTokens = 1120
    ∧ (PeriodFromDays "This Week" sampleDays).Cost = (sampleDays.map (fun d => d.Cost)).sum :=
  have h := PeriodFromDays_sums "This Week" sampleDays
  ⟨h.2.1.trans (by decide),
    (h.2.2.2.2.2.2.2.1 (by decide)).trans (by decide),
    (h.2.2.2.2.2.2.2.2.1 (by decide)).trans (by decide),
    (h.2.2.2.2.2.2.2.2.2.1 (by decide)).trans (by decide),
    (h.2.2.2.2.2.2.2.2.2.2.1 (by decide)).trans (by decide),
    h.2.2.2.2.2.2.1⟩

theorem strLess_iff_lex (l₁ l₂ : List Char) :
    strLess l₁ l₂ = true ↔ List.Lex (fun a b => a < b) l₁ l₂ := by
  induction l₁ generalizing l₂ with
  | nil =>
    cases l₂ with
    | nil => simp [strLess, List.Lex.not_nil_right]
    | cons b bs => simp [strLess, List.Lex.nil]
  | cons a as ih =>
    cases l₂ with
    | nil => simp [strLess, List.Lex.not_nil_right]
    | cons b bs =>
      unfold strLess
      by_cases hab : a < b
      · simp [hab, List.Lex.rel hab]
      · by_cases heq : a = b
        · subst heq
          simp only [lt_self_iff_false, if_false, if_true]
          rw [ih bs]
          exact List.Lex.cons_iff.symm
        · simp only [hab, heq, if_false]
          constructor
          · intro h
            exact Bool.noConfusion h
          · intro h
            cases h with
            | cons h' => exact absurd rfl heq
            | rel h' => exact absurd h' hab

theorem strLt_iff (a b : String) : strLt a b = true ↔ a < b := by
  rw [String.lt_iff_toList_lt]
  exact strLess_iff_lex a.data b.data

theorem strLt_eq_false_iff (a b : String) : strLt a b = false ↔ b ≤ a := by
  rw [← not_lt, ← strLt_iff]
  simp

theorem FilterDaysAfter_eq_filter (days : List DailyStats) (after : String) :
    FilterDaysAfter days after = days.filter (fun d => decide (after ≤ d.Date)) := by
  unfold FilterDaysAfter
  have h : ∀ (init : List DailyStats),
      days.foldl (fun result d => if !strLt d.Date after then result ++ [d] else result) init
        = init ++ days.filter (fun d => decide (after ≤ d.Date)) := by
    induction days with
    | nil => simp
    | cons d rest ih =>
      intro init
      rw [List.foldl_cons, ih, List.filter_cons]
      by_cases hd : after ≤ d.Date
      · simp [hd, (strLt_eq_false_iff _ _).2 hd]
      · have hlt : strLt d.Date after = true := (strLt_iff _ _).2 (not_le.1 hd)
        simp [hd, hlt]
  rw [h []]
  simp

set_option maxRecDepth 8000 in
/-- C12 fails as stated: for a cache with days of `2^63 - 1` messages and of
one message, the All-Time summary has `Messages = -2^63`, while the sum over
the days of `AggregateDaily` is `2^63`. -/
theorem ComputeSummaries_Messages_wraps :
    (ComputeSummaries "2025-11-03" "2025-10-27" "2025-10-03" overflowCache).2.2.2.Messages
      = -9223372036854775808
    ∧ ((AggregateDaily overflowCache).map (fun d => d.Messages)).sum
      = 9223372036854775808 := by
  decide

/-- C12, amended: the All-Time summary of `ComputeSummaries` carries the cost
`TotalCostFromModelUsage cache.ModelUsage`, and the day count and the sums of
messages, sessions, tool calls and tokens over all days of `AggregateDaily
cache` as Go's 64-bit `int` computes them (wrapping around on overflow, and the
plain sums whenever these are 64-bit values); the Today, This Week and This
Month summaries are `PeriodFromDays` over exactly the days whose date is `>=`
the cutoff, in order. -/
theorem ComputeSummaries_spec (todayStr weekAgo monthAgo : String) (cache : StatsCache) :
    (ComputeSummaries todayStr weekAgo monthAgo cache).2.2.2.Cost
      = TotalCostFromModelUsage cache.ModelUsage
    ∧ (ComputeSummaries todayStr weekAgo monthAgo cache).2.2.2.Label = "All Time"
    ∧ (ComputeSummaries todayStr weekAgo monthAgo cache).2.2.2.Days
        = ((AggregateDaily cache).length : Int)
    ∧ (ComputeSummaries todayStr weekAgo monthAgo cache).2.2.2.Messages
        = wrapInt64 ((AggregateDaily cache).map (fun d => d.Messages)).sum
    ∧ (ComputeSummaries todayStr weekAgo monthAgo cache).2.2.2.Sessions
        = wrapInt64 ((AggregateDaily cache).map (fun d => d.Sessions)).sum
    ∧ (ComputeSummaries todayStr weekAgo monthAgo cache).2.2.2.ToolCalls
        = wrapInt64 ((AggregateDaily cache).map (fun d => d.ToolCalls)).sum
    ∧ (ComputeSummaries todayStr weekAgo monthAgo cache).2.2.2.TotalTokens
        = wrapInt64 ((AggregateDaily cache).map (fun d => d.TotalTokens)).sum
    ∧ (InInt64 ((AggregateDaily cache).map (fun d => d.Messages)).sum →
        (ComputeSummaries todayStr weekAgo monthAgo cache).2.2.2.Messages
          = ((AggregateDaily cache).map (fun d => d.Messages)).sum)
    ∧ (InInt64 ((AggregateDaily cache).map (fun d => d.Sessions)).sum →
        (ComputeSummaries todayStr weekAgo monthAgo cache).2.2.2.Sessions
          = ((AggregateDaily cache).map (fun d => d.Sessions)).sum)
    ∧ (InInt64 ((AggregateDaily cache).map (fun d => d.ToolCalls)).sum →
        (ComputeSummaries todayStr weekAgo monthAgo cache).2.2.2.ToolCalls
          = ((AggregateDaily cache).map (fun d => d.ToolCalls)).sum)
    ∧ (InInt64 ((AggregateDaily cache).map (fun d => d.TotalTokens)).sum →
        (ComputeSummaries todayStr weekAgo monthAgo cache).2.2.2.TotalTokens
          = ((AggregateDaily cache).map (fun d => d.TotalTokens)).sum)
    ∧ (ComputeSummaries todayStr weekAgo monthAgo cache).1
        = PeriodFromDays "Today"
            ((AggregateDaily cache).filter (fun d => decide (todayStr ≤ d.Date)))
    ∧ (ComputeSummaries todayStr weekAgo monthAgo cache).2.1
        = PeriodFromDays "This Week"
            ((AggregateDaily cache).filter (fun d => decide (weekAgo ≤ d.Date)))
    ∧ (ComputeSummaries todayStr weekAgo monthAgo cache).2.2.1
        = PeriodFromDays "This Month"
            ((AggregateDaily cache).filter (fun d => decide (monthAgo ≤ d.Date))) := by
  obtain ⟨h1, h2, h3, h4, h5, h6, -, -⟩ := PeriodFromDays_fields "All Time" (AggregateDaily cache)
  refine ⟨rfl, h1, h2, h3, h4, h5, h6, ?_, ?_, ?_, ?_, ?_, ?_, ?_⟩
  · intro h
    exact h3.trans (wrapInt64_of_inRange h)
  · intro h
    exact h4.trans (wrapInt64_of_inRange h)
  · intro h
    exact h5.trans (wrapInt64_of_inRange h)
  · intro h
    exact h6.trans (wrapInt64_of_inRange h)
  · exact congrArg (PeriodFromDays "Today") (FilterDaysAfter_eq_filter _ _)
  · exact congrArg (PeriodFromDays "This Week") (FilterDaysAfter_eq_filter _ _)
  · exact congrArg (PeriodFromDays "This Month") (FilterDaysAfter_eq_filter _ _)

set_option maxRecDepth 8000 in
/-- Witness of C12: the All-Time summary of `sampleCache` counts the 14 messages
and 1050 tokens of its two days. -/
theorem ComputeSummaries_spec_witness :
    (ComputeSummaries "2025-11-03" "2025-10-27" "2025-10-03" sampleCache).2.2.2.Messages = 14
    ∧ (ComputeSummaries "2025-11-03" "2025-10-27" "2025-10-03" sampleCache).2.2.2.TotalTokens
        = 1050 :=
  have h := ComputeSummaries_spec "2025-11-03" "2025-10-27" "2025-10-03" sampleCache
  ⟨(h.2.2.2.2.2.2.2.1 (by decide)).trans (by decide),
    (h.2.2.2.2.2.2.2.2.2.2.1 (by decide)).trans (by decide)⟩

theorem foldl_lastWeek (weekAgo twoWeeksAgo : String) (days : List DailyStats) :
    days.foldl
      (fun acc d =>
        if !strLt d.Date twoWeeksAgo && strLt d.Date weekAgo then acc ++ [d] else acc) []
      = lastWeekDays weekAgo twoWeeksAgo days := by
  unfold lastWeekDays
  have hcond : ∀ d : DailyStats, (!strLt d.Date twoWeeksAgo && strLt d.Date weekAgo)
      = (decide (twoWeeksAgo ≤ d.Date) && decide (d.Date < weekAgo)) := by
    intro d
    have h1 : (!strLt d.Date twoWeeksAgo) = decide (twoWeeksAgo ≤ d.Date) := by
      by_cases h : twoWeeksAgo ≤ d.Date
      · simp [h, (strLt_eq_false_iff _ _).2 h]
      · simp [h, (strLt_iff _ _).2 (not_le.1 h)]
    have h2 : strLt d.Date weekAgo = decide (d.Date < weekAgo) := by
      by_cases h : d.Date < weekAgo
      · simp [h, (strLt_iff _ _).2 h]
      · simp [h, (strLt_eq_false_iff _ _).2 (not_lt.1 h)]
    rw [h1, h2]
  have h : ∀ (init : List DailyStats),
      days.foldl
        (fun acc d =>
          if !strLt d.Date twoWeeksAgo && strLt d.Date weekAgo then acc ++ [d] else acc) init
        = init ++ days.filter
            (fun d => decide (twoWeeksAgo ≤ d.Date) && decide (d.Date < weekAgo)) := by
    induction days with
    | nil => simp
    | cons d rest ih =>
      intro init
      rw [List.foldl_cons, ih, List.filter_cons, hcond d]
      cases hc : (decide (twoWeeksAgo ≤ d.Date) && decide (d.Date < weekAgo)) with
      | true => simp
      | false => simp
  rw [h []]
  simp

theorem foldl_cost (days : List DailyStats) :
    days.foldl (fun c d => c + d.Cost) (0 : ℚ) = costSum days := by
  unfold costSum
  rw [foldl_add_eq_sum (fun d : DailyStats => d.Cost)]
  simp

theorem ComputeBurnRate_eq (weekAgo twoWeeksAgo : String) (days : List DailyStats)
    (hne : days ≠ []) :
    ComputeBurnRate weekAgo twoWeeksAgo days
      = if costSum (lastWeekDays weekAgo twoWeeksAgo days) > 0 then
          (⟨costSum (thisWeekDays weekAgo days) / max 1 ((thisWeekDays weekAgo days).length : ℚ),
            costSum (thisWeekDays weekAgo days)
              / max 1 ((thisWeekDays weekAgo days).length : ℚ) * 30,
            ((costSum (thisWeekDays weekAgo days)
                - costSum (lastWeekDays weekAgo twoWeeksAgo days))
              / costSum (lastWeekDays weekAgo twoWeeksAgo days)) * 100⟩,
            [max 1 ((thisWeekDays weekAgo days).length : ℚ),
              costSum (lastWeekDays weekAgo twoWeeksAgo days)])
        else
          (⟨costSum (thisWeekDays weekAgo days) / max 1 ((thisWeekDays weekAgo days).length : ℚ),
            costSum (thisWeekDays weekAgo days)
              / max 1 ((thisWeekDays weekAgo days).length : ℚ) * 30, 0⟩,
            [max 1 ((thisWeekDays weekAgo days).length : ℚ)]) := by
  have hlen : ¬ days.length = 0 := fun h => hne (List.length_eq_zero.1 h)
  have hact : (((if (thisWeekDays weekAgo days).length = 0 then 1
        else (thisWeekDays weekAgo days).length : Nat) : Nat) : ℚ)
      = max 1 ((thisWeekDays weekAgo days).length : ℚ) := by
    by_cases h0 : (thisWeekDays weekAgo days).length = 0
    · simp [h0]
    · have h1 : (1 : ℚ) ≤ ((thisWeekDays weekAgo days).length : ℚ) := by
        exact_mod_cast Nat.one_le_iff_ne_zero.2 h0
      simp [h0, max_eq_right h1]
  unfold ComputeBurnRate
  rw [if_neg hlen]
  simp only [foldl_lastWeek, foldl_cost, FilterDaysAfter_eq_filter]
  rw [show List.filter (fun d => decide (weekAgo ≤ d.Date)) days = thisWeekDays weekAgo days
    from rfl, hact]

theorem max_one_ne_zero (n : Nat) : max 1 (n : ℚ) ≠ 0 := by
  have h : (0 : ℚ) < max 1 (n : ℚ) := lt_of_lt_of_le one_pos (le_max_left _ _)
  exact ne_of_gt h

/-- C13: on a non-empty day list, with `W` and `n` the total cost and the number
of the days with `Date >= weekAgo` and `L` the total cost of the days with
`twoWeeksAgo <= Date < weekAgo`, `ComputeBurnRate` returns `DailyAvg = W /
max(1, n)`, `ProjectedMonth = 30 * DailyAvg` and `TrendVsLastWeek = 100 * (W -
L) / L` when `L > 0`, 0 otherwise; no day lies in both windows, and every
division performed has a non-zero divisor. -/
theorem ComputeBurnRate_spec (weekAgo twoWeeksAgo : String) (days : List DailyStats)
    (hne : days ≠ []) :
    (ComputeBurnRate weekAgo twoWeeksAgo days).1.DailyAvg
      = costSum (thisWeekDays weekAgo days) / max 1 ((thisWeekDays weekAgo days).length : ℚ)
    ∧ (ComputeBurnRate weekAgo twoWeeksAgo days).1.ProjectedMonth
        = 30 * (ComputeBurnRate weekAgo twoWeeksAgo days).1.DailyAvg
    ∧ (ComputeBurnRate weekAgo twoWeeksAgo days).1.TrendVsLastWeek
        = (if costSum (lastWeekDays weekAgo twoWeeksAgo days) > 0 then
            100 * (costSum (thisWeekDays weekAgo days)
                - costSum (lastWeekDays weekAgo twoWeeksAgo days))
              / costSum (lastWeekDays weekAgo twoWeeksAgo days)
          else 0)
    ∧ (∀ d : DailyStats,
        ¬ (d ∈ thisWeekDays weekAgo days ∧ d ∈ lastWeekDays weekAgo twoWeeksAgo days))
    ∧ (∀ q ∈ (ComputeBurnRate weekAgo twoWeeksAgo days).2, q ≠ 0) := by
  rw [ComputeBurnRate_eq weekAgo twoWeeksAgo days hne]
  refine ⟨?_, ?_, ?_, ?_, ?_⟩
  · split <;> rfl
  · split <;> simp only <;> ring
  · split
    · simp only
      ring
    · rfl
  · rintro d ⟨h1, h2⟩
    unfold thisWeekDays at h1
    unfold lastWeekDays at h2
    rw [List.mem_filter] at h1 h2
    simp only [Bool.and_eq_true, decide_eq_true_eq] at h1 h2
    exact h1.2 h2.2.2
  · intro q hq
    split at hq
    · rename_i hL
      simp only [List.mem_cons, List.mem_singleton, List.not_mem_nil, or_false] at hq
      rcases hq with rfl | rfl
      · exact max_one_ne_zero _
      · exact ne_of_gt hL
    · simp only [List.mem_singleton] at hq
      rw [hq]
      exact max_one_ne_zero _

/-- Witness of C13: the one-day list `[sampleDay]` with the week starting on
`2025-10-28`. -/
theorem ComputeBurnRate_spec_witness :
    [sampleDay] ≠ []
    ∧ (ComputeBurnRate "2025-10-28" "2025-10-21" [sampleDay]).1.DailyAvg
        = costSum (thisWeekDays "2025-10-28" [sampleDay])
            / max 1 ((thisWeekDays "2025-10-28" [sampleDay]).length : ℚ)
    ∧ (∀ q ∈ (ComputeBurnRate "2025-10-28" "2025-10-21" [sampleDay]).2, q ≠ 0) :=
  have h := ComputeBurnRate_spec "2025-10-28" "2025-10-21" [sampleDay] (List.cons_ne_nil _ _)
  ⟨List.cons_ne_nil _ _, h.1, h.2.2.2.2⟩

/-- C14: on the empty day list `ComputeBurnRate` returns the all-zero
`BurnRate` and performs no division. -/
theorem ComputeBurnRate_empty (weekAgo twoWeeksAgo : String) :
    (ComputeBurnRate weekAgo twoWeeksAgo []).1 = ⟨0, 0, 0⟩
    ∧ (ComputeBurnRate weekAgo twoWeeksAgo []).2 = [] :=
  ⟨rfl, rfl⟩

/-! ## Sorting the daily usage -/

theorem getElem?_append_mid0 (p : List DailyUsage) (y : DailyUsage) (t : List DailyUsage) :
    (p ++ y :: t)[p.length]? = some y := by
  induction p with
  | nil => simp
  | cons a p ih => simpa using ih

theorem getElem?_append_mid1 (p : List DailyUsage) (y x : DailyUsage) (t : List DailyUsage) :
    (p ++ y :: x :: t)[p.length + 1]? = some x := by
  induction p with
  | nil => simp
  | cons a p ih => simpa using ih

theorem set_append_mid (p : List DailyUsage) (y x : DailyUsage) (t : List DailyUsage) :
    ((p ++ y :: x :: t).set (p.length + 1) y).set p.length x = p ++ x :: y :: t := by
  induction p with
  | nil => rfl
  | cons a p ih => simp [ih]

theorem sortInner_spec (x : DailyUsage) (pre : List DailyUsage) :
    ∀ suf : List DailyUsage, pre.Pairwise (fun a b => a.Date ≤ b.Date) →
      ∃ q, sortInner (pre ++ x :: suf) pre.length = q ++ suf ∧ q.Perm (pre ++ [x])
        ∧ q.Pairwise (fun a b => a.Date ≤ b.Date) := by
  induction pre using List.reverseRecOn with
  | nil =>
    intro suf _
    exact ⟨[x], rfl, List.Perm.refl _, List.pairwise_singleton _ _⟩
  | append_singleton p y ih =>
    intro suf hs
    have hlen : (p ++ [y]).length = p.length + 1 := by simp
    have hdays : p ++ [y] ++ x :: suf = p ++ y :: x :: suf := by simp
    rw [hlen, hdays, sortInner, getElem?_append_mid1, getElem?_append_mid0]
    simp only
    rw [List.pairwise_append] at hs
    obtain ⟨hp, -, hpy⟩ := hs
    by_cases hxy : strLt x.Date y.Date = true
    · rw [if_pos hxy, set_append_mid]
      obtain ⟨q', hq1, hq2, hq3⟩ := ih (y :: suf) hp
      refine ⟨q' ++ [y], ?_, ?_, ?_⟩
      · rw [hq1]; simp
      · have h1 : (q' ++ [y]).Perm (p ++ [x] ++ [y]) := hq2.append_right [y]
        refine h1.trans ?_
        rw [List.append_assoc, List.append_assoc]
        exact List.Perm.append_left p (List.Perm.swap y x [])
      · rw [List.pairwise_append]
        refine ⟨hq3, List.pairwise_singleton _ _, ?_⟩
        intro a ha b hb
        rw [List.mem_singleton] at hb
        subst hb
        have ha' := hq2.mem_iff.1 ha
        rw [List.mem_append, List.mem_singleton] at ha'
        rcases ha' with ha' | rfl
        · exact hpy a ha' b (List.mem_singleton_self _)
        · exact le_of_lt ((strLt_iff _ _).1 hxy)
    · rw [if_neg hxy]
      have hyx : y.Date ≤ x.Date := by
        rw [← strLt_eq_false_iff]
        exact Bool.eq_false_iff.2 hxy
      refine ⟨p ++ [y] ++ [x], by simp, List.Perm.refl _, ?_⟩
      rw [List.pairwise_append]
      refine ⟨?_, List.pairwise_singleton _ _, ?_⟩
      · rw [List.pairwise_append]
        exact ⟨hp, List.pairwise_singleton _ _, hpy⟩
      · intro a ha b hb
        rw [List.mem_singleton] at hb
        subst hb
        rw [List.mem_append, List.mem_singleton] at ha
        rcases ha with ha | rfl
        · exact le_trans (hpy a ha y (List.mem_singleton_self _)) hyx
        · exact hyx

theorem sortOuter_spec (rest : List DailyUsage) :
    ∀ pre : List DailyUsage, pre.Pairwise (fun a b => a.Date ≤ b.Date) →
      ((List.range' pre.length rest.length).foldl sortInner (pre ++ rest)).Perm (pre ++ rest)
      ∧ ((List.range' pre.length rest.length).foldl sortInner (pre ++ rest)).Pairwise
          (fun a b => a.Date ≤ b.Date) := by
  induction rest with
  | nil =>
    intro pre hs
    simp only [List.length_nil, List.range'_zero, List.foldl_nil, List.append_nil]
    exact ⟨List.Perm.refl _, hs⟩
  | cons x r ih =>
    intro pre hs
    obtain ⟨q, hq1, hq2, hq3⟩ := sortInner_spec x pre r hs
    have hqlen : q.length = pre.length + 1 := by
      rw [hq2.length_eq]; simp
    rw [List.length_cons, List.range'_succ, List.foldl_cons, hq1, ← hqlen]
    obtain ⟨h1, h2⟩ := ih q hq3
    refine ⟨h1.trans ?_, h2⟩
    have : (q ++ r).Perm (pre ++ [x] ++ r) := hq2.append_right r
    simpa using this

theorem sortDailyUsage_spec (days : List DailyUsage) :
    (sortDailyUsage days).Perm days
    ∧ (sortDailyUsage days).Pairwise (fun a b => a.Date ≤ b.Date) := by
  unfold sortDailyUsage
  cases days with
  | nil => exact ⟨List.Perm.refl _, List.Pairwise.nil⟩
  | cons d rest =>
    have h := sortOuter_spec rest [d] (List.pairwise_singleton _ _)
    simpa using h

/-! ## The per-date map -/

theorem keys_mapInsert {α : Type} (m : List (String × α)) (k : String) (v : α) :
    (mapInsert m k v).map Prod.fst
      = if k ∈ m.map Prod.fst then m.map Prod.fst else m.map Prod.fst ++ [k] := by
  induction m with
  | nil => simp [mapInsert]
  | cons e rest ih =>
    unfold mapInsert
    by_cases h : e.1 = k
    · simp [h]
    · have hk : ¬ k = e.1 := fun h' => h h'.symm
      simp only [beq_iff_eq, h, if_false, List.map_cons, ih, List.mem_cons, hk, false_or]
      split <;> simp

theorem nodup_keys_mapInsert {α : Type} (m : List (String × α)) (k : String) (v : α)
    (h : (m.map Prod.fst).Nodup) : ((mapInsert m k v).map Prod.fst).Nodup := by
  rw [keys_mapInsert]
  split
  · exact h
  · rename_i hk
    rw [List.nodup_append]
    refine ⟨h, List.nodup_singleton _, ?_⟩
    intro a ha hb
    rw [List.mem_singleton] at hb
    exact hk (hb ▸ ha)

theorem mem_iff_lookup {α : Type} (m : List (String × α)) (h : (m.map Prod.fst).Nodup)
    (k : String) (v : α) : (k, v) ∈ m ↔ m.lookup k = some v := by
  induction m with
  | nil => simp
  | cons e rest ih =>
    obtain ⟨k', v'⟩ := e
    rw [List.map_cons, List.nodup_cons] at h
    rw [List.lookup_cons, List.mem_cons]
    by_cases hk : k = k'
    · subst hk
      simp only [beq_self_eq_true, Prod.mk.injEq, true_and, Option.some.injEq]
      constructor
      · rintro (rfl | hmem)
        · rfl
        · exact absurd (List.mem_map_of_mem Prod.fst hmem) h.1
      · intro hv
        exact Or.inl hv.symm
    · have hb : (k == k') = false := beq_eq_false_iff_ne.2 hk
      simp only [hb, Prod.mk.injEq, hk, false_and, false_or]
      exact ih h.2

theorem nodup_keys_foldl_mergeDaily (entries : List DailyUsage)
    (m : List (String × DailyUsage)) (h : (m.map Prod.fst).Nodup) :
    ((entries.foldl mergeDaily m).map Prod.fst).Nodup := by
  induction entries generalizing m with
  | nil => exact h
  | cons d rest ih =>
    rw [List.foldl_cons]
    exact ih _ (nodup_keys_mapInsert _ _ _ h)

theorem onDate_append_singleton (date : String) (entries : List DailyUsage) (d : DailyUsage) :
    onDate date (entries ++ [d])
      = if d.Date = date then onDate date entries ++ [d] else onDate date entries := by
  unfold onDate
  rw [List.filter_append]
  by_cases h : d.Date = date <;> simp [h]

theorem lookup_mergeDaily_self (m : List (String × DailyUsage)) (d : DailyUsage) :
    (mergeDaily m d).lookup d.Date
      = some
          { Date := d.Date
            Cost := ((m.lookup d.Date).getD zeroUsage).Cost + d.Cost
            Tokens := wrapInt64 (((m.lookup d.Date).getD zeroUsage).Tokens + d.Tokens)
            Messages := wrapInt64 (((m.lookup d.Date).getD zeroUsage).Messages + d.Messages)
            Sessions := wrapInt64 (((m.lookup d.Date).getD zeroUsage).Sessions + d.Sessions)
            Generations :=
              wrapInt64 (((m.lookup d.Date).getD zeroUsage).Generations + d.Generations) } := by
  unfold mergeDaily
  rw [lookup_mapInsert_self]
  rfl

theorem lookup_mergeDaily_of_ne (m : List (String × DailyUsage)) (d : DailyUsage)
    {date : String} (h : d.Date ≠ date) : (mergeDaily m d).lookup date = m.lookup date := by
  unfold mergeDaily
  exact lookup_mapInsert_of_ne _ _ h

theorem lookup_foldl_mergeDaily (date : String) (entries : List DailyUsage) :
    (entries.foldl mergeDaily []).lookup date
      = if onDate date entries = [] then none else some (dateTotal date entries) := by
  induction entries using List.reverseRecOn with
  | nil => simp [onDate]
  | append_singleton entries d ih =>
    rw [List.foldl_append, List.foldl_cons, List.foldl_nil, onDate_append_singleton]
    by_cases hd : d.Date = date
    · subst hd
      rw [if_pos rfl, if_neg (by simp), lookup_mergeDaily_self, ih]
      have hsum : ∀ f : DailyUsage → Int,
          ((onDate d.Date entries ++ [d]).map f).sum
            = ((onDate d.Date entries).map f).sum + f d := by
        intro f; simp
      have hsumq : ((onDate d.Date entries ++ [d]).map (fun e => e.Cost)).sum
            = ((onDate d.Date entries).map (fun e => e.Cost)).sum + d.Cost := by
        simp
      by_cases he : onDate d.Date entries = []
      · simp only [he, if_true, Option.getD_none, dateTotal, onDate_append_singleton,
          List.nil_append, List.map_cons, List.map_nil, List.sum_cons, List.sum_nil,
          zero_add, add_zero, zeroUsage]
      · simp only [he, if_false, Option.getD_some, dateTotal, onDate_append_singleton,
          if_true, hsum, hsumq, wrapInt64_add_wrap]
    · rw [if_neg hd, lookup_mergeDaily_of_ne _ _ hd, ih]
      unfold dateTotal
      rw [onDate_append_singleton, if_neg hd]

/-! ## The main loop of `LoadAll` -/

theorem foldl_sessionStep (ss : List SessionInfo) (a : AggregatedData) :
    ss.foldl sessionStep a
      = { a with
          TotalSessions := ss.foldl (fun n _ => wrapInt64 (n + 1)) a.TotalSessions
          TotalTokens := ss.foldl (fun n s => wrapInt64 (n + s.Tokens)) a.TotalTokens } := by
  induction ss generalizing a with
  | nil => rfl
  | cons s rest ih =>
    rw [List.foldl_cons, ih]
    rfl

theorem dataStep_eq (st : LoadState) (d : ProviderData) :
    dataStep st d
      = { agg :=
            { Providers := st.agg.Providers ++ [d]
              TotalCost := st.agg.TotalCost + d.TotalCost
              DailyUsage := st.agg.DailyUsage
              TotalTokens :=
                d.Sessions.foldl (fun n s => wrapInt64 (n + s.Tokens)) st.agg.TotalTokens
              TotalSessions :=
                d.Sessions.foldl (fun n _ => wrapInt64 (n + 1)) st.agg.TotalSessions
              FirstSeen := firstSeenStep st.agg.FirstSeen d.FirstSeen
              LastSeen := lastSeenStep st.agg.LastSeen d.LastSeen }
          dailyMap := d.DailyUsage.foldl mergeDaily st.dailyMap } := by
  unfold dataStep firstSeenStep lastSeenStep
  simp only [foldl_sessionStep]
  split <;> split <;> rfl

theorem foldl_loadStep (ps : List Provider) (st : LoadState) :
    ps.foldl loadStep st = (loaded ps).foldl dataStep st := by
  induction ps generalizing st with
  | nil => rfl
  | cons p rest ih =>
    rw [List.foldl_cons, ih]
    unfold loaded loadStep
    rw [List.filterMap_cons]
    cases hA : p.Available with
    | false => simp
    | true =>
      cases hL : p.Load with
      | error e => simp
      | ok data => simp

theorem foldl_dataStep (ds : List ProviderData) (st : LoadState) :
    (ds.foldl dataStep st).agg.Providers = st.agg.Providers ++ ds
    ∧ (ds.foldl dataStep st).agg.TotalCost
        = st.agg.TotalCost + (ds.map (fun d => d.TotalCost)).sum
    ∧ (ds.foldl dataStep st).agg.DailyUsage = st.agg.DailyUsage
    ∧ (ds.foldl dataStep st).agg.TotalTokens
        = (ds.flatMap (fun d => d.Sessions)).foldl
            (fun n s => wrapInt64 (n + s.Tokens)) st.agg.TotalTokens
    ∧ (ds.foldl dataStep st).agg.TotalSessions
        = (ds.flatMap (fun d => d.Sessions)).foldl
            (fun n _ => wrapInt64 (n + 1)) st.agg.TotalSessions
    ∧ (ds.foldl dataStep st).agg.FirstSeen
        = (ds.map (fun d => d.FirstSeen)).foldl firstSeenStep st.agg.FirstSeen
    ∧ (ds.foldl dataStep st).agg.LastSeen
        = (ds.map (fun d => d.LastSeen)).foldl lastSeenStep st.agg.LastSeen
    ∧ (ds.foldl dataStep st).dailyMap
        = (ds.flatMap (fun d => d.DailyUsage)).foldl mergeDaily st.dailyMap := by
  induction ds generalizing st with
  | nil => simp
  | cons d rest ih =>
    obtain ⟨h1, h2, h3, h4, h5, h6, h7, h8⟩ := ih (dataStep st d)
    rw [List.foldl_cons]
    refine ⟨?_, ?_, ?_, ?_, ?_, ?_, ?_, ?_⟩
    · rw [h1, dataStep_eq]; simp
    · rw [h2, dataStep_eq]; simp [add_assoc]
    · rw [h3, dataStep_eq]
    · rw [h4, dataStep_eq]; simp [List.flatMap_cons, List.foldl_append]
    · rw [h5, dataStep_eq]; simp [List.flatMap_cons, List.foldl_append]
    · rw [h6, dataStep_eq]; simp
    · rw [h7, dataStep_eq]; simp
    · rw [h8, dataStep_eq]; simp [List.flatMap_cons, List.foldl_append]

theorem foldl_appendUsage (l : List (String × DailyUsage)) (a : AggregatedData) :
    l.foldl (fun agg e => { agg with DailyUsage := agg.DailyUsage ++ [e.2] }) a
      = { a with DailyUsage := a.DailyUsage ++ l.map Prod.snd } := by
  induction l generalizing a with
  | nil => simp
  | cons e rest ih =>
    rw [List.foldl_cons, ih]
    simp

theorem sum_map_one {α : Type} (l : List α) :
    (l.map (fun _ => (1 : Int))).sum = (l.length : Int) := by
  induction l with
  | nil => rfl
  | cons x xs ih =>
    rw [List.map_cons, List.sum_cons, ih, List.length_cons]
    push_cast
    ring

/-- The fields of the result of `LoadAllWith`, in terms of the loaded data. -/
theorem LoadAllWith_fields (visit : List (String × DailyUsage) → List (String × DailyUsage))
    (ps : List Provider) :
    (LoadAllWith visit ps).Providers = loaded ps
    ∧ (LoadAllWith visit ps).TotalCost = ((loaded ps).map (fun d => d.TotalCost)).sum
    ∧ (LoadAllWith visit ps).DailyUsage
        = sortDailyUsage ((visit ((loadedEntries ps).foldl mergeDaily [])).map Prod.snd)
    ∧ (LoadAllWith visit ps).TotalTokens
        = wrapInt64 ((loadedSessions ps).map (fun s => s.Tokens)).sum
    ∧ (LoadAllWith visit ps).TotalSessions = wrapInt64 ((loadedSessions ps).length : Int)
    ∧ (LoadAllWith visit ps).FirstSeen
        = ((loaded ps).map (fun d => d.FirstSeen)).foldl firstSeenStep Time.zero
    ∧ (LoadAllWith visit ps).LastSeen
        = ((loaded ps).map (fun d => d.LastSeen)).foldl lastSeenStep Time.zero := by
  obtain ⟨h1, h2, h3, h4, h5, h6, h7, h8⟩ := foldl_dataStep (loaded ps)
    { agg := ⟨[], 0, [], 0, 0, Time.zero, Time.zero⟩, dailyMap := [] }
  unfold LoadAllWith
  simp only [foldl_loadStep, foldl_appendUsage]
  refine ⟨?_, ?_, ?_, ?_, ?_, h6, h7⟩
  · rw [h1]; rfl
  · rw [h2]; simp
  · rw [h3, h8]; rfl
  · rw [h4]
    exact foldl_wrapInt64_zero (fun s : SessionInfo => s.Tokens) _
  · rw [h5]
    exact (foldl_wrapInt64_zero (fun _ : SessionInfo => (1 : Int)) _).trans
      (by rw [sum_map_one]; rfl)

theorem LoadAllWith_congr (visit : List (String × DailyUsage) → List (String × DailyUsage))
    {ps qs : List Provider} (h : loaded ps = loaded qs) :
    LoadAllWith visit ps = LoadAllWith visit qs := by
  unfold LoadAllWith
  simp only [foldl_loadStep, h]

/-! ## The merged daily usage -/

theorem mem_dailyMap_iff (entries : List DailyUsage) (k : String) (v : DailyUsage) :
    (k, v) ∈ entries.foldl mergeDaily []
      ↔ onDate k entries ≠ [] ∧ v = dateTotal k entries := by
  rw [mem_iff_lookup _ (nodup_keys_foldl_mergeDaily entries [] List.nodup_nil),
    lookup_foldl_mergeDaily]
  by_cases h : onDate k entries = []
  · simp [h]
  · simp only [h, if_false, Option.some.injEq, ne_eq, not_false_eq_true, true_and]
    exact eq_comm

theorem onDate_ne_nil_iff (date : String) (entries : List DailyUsage) :
    onDate date entries ≠ [] ↔ ∃ e ∈ entries, e.Date = date := by
  unfold onDate
  rw [ne_eq, List.filter_eq_nil_iff]
  simp

theorem mem_values_iff (entries : List DailyUsage) (v : DailyUsage) :
    v ∈ (entries.foldl mergeDaily []).map Prod.snd
      ↔ onDate v.Date entries ≠ [] ∧ v = dateTotal v.Date entries := by
  rw [List.mem_map]
  constructor
  · rintro ⟨⟨k, w⟩, hmem, rfl⟩
    obtain ⟨h1, h2⟩ := (mem_dailyMap_iff entries k w).1 hmem
    have hk : w.Date = k := by rw [h2]; rfl
    simp only
    rw [hk]
    exact ⟨h1, h2⟩
  · rintro ⟨h1, h2⟩
    exact ⟨(v.Date, v), (mem_dailyMap_iff entries v.Date v).2 ⟨h1, h2⟩, rfl⟩

theorem dates_values_eq_keys (entries : List DailyUsage) :
    ((entries.foldl mergeDaily []).map Prod.snd).map (fun d => d.Date)
      = (entries.foldl mergeDaily []).map Prod.fst := by
  rw [List.map_map]
  apply List.map_congr_left
  rintro ⟨k, w⟩ hmem
  obtain ⟨-, h2⟩ := (mem_dailyMap_iff entries k w).1 hmem
  simp only [Function.comp_apply]
  rw [h2]
  rfl

theorem nodup_dates_values (entries : List DailyUsage) :
    (((entries.foldl mergeDaily []).map Prod.snd).map (fun d => d.Date)).Nodup := by
  rw [dates_values_eq_keys]
  exact nodup_keys_foldl_mergeDaily entries [] List.nodup_nil

theorem sortDailyUsage_strict (days : List DailyUsage)
    (hnd : (days.map (fun d => d.Date)).Nodup) :
    (sortDailyUsage days).Pairwise (fun a b => a.Date < b.Date) := by
  obtain ⟨hperm, hsorted⟩ := sortDailyUsage_spec days
  have hnd' : ((sortDailyUsage days).map (fun d => d.Date)).Nodup :=
    (hperm.map _).nodup_iff.2 hnd
  rw [List.Nodup, List.pairwise_map] at hnd'
  exact (hsorted.and hnd').imp (fun h => lt_of_le_of_ne h.1 h.2)

theorem sortDailyUsage_unique {l₁ l₂ : List DailyUsage} (hp : l₁.Perm l₂)
    (hnd : (l₁.map (fun d => d.Date)).Nodup) : sortDailyUsage l₁ = sortDailyUsage l₂ := by
  have hnd₂ : (l₂.map (fun d => d.Date)).Nodup := (hp.map _).nodup_iff.1 hnd
  have h1 := sortDailyUsage_strict l₁ hnd
  have h2 := sortDailyUsage_strict l₂ hnd₂
  have hperm : (sortDailyUsage l₁).Perm (sortDailyUsage l₂) :=
    ((sortDailyUsage_spec l₁).1.trans hp).trans (sortDailyUsage_spec l₂).1.symm
  haveI : IsAntisymm DailyUsage (fun a b => a.Date < b.Date) :=
    ⟨fun a b hab hba => absurd hab (not_lt_of_gt hba)⟩
  exact List.eq_of_perm_of_sorted hperm h1 h2

/-- The result of `LoadAll` does not depend on the order in which the final
loop visits the per-date map. -/
theorem LoadAllWith_perm (visit : List (String × DailyUsage) → List (String × DailyUsage))
    (hv : ∀ m, (visit m).Perm m) (ps : List Provider) :
    LoadAllWith visit ps = LoadAll ps := by
  obtain ⟨-, -, h3, -, -, -, -, h8⟩ := foldl_dataStep (loaded ps)
    { agg := ⟨[], 0, [], 0, 0, Time.zero, Time.zero⟩, dailyMap := [] }
  unfold LoadAll LoadAllWith
  simp only [foldl_loadStep, foldl_appendUsage, h3, h8, id, List.nil_append]
  congr 1
  apply sortDailyUsage_unique ((hv _).map _)
  exact ((((hv _).map Prod.snd).map (fun d => d.Date)).nodup_iff).2 (nodup_dates_values _)

theorem LoadAll_DailyUsage_eq (ps : List Provider) :
    (LoadAll ps).DailyUsage
      = sortDailyUsage (((loadedEntries ps).foldl mergeDaily []).map Prod.snd) :=
  (LoadAllWith_fields id ps).2.2.1

theorem mem_LoadAll_DailyUsage (ps : List Provider) (v : DailyUsage) :
    v ∈ (LoadAll ps).DailyUsage
      ↔ (∃ e ∈ loadedEntries ps, e.Date = v.Date) ∧ v = dateTotal v.Date (loadedEntries ps) := by
  rw [LoadAll_DailyUsage_eq, (sortDailyUsage_spec _).1.mem_iff, mem_values_iff,
    onDate_ne_nil_iff]

theorem LoadAll_DailyUsage_strict (ps : List Provider) :
    (LoadAll ps).DailyUsage.Pairwise (fun a b => a.Date < b.Date) := by
  rw [LoadAll_DailyUsage_eq]
  exact sortDailyUsage_strict _ (nodup_dates_values _)

set_option maxRecDepth 8000 in
/-- C15 fails as stated: two loaded providers report the same date with
`2^63 - 1` tokens and with one token; the merged entry has `Tokens = -2^63`,
while the sum of the field over the two entries is `2^63`. -/
theorem LoadAll_DailyUsage_Tokens_wraps :
    (LoadAll overflowProviders).DailyUsage.map (fun d => (d.Date, d.Tokens))
      = [("2025-11-01", -9223372036854775808)]
    ∧ ((onDate "2025-11-01" (loadedEntries overflowProviders)).map (fun e => e.Tokens)).sum
      = 9223372036854775808 := by
  decide

/-- C15, amended: the daily usage returned by `LoadAll` is in strictly
ascending date order; it holds exactly one entry for each date that occurs in
the daily usage of a loaded provider, and no other entry; the cost of an entry
is the sum of the costs of the loaded providers' entries with that date, and
its tokens, messages, sessions and generations are the sums of those fields as
Go's 64-bit `int` computes them (wrapping around on overflow, and the plain
sums whenever these are 64-bit values). -/
theorem LoadAll_DailyUsage_merge (ps : List Provider) :
    (LoadAll ps).DailyUsage.Pairwise (fun a b => a.Date < b.Date)
    ∧ (∀ date : String, (∃ e ∈ loadedEntries ps, e.Date = date) →
        ∃! d, d ∈ (LoadAll ps).DailyUsage ∧ d.Date = date)
    ∧ (∀ d ∈ (LoadAll ps).DailyUsage, ∃ e ∈ loadedEntries ps, e.Date = d.Date)
    ∧ (∀ d ∈ (LoadAll ps).DailyUsage,
        d.Cost = ((onDate d.Date (loadedEntries ps)).map (fun e => e.Cost)).sum
        ∧ d.Tokens = wrapInt64 ((onDate d.Date (loadedEntries ps)).map (fun e => e.Tokens)).sum
        ∧ d.Messages
            = wrapInt64 ((onDate d.Date (loadedEntries ps)).map (fun e => e.Messages)).sum
        ∧ d.Sessions
            = wrapInt64 ((onDate d.Date (loadedEntries ps)).map (fun e => e.Sessions)).sum
        ∧ d.Generations
            = wrapInt64 ((onDate d.Date (loadedEntries ps)).map (fun e => e.Generations)).sum
        ∧ (InInt64 ((onDate d.Date (loadedEntries ps)).map (fun e => e.Tokens)).sum →
            d.Tokens = ((onDate d.Date (loadedEntries ps)).map (fun e => e.Tokens)).sum)
        ∧ (InInt64 ((onDate d.Date (loadedEntries ps)).map (fun e => e.Messages)).sum →
            d.Messages = ((onDate d.Date (loadedEntries ps)).map (fun e => e.Messages)).sum)
        ∧ (InInt64 ((onDate d.Date (loadedEntries ps)).map (fun e => e.Sessions)).sum →
            d.Sessions = ((onDate d.Date (loadedEntries ps)).map (fun e => e.Sessions)).sum)
        ∧ (InInt64 ((onDate d.Date (loadedEntries ps)).map (fun e => e.Generations)).sum →
            d.Generations
              = ((onDate d.Date (loadedEntries ps)).map (fun e => e.Generations)).sum)) := by
  refine ⟨LoadAll_DailyUsage_strict ps, ?_, ?_, ?_⟩
  · intro date hdate
    refine ⟨dateTotal date (loadedEntries ps), ⟨?_, rfl⟩, ?_⟩
    · exact (mem_LoadAll_DailyUsage ps _).2 ⟨hdate, rfl⟩
    · rintro d ⟨hd, rfl⟩
      exact ((mem_LoadAll_DailyUsage ps d).1 hd).2
  · intro d hd
    exact ((mem_LoadAll_DailyUsage ps d).1 hd).1
  · intro d hd
    have h := ((mem_LoadAll_DailyUsage ps d).1 hd).2
    have hC : d.Cost = (dateTotal d.Date (loadedEntries ps)).Cost := by rw [← h]
    have hT : d.Tokens = (dateTotal d.Date (loadedEntries ps)).Tokens := by rw [← h]
    have hM : d.Messages = (dateTotal d.Date (loadedEntries ps)).Messages := by rw [← h]
    have hS : d.Sessions = (dateTotal d.Date (loadedEntries ps)).Sessions := by rw [← h]
    have hG : d.Generations = (dateTotal d.Date (loadedEntries ps)).Generations := by
      rw [← h]
    refine ⟨hC, hT, hM, hS, hG, ?_, ?_, ?_, ?_⟩
    · intro hr; rw [hT]; exact wrapInt64_of_inRange hr
    · intro hr; rw [hM]; exact wrapInt64_of_inRange hr
    · intro hr; rw [hS]; exact wrapInt64_of_inRange hr
    · intro hr; rw [hG]; exact wrapInt64_of_inRange hr

/-- Witness of C15: the date `2025-11-01`, which two of the `sampleProviders`
report. -/
theorem LoadAll_DailyUsage_merge_witness :
    (∃ e ∈ loadedEntries sampleProviders, e.Date = "2025-11-01")
    ∧ (∃! d, d ∈ (LoadAll sampleProviders).DailyUsage ∧ d.Date = "2025-11-01")
    ∧ (LoadAll sampleProviders).DailyUsage.map (fun d => (d.Date, d.Tokens))
        = [("2025-11-01", 12), ("2025-11-02", 10)] :=
  have h : ∃ e ∈ loadedEntries sampleProviders, e.Date = "2025-11-01" :=
    ⟨⟨"2025-11-01", 1, 5, 1, 1, 0⟩, by decide, rfl⟩
  ⟨h, (LoadAll_DailyUsage_merge sampleProviders).2.1 "2025-11-01" h, by decide⟩

/-! ## Order of the providers -/

theorem firstSeenStep_mk (z x : Int) :
    firstSeenStep ⟨z⟩ ⟨x⟩ = ⟨if z = 0 ∨ (x ≠ 0 ∧ x < z) then x else z⟩ := by
  simp only [firstSeenStep, Time.IsZero, Time.Before, Bool.or_eq_true, beq_iff_eq,
    Bool.and_eq_true, Bool.not_eq_true', beq_eq_false_iff_ne, decide_eq_true_eq]
  split_ifs <;> rfl

theorem lastSeenStep_mk (z x : Int) :
    lastSeenStep ⟨z⟩ ⟨x⟩ = ⟨if z < x then x else z⟩ := by
  simp only [lastSeenStep, Time.After, decide_eq_true_eq]
  split_ifs <;> rfl

theorem firstSeenStep_comm (z x y : Time) :
    firstSeenStep (firstSeenStep z x) y = firstSeenStep (firstSeenStep z y) x := by
  obtain ⟨z⟩ := z
  obtain ⟨x⟩ := x
  obtain ⟨y⟩ := y
  simp only [firstSeenStep_mk, Time.mk.injEq]
  split_ifs <;> omega

theorem lastSeenStep_comm (z x y : Time) :
    lastSeenStep (lastSeenStep z x) y = lastSeenStep (lastSeenStep z y) x := by
  obtain ⟨z⟩ := z
  obtain ⟨x⟩ := x
  obtain ⟨y⟩ := y
  simp only [lastSeenStep_mk, Time.mk.injEq]
  split_ifs <;> omega

theorem loaded_perm {ps qs : List Provider} (h : ps.Perm qs) : (loaded ps).Perm (loaded qs) :=
  h.filterMap _

theorem onDate_perm (date : String) {l₁ l₂ : List DailyUsage} (h : l₁.Perm l₂) :
    (onDate date l₁).Perm (onDate date l₂) :=
  h.filter _

theorem dateTotal_perm (date : String) {l₁ l₂ : List DailyUsage} (h : l₁.Perm l₂) :
    dateTotal date l₁ = dateTotal date l₂ := by
  have hp := onDate_perm date h
  unfold dateTotal
  rw [(hp.map (fun e => e.Cost)).sum_eq, (hp.map (fun e => e.Tokens)).sum_eq,
    (hp.map (fun e => e.Messages)).sum_eq, (hp.map (fun e => e.Sessions)).sum_eq,
    (hp.map (fun e => e.Generations)).sum_eq]

theorem mergedUsage_perm {l₁ l₂ : List DailyUsage} (h : l₁.Perm l₂) :
    sortDailyUsage ((l₁.foldl mergeDaily []).map Prod.snd)
      = sortDailyUsage ((l₂.foldl mergeDaily []).map Prod.snd) := by
  apply sortDailyUsage_unique _ (nodup_dates_values l₁)
  have hnd : ∀ l : List DailyUsage, ((l.foldl mergeDaily []).map Prod.snd).Nodup :=
    fun l => List.Nodup.of_map _ (nodup_dates_values l)
  rw [List.perm_ext_iff_of_nodup (hnd l₁) (hnd l₂)]
  intro v
  rw [mem_values_iff, mem_values_iff, onDate_ne_nil_iff, onDate_ne_nil_iff,
    dateTotal_perm v.Date h]
  constructor
  · rintro ⟨⟨e, he, hd⟩, hv⟩
    exact ⟨⟨e, h.mem_iff.1 he, hd⟩, hv⟩
  · rintro ⟨⟨e, he, hd⟩, hv⟩
    exact ⟨⟨e, h.mem_iff.2 he, hd⟩, hv⟩

/-- C16: `LoadAll` on a permutation of the provider list returns the same total
cost, total tokens, total sessions, first-seen and last-seen times and the same
daily usage list (costs in exact arithmetic). -/
theorem LoadAll_perm (ps qs : List Provider) (h : ps.Perm qs) :
    (LoadAll ps).TotalCost = (LoadAll qs).TotalCost
    ∧ (LoadAll ps).TotalTokens = (LoadAll qs).TotalTokens
    ∧ (LoadAll ps).TotalSessions = (LoadAll qs).TotalSessions
    ∧ (LoadAll ps).FirstSeen = (LoadAll qs).FirstSeen
    ∧ (LoadAll ps).LastSeen = (LoadAll qs).LastSeen
    ∧ (LoadAll ps).DailyUsage = (LoadAll qs).DailyUsage := by
  have hl := loaded_perm h
  have hS : (loadedSessions ps).Perm (loadedSessions qs) := hl.flatMap_right _
  have hE : (loadedEntries ps).Perm (loadedEntries qs) := hl.flatMap_right _
  obtain ⟨-, p2, p3, p4, p5, p6, p7⟩ := LoadAllWith_fields id ps
  obtain ⟨-, q2, q3, q4, q5, q6, q7⟩ := LoadAllWith_fields id qs
  unfold LoadAll
  refine ⟨?_, ?_, ?_, ?_, ?_, ?_⟩
  · rw [p2, q2, (hl.map _).sum_eq]
  · rw [p4, q4, (hS.map _).sum_eq]
  · rw [p5, q5, hS.length_eq]
  · rw [p6, q6]
    exact (hl.map _).foldl_eq' (fun x _ y _ z => firstSeenStep_comm z x y) _
  · rw [p7, q7]
    exact (hl.map _).foldl_eq' (fun x _ y _ z => lastSeenStep_comm z x y) _
  · rw [p3, q3]
    exact mergedUsage_perm hE

/-- Witness of C16: the `sampleProviders` and their reversal. -/
theorem LoadAll_perm_witness :
    (LoadAll sampleProviders.reverse).TotalCost = (LoadAll sampleProviders).TotalCost
    ∧ (LoadAll sampleProviders.reverse).FirstSeen = (LoadAll sampleProviders).FirstSeen
    ∧ (LoadAll sampleProviders.reverse).DailyUsage = (LoadAll sampleProviders).DailyUsage :=
  have h := LoadAll_perm sampleProviders.reverse sampleProviders
    (List.reverse_perm sampleProviders)
  ⟨h.1, h.2.2.2.1, h.2.2.2.2.2⟩

/-! ## First and last activity -/

theorem Time.ne_zero_iff (t : Time) : t ≠ Time.zero ↔ t.nanos ≠ 0 := by
  obtain ⟨n⟩ := t
  simp [Time.zero]

theorem firstSeenStep_of_zero (x : Time) : firstSeenStep Time.zero x = x := by
  obtain ⟨x⟩ := x
  simp [Time.zero, firstSeenStep_mk]

theorem firstSeenStep_of_ne_zero {cur : Time} (h : cur ≠ Time.zero) (x : Time) :
    firstSeenStep cur x ≠ Time.zero
    ∧ (firstSeenStep cur x = cur ∨ firstSeenStep cur x = x)
    ∧ (firstSeenStep cur x).nanos ≤ cur.nanos
    ∧ (x ≠ Time.zero → (firstSeenStep cur x).nanos ≤ x.nanos) := by
  obtain ⟨c⟩ := cur
  obtain ⟨x⟩ := x
  rw [Time.ne_zero_iff] at h
  simp only at h
  simp only [firstSeenStep_mk, Time.ne_zero_iff, Time.mk.injEq]
  split_ifs <;> refine ⟨?_, ?_, ?_, ?_⟩ <;> omega

theorem foldl_firstSeenStep_of_ne_zero (ts : List Time) :
    ∀ cur : Time, cur ≠ Time.zero →
      ts.foldl firstSeenStep cur ≠ Time.zero
      ∧ (ts.foldl firstSeenStep cur = cur ∨ ts.foldl firstSeenStep cur ∈ ts)
      ∧ (ts.foldl firstSeenStep cur).nanos ≤ cur.nanos
      ∧ ∀ t ∈ ts, t ≠ Time.zero → (ts.foldl firstSeenStep cur).nanos ≤ t.nanos := by
  induction ts with
  | nil =>
    intro cur h
    exact ⟨h, Or.inl rfl, le_refl _, fun t ht => absurd ht (List.not_mem_nil t)⟩
  | cons x rest ih =>
    intro cur h
    obtain ⟨s1, s2, s3, s4⟩ := firstSeenStep_of_ne_zero h x
    obtain ⟨r1, r2, r3, r4⟩ := ih (firstSeenStep cur x) s1
    rw [List.foldl_cons]
    refine ⟨r1, ?_, le_trans r3 s3, ?_⟩
    · rcases r2 with r2 | r2
      · rcases s2 with s2 | s2
        · left; rw [r2, s2]
        · right; rw [r2, s2]; exact List.mem_cons_self _ _
      · right; exact List.mem_cons_of_mem _ r2
    · intro t ht hne
      rcases List.mem_cons.1 ht with rfl | ht
      · exact le_trans r3 (s4 hne)
      · exact r4 t ht hne

theorem foldl_firstSeenStep_zero (ts : List Time) :
    ((∀ t ∈ ts, t = Time.zero) → ts.foldl firstSeenStep Time.zero = Time.zero)
    ∧ ((∃ t ∈ ts, t ≠ Time.zero) →
        ts.foldl firstSeenStep Time.zero ≠ Time.zero
        ∧ ts.foldl firstSeenStep Time.zero ∈ ts
        ∧ ∀ t ∈ ts, t ≠ Time.zero → (ts.foldl firstSeenStep Time.zero).nanos ≤ t.nanos) := by
  induction ts with
  | nil =>
    refine ⟨fun _ => rfl, ?_⟩
    rintro ⟨t, ht, -⟩
    exact absurd ht (List.not_mem_nil t)
  | cons x rest ih =>
    rw [List.foldl_cons, firstSeenStep_of_zero]
    by_cases hx : x = Time.zero
    · subst hx
      refine ⟨fun h => ih.1 (fun t ht => h t (List.mem_cons_of_mem _ ht)), ?_⟩
      rintro ⟨t, ht, hne⟩
      have ht' : t ∈ rest := by
        rcases List.mem_cons.1 ht with rfl | ht
        · exact absurd rfl hne
        · exact ht
      obtain ⟨r1, r2, r3⟩ := ih.2 ⟨t, ht', hne⟩
      refine ⟨r1, List.mem_cons_of_mem _ r2, ?_⟩
      intro u hu hune
      rcases List.mem_cons.1 hu with rfl | hu
      · exact absurd rfl hune
      · exact r3 u hu hune
    · obtain ⟨r1, r2, r3, r4⟩ := foldl_firstSeenStep_of_ne_zero rest x hx
      refine ⟨fun h => absurd (h x (List.mem_cons_self _ _)) hx, ?_⟩
      intro _
      refine ⟨r1, ?_, ?_⟩
      · rcases r2 with r2 | r2
        · rw [r2]; exact List.mem_cons_self _ _
        · exact List.mem_cons_of_mem _ r2
      · intro u hu hune
        rcases List.mem_cons.1 hu with rfl | hu
        · exact r3
        · exact r4 u hu hune

theorem foldl_lastSeenStep (ts : List Time) :
    ∀ cur : Time,
      (ts.foldl lastSeenStep cur = cur ∨ ts.foldl lastSeenStep cur ∈ ts)
      ∧ cur.nanos ≤ (ts.foldl lastSeenStep cur).nanos
      ∧ ∀ t ∈ ts, t.nanos ≤ (ts.foldl lastSeenStep cur).nanos := by
  induction ts with
  | nil =>
    intro cur
    exact ⟨Or.inl rfl, le_refl _, fun t ht => absurd ht (List.not_mem_nil t)⟩
  | cons x rest ih =>
    intro cur
    obtain ⟨r1, r2, r3⟩ := ih (lastSeenStep cur x)
    have hs : (lastSeenStep cur x = cur ∨ lastSeenStep cur x = x)
        ∧ cur.nanos ≤ (lastSeenStep cur x).nanos ∧ x.nanos ≤ (lastSeenStep cur x).nanos := by
      obtain ⟨c⟩ := cur
      obtain ⟨x⟩ := x
      simp only [lastSeenStep_mk, Time.mk.injEq]
      split_ifs <;> refine ⟨?_, ?_, ?_⟩ <;> omega
    obtain ⟨s1, s2, s3⟩ := hs
    rw [List.foldl_cons]
    refine ⟨?_, le_trans s2 r2, ?_⟩
    · rcases r1 with r1 | r1
      · rcases s1 with s1 | s1
        · left; rw [r1, s1]
        · right; rw [r1, s1]; exact List.mem_cons_self _ _
      · right; exact List.mem_cons_of_mem _ r1
    · intro t ht
      rcases List.mem_cons.1 ht with rfl | ht
      · exact le_trans s3 r2
      · exact r3 t ht

/-- C17 fails as stated: a single loaded provider whose last activity is dated
before the zero time leaves `LastSeen` at the zero time, which is not the latest
(and only) `LastSeen` among the loaded providers. -/
theorem LoadAll_LastSeen_not_latest :
    loaded [ancientProvider] = [ancientData]
    ∧ ancientData.LastSeen ≠ Time.zero
    ∧ (LoadAll [ancientProvider]).LastSeen = Time.zero
    ∧ (LoadAll [ancientProvider]).LastSeen ≠ ancientData.LastSeen := by
  decide

/-- C17, amended: `FirstSeen` is the earliest non-zero `FirstSeen` among the
loaded providers, and the zero time when none is non-zero; `LastSeen` is the
latest `LastSeen` among them when one of them is after the zero time, and the
zero time when none is. -/
theorem LoadAll_seen (ps : List Provider) :
    ((∀ d ∈ loaded ps, d.FirstSeen = Time.zero) → (LoadAll ps).FirstSeen = Time.zero)
    ∧ ((∃ d ∈ loaded ps, d.FirstSeen ≠ Time.zero) →
        (LoadAll ps).FirstSeen ≠ Time.zero
        ∧ (∃ d ∈ loaded ps, d.FirstSeen = (LoadAll ps).FirstSeen)
        ∧ ∀ d ∈ loaded ps, d.FirstSeen ≠ Time.zero →
            (LoadAll ps).FirstSeen.nanos ≤ d.FirstSeen.nanos)
    ∧ ((∃ d ∈ loaded ps, Time.zero.nanos < d.LastSeen.nanos) →
        (∃ d ∈ loaded ps, d.LastSeen = (LoadAll ps).LastSeen)
        ∧ ∀ d ∈ loaded ps, d.LastSeen.nanos ≤ (LoadAll ps).LastSeen.nanos)
    ∧ ((∀ d ∈ loaded ps, d.LastSeen.nanos ≤ Time.zero.nanos) →
        (LoadAll ps).LastSeen = Time.zero) := by
  obtain ⟨-, -, -, -, -, h6, h7⟩ := LoadAllWith_fields id ps
  have f6 : (LoadAll ps).FirstSeen
      = ((loaded ps).map (fun d => d.FirstSeen)).foldl firstSeenStep Time.zero := h6
  have f7 : (LoadAll ps).LastSeen
      = ((loaded ps).map (fun d => d.LastSeen)).foldl lastSeenStep Time.zero := h7
  obtain ⟨a1, a2⟩ := foldl_firstSeenStep_zero ((loaded ps).map (fun d => d.FirstSeen))
  obtain ⟨b1, b2, b3⟩ := foldl_lastSeenStep ((loaded ps).map (fun d => d.LastSeen)) Time.zero
  rw [← f6] at a1 a2
  rw [← f7] at b1 b2 b3
  refine ⟨?_, ?_, ?_, ?_⟩
  · intro h
    apply a1
    intro t ht
    obtain ⟨d, hd, rfl⟩ := List.mem_map.1 ht
    exact h d hd
  · rintro ⟨d, hd, hne⟩
    obtain ⟨r1, r2, r3⟩ := a2 ⟨d.FirstSeen, List.mem_map_of_mem _ hd, hne⟩
    refine ⟨r1, ?_, ?_⟩
    · obtain ⟨e, he, heq⟩ := List.mem_map.1 r2
      exact ⟨e, he, heq⟩
    · intro e he hne'
      exact r3 e.FirstSeen (List.mem_map_of_mem _ he) hne'
  · rintro ⟨d, hd, hpos⟩
    have hle := b3 d.LastSeen (List.mem_map_of_mem _ hd)
    refine ⟨?_, fun e he => b3 e.LastSeen (List.mem_map_of_mem _ he)⟩
    rcases b1 with b1 | b1
    · rw [b1] at hle
      exact absurd hpos (not_lt_of_ge hle)
    · obtain ⟨e, he, heq⟩ := List.mem_map.1 b1
      exact ⟨e, he, heq⟩
  · intro h
    rcases b1 with b1 | b1
    · exact b1
    · obtain ⟨e, he, heq⟩ := List.mem_map.1 b1
      have h1 := h e he
      rw [heq] at h1
      have h2 : (LoadAll ps).LastSeen.nanos = Time.zero.nanos := le_antisymm h1 b2
      cases hL : (LoadAll ps).LastSeen with
      | mk n =>
        rw [hL] at h2
        simp only [Time.zero] at h2 ⊢
        rw [h2]

/-- Witness of C17: among the `sampleProviders` the first activity is at 50 and
the last at 200. -/
theorem LoadAll_seen_witness :
    (∃ d ∈ loaded sampleProviders, d.FirstSeen ≠ Time.zero)
    ∧ (∃ d ∈ loaded sampleProviders, Time.zero.nanos < d.LastSeen.nanos)
    ∧ (∃ d ∈ loaded sampleProviders, d.FirstSeen = (LoadAll sampleProviders).FirstSeen)
    ∧ (∀ d ∈ loaded sampleProviders,
        d.LastSeen.nanos ≤ (LoadAll sampleProviders).LastSeen.nanos)
    ∧ (LoadAll sampleProviders).FirstSeen = ⟨50⟩
    ∧ (LoadAll sampleProviders).LastSeen = ⟨200⟩ :=
  have h1 : ∃ d ∈ loaded sampleProviders, d.FirstSeen ≠ Time.zero :=
    ⟨sampleDataA, by decide, by decide⟩
  have h2 : ∃ d ∈ loaded sampleProviders, Time.zero.nanos < d.LastSeen.nanos :=
    ⟨sampleDataA, by decide, by decide⟩
  ⟨h1, h2, ((LoadAll_seen sampleProviders).2.1 h1).2.1,
    ((LoadAll_seen sampleProviders).2.2.1 h2).2, by decide, by decide⟩

/-! ## Skipped providers -/

theorem loaded_cons (p : Provider) (ps : List Provider) :
    loaded (p :: ps)
      = (if p.Available then
          match p.Load with
          | Except.ok data => some data
          | Except.error _ => none
        else none).toList ++ loaded ps := by
  unfold loaded
  rw [List.filterMap_cons]
  split <;> simp_all

theorem loaded_filter_loads (ps : List Provider) : loaded (ps.filter loads) = loaded ps := by
  induction ps with
  | nil => rfl
  | cons p rest ih =>
    rw [List.filter_cons]
    cases hA : p.Available with
    | false => simp [loads, hA, loaded_cons, ih]
    | true =>
      cases hL : p.Load with
      | error e => simp [loads, hA, hL, loaded_cons, ih]
      | ok data => simp [loads, hA, hL, loaded_cons, ih]

theorem loaded_eq_filterMap (ps : List Provider) :
    loaded ps = (ps.filter loads).filterMap (fun p => p.Load.toOption) := by
  induction ps with
  | nil => rfl
  | cons p rest ih =>
    rw [List.filter_cons]
    cases hA : p.Available with
    | false => simp [loads, hA, loaded_cons, ih]
    | true =>
      cases hL : p.Load with
      | error e => simp [loads, hA, hL, loaded_cons, ih]
      | ok data => simp [loads, hA, hL, loaded_cons, ih, Except.toOption]

theorem loaded_of_agree {ps qs : List Provider}
    (h : List.Forall₂
      (fun p q => p.Available = q.Available ∧ (p.Available = true → p.Load = q.Load)) ps qs) :
    loaded ps = loaded qs := by
  induction h with
  | nil => rfl
  | @cons p q ps' qs' hpq _ ih =>
    rw [loaded_cons, loaded_cons, ih, ← hpq.1]
    cases hA : p.Available with
    | false => simp
    | true => rw [← hpq.2 hA]

/-- C18: `LoadAll` is total, and its result is the result of `LoadAll` on the
list without the providers that are unavailable or whose `Load` fails; the
`Providers` field holds the data of the remaining providers in input order; and
the result does not depend on what `Load` would return for an unavailable
provider. -/
theorem LoadAll_skips (ps : List Provider) :
    LoadAll ps = LoadAll (ps.filter loads)
    ∧ (LoadAll ps).Providers = (ps.filter loads).filterMap (fun p => p.Load.toOption)
    ∧ (∀ p ∈ ps.filter loads, p.Available = true ∧ ∃ data, p.Load = Except.ok data)
    ∧ (∀ qs : List Provider,
        List.Forall₂
          (fun p q => p.Available = q.Available ∧ (p.Available = true → p.Load = q.Load))
          ps qs →
        LoadAll ps = LoadAll qs) := by
  refine ⟨?_, ?_, ?_, ?_⟩
  · exact LoadAllWith_congr id (loaded_filter_loads ps).symm
  · rw [← loaded_eq_filterMap]
    exact (LoadAllWith_fields id ps).1
  · intro p hp
    have hl : loads p = true := (List.mem_filter.1 hp).2
    unfold loads at hl
    rw [Bool.and_eq_true] at hl
    refine ⟨hl.1, ?_⟩
    cases hL : p.Load with
    | error e => rw [hL] at hl; exact absurd hl.2 (by simp)
    | ok data => exact ⟨data, rfl⟩
  · intro qs h
    exact LoadAllWith_congr id (loaded_of_agree h)

/-- Witness of C18: the `sampleProviders`, and the same list with another `Load`
behind the unavailable provider. -/
theorem LoadAll_skips_witness :
    LoadAll sampleProviders = LoadAll [sampleProviderA, sampleProviderB]
    ∧ (LoadAll sampleProviders).Providers = [sampleDataA, sampleDataB]
    ∧ LoadAll sampleProviders = LoadAll sampleProvidersAlt :=
  ⟨(LoadAll_skips sampleProviders).1, (LoadAll_skips sampleProviders).2.1,
    (LoadAll_skips sampleProviders).2.2.2 sampleProvidersAlt
      (List.Forall₂.cons ⟨rfl, fun _ => rfl⟩
        (List.Forall₂.cons ⟨rfl, fun h => absurd h (by decide)⟩
          (List.Forall₂.cons ⟨rfl, fun _ => rfl⟩
            (List.Forall₂.cons ⟨rfl, fun _ => rfl⟩ List.Forall₂.nil))))⟩

/-! ## Folding in one more provider -/

theorem wrapInt64_inRange (n : Int) : InInt64 (wrapInt64 n) := by
  unfold InInt64 wrapInt64
  omega

theorem le_wrapInt64_add {old added : Int} (hold : InInt64 old) (hadd : 0 ≤ added)
    (hno : old + added < 2 ^ 63) : old ≤ wrapInt64 (old + added) := by
  have hr : InInt64 (old + added) := by
    unfold InInt64 at hold ⊢
    omega
  rw [wrapInt64_of_inRange hr]
  omega

theorem wrapInt64_add_wrap_left (a b : Int) :
    wrapInt64 (a + b) = wrapInt64 (wrapInt64 a + b) :=
  (wrapInt64_add_wrap a b).symm

theorem loaded_append_ok (ps : List Provider) {p : Provider} {data : ProviderData}
    (hA : p.Available = true) (hL : p.Load = Except.ok data) :
    loaded (ps ++ [p]) = loaded ps ++ [data] := by
  unfold loaded
  rw [List.filterMap_append]
  simp [hA, hL]

theorem sum_nonneg_of_forall {α : Type} (f : α → Int) (l : List α) (h : ∀ x ∈ l, 0 ≤ f x) :
    0 ≤ (l.map f).sum := by
  induction l with
  | nil => simp
  | cons x xs ih =>
    rw [List.map_cons, List.sum_cons]
    have h1 := h x (List.mem_cons_self _ _)
    have h2 := ih (fun y hy => h y (List.mem_cons_of_mem _ hy))
    omega

theorem sum_nonneg_of_forall_rat {α : Type} (f : α → ℚ) (l : List α)
    (h : ∀ x ∈ l, 0 ≤ f x) : 0 ≤ (l.map f).sum := by
  induction l with
  | nil => simp
  | cons x xs ih =>
    rw [List.map_cons, List.sum_cons]
    exact add_nonneg (h x (List.mem_cons_self _ _))
      (ih (fun y hy => h y (List.mem_cons_of_mem _ hy)))

theorem onDate_append (date : String) (l₁ l₂ : List DailyUsage) :
    onDate date (l₁ ++ l₂) = onDate date l₁ ++ onDate date l₂ := by
  unfold onDate
  exact List.filter_append _ _

theorem mem_onDate {date : String} {l : List DailyUsage} {e : DailyUsage}
    (h : e ∈ onDate date l) : e ∈ l :=
  (List.mem_filter.1 h).1

theorem usageOn_LoadAll (ps : List Provider) (date : String) :
    usageOn date (LoadAll ps).DailyUsage
      = if onDate date (loadedEntries ps) = [] then zeroUsage
        else dateTotal date (loadedEntries ps) := by
  unfold usageOn
  by_cases h : onDate date (loadedEntries ps) = []
  · rw [if_pos h]
    have hnone : (LoadAll ps).DailyUsage.find? (fun d => decide (d.Date = date)) = none := by
      rw [List.find?_eq_none]
      intro d hd hdate
      rw [decide_eq_true_eq] at hdate
      obtain ⟨hex, -⟩ := (mem_LoadAll_DailyUsage ps d).1 hd
      rw [hdate] at hex
      exact (onDate_ne_nil_iff date _).2 hex h
    rw [hnone]
    rfl
  · rw [if_neg h]
    have hmem : dateTotal date (loadedEntries ps) ∈ (LoadAll ps).DailyUsage :=
      (mem_LoadAll_DailyUsage ps _).2 ⟨(onDate_ne_nil_iff date _).1 h, rfl⟩
    cases hf : (LoadAll ps).DailyUsage.find? (fun d => decide (d.Date = date)) with
    | none =>
      rw [List.find?_eq_none] at hf
      exact absurd (decide_eq_true (rfl : (dateTotal date (loadedEntries ps)).Date = date))
        (hf _ hmem)
    | some x =>
      have hx : x ∈ (LoadAll ps).DailyUsage := List.mem_of_find?_eq_some hf
      have hxd : x.Date = date := by
        have := List.find?_some hf
        rwa [decide_eq_true_eq] at this
      have hx2 := ((mem_LoadAll_DailyUsage ps x).1 hx).2
      rw [hxd] at hx2
      rw [Option.getD_some, hx2]

theorem usageOn_LoadAll_fields (ps : List Provider) (date : String) :
    (usageOn date (LoadAll ps).DailyUsage).Cost
        = ((onDate date (loadedEntries ps)).map (fun e => e.Cost)).sum
    ∧ (usageOn date (LoadAll ps).DailyUsage).Tokens
        = wrapInt64 ((onDate date (loadedEntries ps)).map (fun e => e.Tokens)).sum
    ∧ (usageOn date (LoadAll ps).DailyUsage).Messages
        = wrapInt64 ((onDate date (loadedEntries ps)).map (fun e => e.Messages)).sum
    ∧ (usageOn date (LoadAll ps).DailyUsage).Sessions
        = wrapInt64 ((onDate date (loadedEntries ps)).map (fun e => e.Sessions)).sum
    ∧ (usageOn date (LoadAll ps).DailyUsage).Generations
        = wrapInt64 ((onDate date (loadedEntries ps)).map (fun e => e.Generations)).sum := by
  rw [usageOn_LoadAll]
  by_cases h : onDate date (loadedEntries ps) = []
  · rw [if_pos h, h]
    simp [zeroUsage, wrapInt64_zero]
  · rw [if_neg h]
    exact ⟨rfl, rfl, rfl, rfl, rfl⟩

theorem loadedSessions_append_ok (ps : List Provider) {p : Provider} {data : ProviderData}
    (hA : p.Available = true) (hL : p.Load = Except.ok data) :
    loadedSessions (ps ++ [p]) = loadedSessions ps ++ data.Sessions := by
  unfold loadedSessions
  rw [loaded_append_ok ps hA hL]
  simp

theorem loadedEntries_append_ok (ps : List Provider) {p : Provider} {data : ProviderData}
    (hA : p.Available = true) (hL : p.Load = Except.ok data) :
    loadedEntries (ps ++ [p]) = loadedEntries ps ++ data.DailyUsage := by
  unfold loadedEntries
  rw [loaded_append_ok ps hA hL]
  simp

theorem LoadAll_totals_append (ps : List Provider) {p : Provider} {data : ProviderData}
    (hA : p.Available = true) (hL : p.Load = Except.ok data) :
    (LoadAll (ps ++ [p])).TotalCost = (LoadAll ps).TotalCost + data.TotalCost
    ∧ (LoadAll (ps ++ [p])).TotalTokens
        = wrapInt64 ((LoadAll ps).TotalTokens + (data.Sessions.map (fun s => s.Tokens)).sum)
    ∧ (LoadAll (ps ++ [p])).TotalSessions
        = wrapInt64 ((LoadAll ps).TotalSessions + (data.Sessions.length : Int)) := by
  obtain ⟨-, p2, -, p4, p5, -, -⟩ := LoadAllWith_fields id ps
  obtain ⟨-, q2, -, q4, q5, -, -⟩ := LoadAllWith_fields id (ps ++ [p])
  unfold LoadAll
  rw [p2, p4, p5, q2, q4, q5, loaded_append_ok ps hA hL, loadedSessions_append_ok ps hA hL]
  refine ⟨by simp, ?_, ?_⟩
  · rw [List.map_append, List.sum_append]
    exact wrapInt64_add_wrap_left _ _
  · rw [List.length_append, Nat.cast_add]
    exact wrapInt64_add_wrap_left _ _

theorem usageOn_append (ps : List Provider) {p : Provider} {data : ProviderData}
    (hA : p.Available = true) (hL : p.Load = Except.ok data) (date : String) :
    (usageOn date (LoadAll (ps ++ [p])).DailyUsage).Cost
        = (usageOn date (LoadAll ps).DailyUsage).Cost
          + ((onDate date data.DailyUsage).map (fun e => e.Cost)).sum
    ∧ (usageOn date (LoadAll (ps ++ [p])).DailyUsage).Tokens
        = wrapInt64 ((usageOn date (LoadAll ps).DailyUsage).Tokens
          + ((onDate date data.DailyUsage).map (fun e => e.Tokens)).sum)
    ∧ (usageOn date (LoadAll (ps ++ [p])).DailyUsage).Messages
        = wrapInt64 ((usageOn date (LoadAll ps).DailyUsage).Messages
          + ((onDate date data.DailyUsage).map (fun e => e.Messages)).sum)
    ∧ (usageOn date (LoadAll (ps ++ [p])).DailyUsage).Sessions
        = wrapInt64 ((usageOn date (LoadAll ps).DailyUsage).Sessions
          + ((onDate date data.DailyUsage).map (fun e => e.Sessions)).sum)
    ∧ (usageOn date (LoadAll (ps ++ [p])).DailyUsage).Generations
        = wrapInt64 ((usageOn date (LoadAll ps).DailyUsage).Generations
          + ((onDate date data.DailyUsage).map (fun e => e.Generations)).sum) := by
  obtain ⟨a1, a2, a3, a4, a5⟩ := usageOn_LoadAll_fields ps date
  obtain ⟨b1, b2, b3, b4, b5⟩ := usageOn_LoadAll_fields (ps ++ [p]) date
  rw [a1, a2, a3, a4, a5, b1, b2, b3, b4, b5, loadedEntries_append_ok ps hA hL, onDate_append]
  rw [List.map_append, List.map_append, List.map_append, List.map_append, List.map_append,
    List.sum_append, List.sum_append, List.sum_append, List.sum_append, List.sum_append]
  exact ⟨rfl, wrapInt64_add_wrap_left _ _, wrapInt64_add_wrap_left _ _,
    wrapInt64_add_wrap_left _ _, wrapInt64_add_wrap_left _ _⟩

theorem usageOn_inRange (ps : List Provider) (date : String) :
    InInt64 (usageOn date (LoadAll ps).DailyUsage).Tokens
    ∧ InInt64 (usageOn date (LoadAll ps).DailyUsage).Messages
    ∧ InInt64 (usageOn date (LoadAll ps).DailyUsage).Sessions
    ∧ InInt64 (usageOn date (LoadAll ps).DailyUsage).Generations := by
  obtain ⟨-, a2, a3, a4, a5⟩ := usageOn_LoadAll_fields ps date
  rw [a2, a3, a4, a5]
  exact ⟨wrapInt64_inRange _, wrapInt64_inRange _, wrapInt64_inRange _, wrapInt64_inRange _⟩

/-- C19 fails as stated: after a provider holding one session of `2^63 - 1`
tokens, a further provider that loads one session of one token (all its costs
and counts non-negative) makes `TotalTokens` wrap around to `-2^63`. -/
theorem LoadAll_TotalTokens_can_drop :
    tinyProvider.Available = true
    ∧ tinyProvider.Load = Except.ok tinyData
    ∧ 0 ≤ tinyData.TotalCost
    ∧ (∀ s ∈ tinyData.Sessions, 0 ≤ s.Tokens)
    ∧ tinyData.DailyUsage = []
    ∧ (LoadAll [hugeProvider]).TotalTokens = 9223372036854775807
    ∧ (LoadAll ([hugeProvider] ++ [tinyProvider])).TotalTokens = -9223372036854775808
    ∧ (LoadAll ([hugeProvider] ++ [tinyProvider])).TotalTokens
        < (LoadAll [hugeProvider]).TotalTokens := by
  refine ⟨rfl, rfl, ?_, ?_, rfl, ?_, ?_, ?_⟩
  · simp [tinyData]
  · decide
  · decide
  · decide
  · decide

/-- C19, amended: a further provider that loads successfully with non-negative
cost and counts never lowers `TotalCost` nor the cost of any date (a date
absent from a result counting as zero); it does not lower `TotalTokens`,
`TotalSessions` or a date's tokens, messages, sessions or generations as long as
the previous value plus the added amount stays below `2^63`, the range of Go's
`int`. -/
theorem LoadAll_monotone (ps : List Provider) (p : Provider) (data : ProviderData)
    (hA : p.Available = true) (hL : p.Load = Except.ok data)
    (hcost : 0 ≤ data.TotalCost)
    (hdaily : ∀ d ∈ data.DailyUsage,
      0 ≤ d.Cost ∧ 0 ≤ d.Tokens ∧ 0 ≤ d.Messages ∧ 0 ≤ d.Sessions ∧ 0 ≤ d.Generations)
    (hsess : ∀ s ∈ data.Sessions, 0 ≤ s.Tokens) :
    (LoadAll ps).TotalCost ≤ (LoadAll (ps ++ [p])).TotalCost
    ∧ ((LoadAll ps).TotalTokens + (data.Sessions.map (fun s => s.Tokens)).sum < 2 ^ 63 →
        (LoadAll ps).TotalTokens ≤ (LoadAll (ps ++ [p])).TotalTokens)
    ∧ ((LoadAll ps).TotalSessions + (data.Sessions.length : Int) < 2 ^ 63 →
        (LoadAll ps).TotalSessions ≤ (LoadAll (ps ++ [p])).TotalSessions)
    ∧ ∀ date : String,
        (usageOn date (LoadAll ps).DailyUsage).Cost
          ≤ (usageOn date (LoadAll (ps ++ [p])).DailyUsage).Cost
        ∧ ((usageOn date (LoadAll ps).DailyUsage).Tokens
              + ((onDate date data.DailyUsage).map (fun e => e.Tokens)).sum < 2 ^ 63 →
            (usageOn date (LoadAll ps).DailyUsage).Tokens
              ≤ (usageOn date (LoadAll (ps ++ [p])).DailyUsage).Tokens)
        ∧ ((usageOn date (LoadAll ps).DailyUsage).Messages
              + ((onDate date data.DailyUsage).map (fun e => e.Messages)).sum < 2 ^ 63 →
            (usageOn date (LoadAll ps).DailyUsage).Messages
              ≤ (usageOn date (LoadAll (ps ++ [p])).DailyUsage).Messages)
        ∧ ((usageOn date (LoadAll ps).DailyUsage).Sessions
              + ((onDate date data.DailyUsage).map (fun e => e.Sessions)).sum < 2 ^ 63 →
            (usageOn date (LoadAll ps).DailyUsage).Sessions
              ≤ (usageOn date (LoadAll (ps ++ [p])).DailyUsage).Sessions)
        ∧ ((usageOn date (LoadAll ps).DailyUsage).Generations
              + ((onDate date data.DailyUsage).map (fun e => e.Generations)).sum < 2 ^ 63 →
            (usageOn date (LoadAll ps).DailyUsage).Generations
              ≤ (usageOn date (LoadAll (ps ++ [p])).DailyUsage).Generations) := by
  obtain ⟨t1, t2, t3⟩ := LoadAll_totals_append ps hA hL
  obtain ⟨-, -, -, r4, r5, -, -⟩ := LoadAllWith_fields id ps
  have hTok : InInt64 (LoadAll ps).TotalTokens := by
    unfold LoadAll; rw [r4]; exact wrapInt64_inRange _
  have hSes : InInt64 (LoadAll ps).TotalSessions := by
    unfold LoadAll; rw [r5]; exact wrapInt64_inRange _
  refine ⟨?_, ?_, ?_, ?_⟩
  · rw [t1]
    exact le_add_of_nonneg_right hcost
  · intro hno
    rw [t2]
    exact le_wrapInt64_add hTok (sum_nonneg_of_forall _ _ hsess) hno
  · intro hno
    rw [t3]
    exact le_wrapInt64_add hSes (Int.ofNat_nonneg _) hno
  · intro date
    obtain ⟨u1, u2, u3, u4, u5⟩ := usageOn_append ps hA hL date
    obtain ⟨i2, i3, i4, i5⟩ := usageOn_inRange ps date
    have hd : ∀ e ∈ onDate date data.DailyUsage,
        0 ≤ e.Cost ∧ 0 ≤ e.Tokens ∧ 0 ≤ e.Messages ∧ 0 ≤ e.Sessions ∧ 0 ≤ e.Generations :=
      fun e he => hdaily e (mem_onDate he)
    refine ⟨?_, ?_, ?_, ?_, ?_⟩
    · rw [u1]
      exact le_add_of_nonneg_right (sum_nonneg_of_forall_rat _ _ (fun e he => (hd e he).1))
    · intro hno
      rw [u2]
      exact le_wrapInt64_add i2 (sum_nonneg_of_forall _ _ (fun e he => (hd e he).2.1)) hno
    · intro hno
      rw [u3]
      exact le_wrapInt64_add i3 (sum_nonneg_of_forall _ _ (fun e he => (hd e he).2.2.1)) hno
    · intro hno
      rw [u4]
      exact le_wrapInt64_add i4 (sum_nonneg_of_forall _ _ (fun e he => (hd e he).2.2.2.1)) hno
    · intro hno
      rw [u5]
      exact le_wrapInt64_add i5 (sum_nonneg_of_forall _ _ (fun e he => (hd e he).2.2.2.2)) hno

/-- Witness of C19: `sampleProviderB` folded in after `sampleProviderA`, with
the date `2025-11-01` that both report. -/
theorem LoadAll_monotone_witness :
    (LoadAll [sampleProviderA]).TotalCost
      ≤ (LoadAll ([sampleProviderA] ++ [sampleProviderB])).TotalCost
    ∧ (LoadAll [sampleProviderA]).TotalTokens
        ≤ (LoadAll ([sampleProviderA] ++ [sampleProviderB])).TotalTokens
    ∧ (usageOn "2025-11-01" (LoadAll [sampleProviderA]).DailyUsage).Tokens
        ≤ (usageOn "2025-11-01"
            (LoadAll ([sampleProviderA] ++ [sampleProviderB])).DailyUsage).Tokens :=
  have hcost : 0 ≤ sampleDataB.TotalCost := by norm_num [sampleDataB]
  have hdaily : ∀ d ∈ sampleDataB.DailyUsage,
      0 ≤ d.Cost ∧ 0 ≤ d.Tokens ∧ 0 ≤ d.Messages ∧ 0 ≤ d.Sessions ∧ 0 ≤ d.Generations := by
    intro d hd
    simp only [sampleDataB, List.mem_singleton] at hd
    subst hd
    norm_num
  have h := LoadAll_monotone [sampleProviderA] sampleProviderB sampleDataB rfl rfl hcost
    hdaily (by decide)
  ⟨h.1, h.2.1 (by decide), (h.2.2.2 "2025-11-01").2.1 (by decide)⟩

/-! ## Iteration order of the maps -/

theorem TotalCostFromModelUsage_perm {u₁ u₂ : List (String × ModelUsage)} (h : u₁.Perm u₂) :
    TotalCostFromModelUsage u₁ = TotalCostFromModelUsage u₂ := by
  rw [TotalCostFromModelUsage_eq_sum, TotalCostFromModelUsage_eq_sum]
  exact (h.map _).sum_eq

theorem tokenSum_perm {m₁ m₂ : List (String × Int)} (h : m₁.Perm m₂) :
    tokenSum m₁ = tokenSum m₂ := by
  unfold tokenSum
  exact (h.map _).sum_eq

theorem outputRateCost_perm {m₁ m₂ : List (String × Int)} (h : m₁.Perm m₂) :
    outputRateCost m₁ = outputRateCost m₂ := by
  unfold outputRateCost
  exact ((h.filter _).map _).sum_eq

theorem sameIndex_mapInsert {m₁ m₂ : List (String × List (String × Int))}
    (h : sameIndex m₁ m₂) (k : String) {v₁ v₂ : List (String × Int)} (hv : v₁.Perm v₂) :
    sameIndex (mapInsert m₁ k v₁) (mapInsert m₂ k v₂) := by
  intro d
  by_cases hk : k = d
  · subst hk
    right
    exact ⟨v₁, v₂, lookup_mapInsert_self _ _ _, lookup_mapInsert_self _ _ _, hv⟩
  · rw [lookup_mapInsert_of_ne _ _ hk, lookup_mapInsert_of_ne _ _ hk]
    exact h d

theorem sameIndex_foldl {l₁ l₂ : List DailyModelTokens} (h : List.Forall₂ sameTokens l₁ l₂) :
    ∀ m₁ m₂ : List (String × List (String × Int)), sameIndex m₁ m₂ →
      sameIndex (l₁.foldl (fun m dt => mapInsert m dt.Date dt.TokensByModel) m₁)
        (l₂.foldl (fun m dt => mapInsert m dt.Date dt.TokensByModel) m₂) := by
  induction h with
  | nil => exact fun _ _ hm => hm
  | @cons a b l₁' l₂' hab _ ih =>
    intro m₁ m₂ hm
    rw [List.foldl_cons, List.foldl_cons]
    apply ih
    rw [← hab.1]
    exact sameIndex_mapInsert hm a.Date hab.2

theorem sameIndex_tokensByDate {l₁ l₂ : List DailyModelTokens}
    (h : List.Forall₂ sameTokens l₁ l₂) : sameIndex (tokensByDate l₁) (tokensByDate l₂) := by
  unfold tokensByDate
  exact sameIndex_foldl h [] [] (fun _ => Or.inl ⟨rfl, rfl⟩)

theorem dayStats_figures_eq {m₁ m₂ : List (String × List (String × Int))}
    (h : sameIndex m₁ m₂) (da : DailyActivity) :
    (dayStats m₁ da).figures = (dayStats m₂ da).figures := by
  have hbase : ∀ m : List (String × List (String × Int)),
      (dayStats m da).figures
        = (da.Date, da.MessageCount, da.SessionCount, da.ToolCallCount,
            (dayStats m da).TotalTokens, (dayStats m da).Cost) := fun _ => rfl
  rw [hbase m₁, hbase m₂]
  rcases h da.Date with ⟨h1, h2⟩ | ⟨x₁, x₂, h1, h2, hx⟩
  · rw [(dayStats_of_lookup_none h1).1, (dayStats_of_lookup_none h1).2,
      (dayStats_of_lookup_none h2).1, (dayStats_of_lookup_none h2).2]
  · rw [(dayStats_of_lookup_some h1).1, (dayStats_of_lookup_some h1).2,
      (dayStats_of_lookup_some h2).1, (dayStats_of_lookup_some h2).2,
      tokenSum_perm hx, outputRateCost_perm hx]

/-- C20 fails as stated: for a usage table of three models that cost 0.1, 0.2
and 0.3 dollars, `TotalCostFromModelUsage` with `float64` additions returns
`5404319552844596 * 2^-53` (0.6000000000000001) when the `range` loop visits
the table in one order and `5404319552844595 * 2^-53` (0.6) when it visits it
in the reverse order; the per-day cost of `AggregateDaily` differs in the same
way between the two orders of a per-model token table. -/
theorem TotalCostFromModelUsage_depends_on_order :
    TotalCostFromModelUsageF64 threeModels = ⟨5404319552844596, -53⟩
    ∧ TotalCostFromModelUsageF64 threeModels.reverse = ⟨5404319552844595, -53⟩
    ∧ TotalCostFromModelUsageF64 threeModels
        ≠ TotalCostFromModelUsageF64 threeModels.reverse
    ∧ dayCostF64 threeDayTokens = ⟨5404319552844596, -53⟩
    ∧ dayCostF64 threeDayTokens.reverse = ⟨5404319552844595, -53⟩ := by
  decide!

/-- C20, amended: in exact arithmetic the aggregates do not depend on the order
in which a map is ranged over.  `TotalCostFromModelUsage` is the same for any
two listings of one usage table; `AggregateDaily` gives every day the same
date, counts, `TotalTokens` and `Cost` for any two listings of the per-model
tables; `LoadAll` returns the same aggregate for any two visiting orders of the
per-date map; and `GetPricing`, on which the costs rest, is the same for any
visiting order of the pricing table. -/
theorem aggregation_deterministic :
    (∀ u₁ u₂ : List (String × ModelUsage), u₁.Perm u₂ →
      TotalCostFromModelUsage u₁ = TotalCostFromModelUsage u₂)
    ∧ (∀ c₁ c₂ : StatsCache, c₁.DailyActivity = c₂.DailyActivity →
        List.Forall₂ sameTokens c₁.DailyModelTokens c₂.DailyModelTokens →
        (AggregateDaily c₁).map DailyStats.figures
          = (AggregateDaily c₂).map DailyStats.figures)
    ∧ (∀ (visit₁ visit₂ : List (String × DailyUsage) → List (String × DailyUsage))
        (ps : List Provider),
        (∀ m, (visit₁ m).Perm m) → (∀ m, (visit₂ m).Perm m) →
        LoadAllWith visit₁ ps = LoadAllWith visit₂ ps)
    ∧ (∀ (order : List (String × ModelPricing)) (model : String),
        order.Perm pricingTable → GetPricingWith order model = GetPricing model) := by
  refine ⟨fun _ _ h => TotalCostFromModelUsage_perm h, ?_, ?_, ?_⟩
  · intro c₁ c₂ hact htok
    rw [AggregateDaily_eq_map, AggregateDaily_eq_map, hact, List.map_map, List.map_map]
    apply List.map_congr_left
    intro da _
    exact dayStats_figures_eq (sameIndex_tokensByDate htok) da
  · intro visit₁ visit₂ ps h1 h2
    rw [LoadAllWith_perm visit₁ h1, LoadAllWith_perm visit₂ h2]
  · intro order model h
    exact GetPricingWith_perm h model

/-- Witness of C20: a two-entry usage table and its swap, `sampleCache` and
`sampleCacheAlt`, and the `sampleProviders` with the per-date map visited in
insertion order and in reverse. -/
theorem aggregation_deterministic_witness :
    TotalCostFromModelUsage
        [("claude-opus-4-6", ⟨1, 2, 3, 4⟩), ("gpt-4o", ⟨5, 6, 7, 8⟩)]
      = TotalCostFromModelUsage
          [("gpt-4o", ⟨5, 6, 7, 8⟩), ("claude-opus-4-6", ⟨1, 2, 3, 4⟩)]
    ∧ (AggregateDaily sampleCache).map DailyStats.figures
        = (AggregateDaily sampleCacheAlt).map DailyStats.figures
    ∧ LoadAllWith id sampleProviders = LoadAllWith List.reverse sampleProviders
    ∧ GetPricingWith pricingTable.reverse "claude-opus-4-5-thinking"
        = GetPricing "claude-opus-4-5-thinking" :=
  ⟨aggregation_deterministic.1 _ _ (List.Perm.swap _ _ _),
    aggregation_deterministic.2.1 sampleCache sampleCacheAlt rfl
      (List.Forall₂.cons ⟨rfl, (List.reverse_perm _).symm⟩
        (List.Forall₂.cons ⟨rfl, (List.reverse_perm _).symm⟩ List.Forall₂.nil)),
    aggregation_deterministic.2.2.1 id List.reverse sampleProviders
      (fun m => List.Perm.refl m) (fun m => List.reverse_perm m),
    aggregation_deterministic.2.2.2 pricingTable.reverse "claude-opus-4-5-thinking"
      (List.reverse_perm pricingTable)⟩

/-! ## Prefix-freeness of the pricing table -/

/-- C29: no key of the pricing table is a proper prefix of another key; hence
for every model name at most one key is a prefix of its canonical key, and the
rates and the found flag returned by `GetPricing` are the same for every order
in which the fallback loop visits the table. -/
theorem pricingTable_unambiguous :
    (∀ a ∈ pricingKeys, ∀ b ∈ pricingKeys, a ≠ b → ¬ BeginsWith b a)
    ∧ (∀ (model : String), ∀ a ∈ pricingKeys, ∀ b ∈ pricingKeys,
        BeginsWith (NormalizeModelName model) a → BeginsWith (NormalizeModelName model) b →
        a = b)
    ∧ (∀ (order : List (String × ModelPricing)) (model : String),
        order.Perm pricingTable → GetPricingWith order model = GetPricing model) := by
  refine ⟨?_, ?_, fun order model h => GetPricingWith_perm h model⟩
  · intro a ha b hb hne hpre
    obtain ⟨ea, hea, rfl⟩ := List.mem_map.1 ha
    obtain ⟨eb, heb, rfl⟩ := List.mem_map.1 hb
    have hsym : Symmetric
        (fun a b : String × ModelPricing =>
          HasPrefix a.1 b.1 = false ∧ HasPrefix b.1 a.1 = false) :=
      fun _ _ h => ⟨h.2, h.1⟩
    have hR := pricingTable_prefix_free.forall hsym hea heb (fun h => hne (by rw [h]))
    have := (HasPrefix_iff _ _).2 hpre
    rw [hR.2] at this
    exact Bool.noConfusion this
  · intro model a ha b hb hpa hpb
    obtain ⟨ea, hea, rfl⟩ := List.mem_map.1 ha
    obtain ⟨eb, heb, rfl⟩ := List.mem_map.1 hb
    rw [pricingTable_prefix_unique (NormalizeModelName model) ea hea eb heb
      ((HasPrefix_iff _ _).2 hpa) ((HasPrefix_iff _ _).2 hpb)]

/-- Witness of C29: the keys `o3` and `o4-mini`, and the reversed visiting
order. -/
theorem pricingTable_unambiguous_witness :
    ¬ BeginsWith "o4-mini" "o3"
    ∧ GetPricingWith pricingTable.reverse "o4-mini-high" = GetPricing "o4-mini-high" :=
  ⟨pricingTable_unambiguous.1 "o3" (by decide) "o4-mini" (by decide) (by decide),
    pricingTable_unambiguous.2.2 pricingTable.reverse "o4-mini-high"
      (List.reverse_perm pricingTable)⟩

/-! ## Project paths -/

theorem replaceChar_inverse (a b : Char) (s : List Char) (h : b ∉ s) :
    replaceChar b a (replaceChar a b s) = s := by
  induction s with
  | nil => rfl
  | cons c cs ih =>
    have hc : c ≠ b := fun hcb => h (hcb ▸ List.mem_cons_self _ _)
    have hcs : b ∉ cs := fun hb => h (List.mem_cons_of_mem _ hb)
    have ih' := ih hcs
    unfold replaceChar at ih' ⊢
    rw [List.map_cons, List.map_cons, ih']
    by_cases hca : c = a
    · simp [hca]
    · simp [hca, hc]

theorem DecodeProjectPath_dash (rest : String) :
    DecodeProjectPath ("-" ++ rest) = "/" ++ ⟨replaceChar '-' '/' rest.data⟩ := by
  have h : HasPrefix ("-" ++ rest) "-" = true := (HasPrefix_iff _ _).2 ⟨rest, rfl⟩
  unfold DecodeProjectPath
  rw [if_pos h]
  rfl

/-- C28: `DecodeProjectPath` undoes the dash encoding of every path that begins
with `/` and contains no `-` (example: `-Users-isaacaudet-myproject`); a name
`-rest` decodes to `/` followed by `rest` with every `-` replaced by `/`; a name
that does not begin with `-` is returned unchanged. -/
theorem DecodeProjectPath_spec :
    (∀ p : String, BeginsWith p "/" → '-' ∉ p.data →
      DecodeProjectPath (encodeProjectPath p) = p)
    ∧ DecodeProjectPath "-Users-isaacaudet-myproject" = "/Users/isaacaudet/myproject"
    ∧ (∀ rest : String,
        DecodeProjectPath ("-" ++ rest) = "/" ++ ⟨replaceChar '-' '/' rest.data⟩)
    ∧ (∀ name : String, ¬ BeginsWith name "-" → DecodeProjectPath name = name) := by
  refine ⟨?_, by decide, DecodeProjectPath_dash, ?_⟩
  · rintro p ⟨t, rfl⟩ hno
    have hno' : '-' ∉ t.data := fun h => hno (by simp [h])
    have henc : encodeProjectPath ("/" ++ t) = "-" ++ ⟨replaceChar '/' '-' t.data⟩ := by
      apply String.ext
      simp [encodeProjectPath, replaceChar]
    rw [henc, DecodeProjectPath_dash]
    apply String.ext
    simp only [String.data_append]
    rw [replaceChar_inverse '/' '-' t.data hno']
  · intro name h
    unfold DecodeProjectPath
    rw [if_neg]
    intro hp
    exact h ((HasPrefix_iff _ _).1 hp)

/-- Witness of C28: the path `/home/dev/app` and the name `notes`. -/
theorem DecodeProjectPath_spec_witness :
    DecodeProjectPath (encodeProjectPath "/home/dev/app") = "/home/dev/app"
    ∧ DecodeProjectPath "notes" = "notes" :=
  ⟨DecodeProjectPath_spec.1 "/home/dev/app" ((HasPrefix_iff _ _).1 (by decide)) (by decide),
    DecodeProjectPath_spec.2.2.2 "notes" (not_BeginsWith_of_HasPrefix_false (by decide))⟩

/-! ## Session logs -/

theorem foldl_filter_of_skip {α β : Type} (step : β → α → β) (p : α → Bool)
    (hskip : ∀ s x, p x = false → step s x = s) (l : List α) (s : β) :
    l.foldl step s = (l.filter p).foldl step s := by
  induction l generalizing s with
  | nil => rfl
  | cons x xs ih =>
    rw [List.foldl_cons, List.filter_cons]
    cases hp : p x with
    | true => simp only [if_true, List.foldl_cons]; exact ih _
    | false => rw [hskip s x hp]; simp only [Bool.false_eq_true, if_false]; exact ih _

theorem parseLine_of_not_decodes (decode : String → Option SessionMessage)
    (parseTime : String → Option Time) (s : Session) (l : String)
    (h : decodes decode l = false) : parseLine decode parseTime s l = s := by
  unfold decodes at h
  unfold parseLine
  cases hd : decode l with
  | none => rfl
  | some msg => rw [hd] at h; exact Bool.noConfusion h

theorem setSessionID_fields (s : Session) (msg : SessionMessage) :
    (setSessionID s msg).UserMessages = s.UserMessages
    ∧ (setSessionID s msg).MessageCount = s.MessageCount
    ∧ (setSessionID s msg).TokenUsage = s.TokenUsage
    ∧ (setSessionID s msg).Models = s.Models := by
  unfold setSessionID
  split <;> exact ⟨rfl, rfl, rfl, rfl⟩

theorem stampSession_fields (parseTime : String → Option Time) (s : Session)
    (msg : SessionMessage) :
    (stampSession parseTime s msg).UserMessages = s.UserMessages
    ∧ (stampSession parseTime s msg).MessageCount = s.MessageCount
    ∧ (stampSession parseTime s msg).TokenUsage = s.TokenUsage
    ∧ (stampSession parseTime s msg).Models = s.Models := by
  unfold stampSession
  split
  · split
    · simp only
      split <;> split <;> exact ⟨rfl, rfl, rfl, rfl⟩
    · exact ⟨rfl, rfl, rfl, rfl⟩
  · exact ⟨rfl, rfl, rfl, rfl⟩

theorem countUser_fields (s : Session) (msg : SessionMessage) :
    (countUser s msg).UserMessages
        = (if msg.Typ = "user" then wrapInt64 (s.UserMessages + 1) else s.UserMessages)
    ∧ (countUser s msg).MessageCount = s.MessageCount
    ∧ (countUser s msg).TokenUsage = s.TokenUsage
    ∧ (countUser s msg).Models = s.Models := by
  unfold countUser
  split <;> exact ⟨rfl, rfl, rfl, rfl⟩

theorem countAssistant_UserMessages (s : Session) (msg : SessionMessage) :
    (countAssistant s msg).UserMessages = s.UserMessages := by
  unfold countAssistant
  split
  · split
    · split
      · simp only
        split <;> rfl
      · rfl
    · rfl
  · rfl

theorem countAssistant_eq (s : Session) (msg : SessionMessage) :
    countAssistant s msg
      = if msg.Typ = "assistant" then
          match msg.Message with
          | some detail =>
            match detail.Usage with
            | some u =>
              if detail.Model = "" then
                { s with MessageCount := wrapInt64 (s.MessageCount + 1) }
              else
                applyUsage { s with MessageCount := wrapInt64 (s.MessageCount + 1) }
                  detail.Model u
            | none => s
          | none => s
        else s := rfl

theorem applyUsage_fields (s : Session) (m : String) (u : Usage) :
    (applyUsage s m u).UserMessages = s.UserMessages
    ∧ (applyUsage s m u).MessageCount = s.MessageCount :=
  ⟨rfl, rfl⟩

theorem applyUsage_TokenUsage (s : Session) (m : String) (u : Usage) :
    (applyUsage s m u).TokenUsage = addUsage s.TokenUsage u := rfl

theorem applyUsage_Models (s : Session) (m : String) (u : Usage) :
    (applyUsage s m u).Models
      = mapInsert s.Models m (addUsage ((s.Models.lookup m).getD ⟨0, 0, 0, 0⟩) u) := rfl

theorem parseLine_UserMessages (decode : String → Option SessionMessage)
    (parseTime : String → Option Time) (s : Session) (l : String) :
    (parseLine decode parseTime s l).UserMessages
      = if isUserLine decode l = true then wrapInt64 (s.UserMessages + 1)
        else s.UserMessages := by
  unfold parseLine isUserLine
  cases hd : decode l with
  | none => simp
  | some msg =>
    simp only [applyMessage, countAssistant_UserMessages, (countUser_fields _ msg).1,
      (stampSession_fields parseTime _ msg).1, (setSessionID_fields s msg).1,
      decide_eq_true_eq]

theorem parseLine_MessageCount (decode : String → Option SessionMessage)
    (parseTime : String → Option Time) (s : Session) (l : String) :
    (parseLine decode parseTime s l).MessageCount
      = if hasUsageLine decode l = true then wrapInt64 (s.MessageCount + 1)
        else s.MessageCount := by
  have hbase : ∀ msg : SessionMessage,
      (countUser (stampSession parseTime (setSessionID s msg) msg) msg).MessageCount
        = s.MessageCount := by
    intro msg
    rw [(countUser_fields _ msg).2.1, (stampSession_fields parseTime _ msg).2.1,
      (setSessionID_fields s msg).2.1]
  unfold parseLine hasUsageLine usageOfLine
  cases hd : decode l with
  | none => simp
  | some msg =>
    simp only [applyMessage, countAssistant_eq]
    by_cases ha : msg.Typ = "assistant"
    · simp only [ha, if_true]
      cases hm : msg.Message with
      | none => simp [hbase]
      | some detail =>
        simp only
        rcases Option.eq_none_or_eq_some detail.Usage with hu | ⟨u, hu⟩
        · simp [hu, hbase]
        · simp only [hu, Option.isSome_some, if_true]
          split
          · simp only [hbase]
          · rw [(applyUsage_fields _ _ _).2]
            simp only [hbase]
    · simp [ha, hbase]

theorem parseLine_usage (decode : String → Option SessionMessage)
    (parseTime : String → Option Time) (s : Session) (l : String) :
    (parseLine decode parseTime s l).TokenUsage
        = (match billableOfLine decode l with
          | some (_, u) => addUsage s.TokenUsage u
          | none => s.TokenUsage)
    ∧ (parseLine decode parseTime s l).Models
        = (match billableOfLine decode l with
          | some (m, u) =>
            mapInsert s.Models m (addUsage ((s.Models.lookup m).getD ⟨0, 0, 0, 0⟩) u)
          | none => s.Models) := by
  have hT : ∀ msg : SessionMessage,
      (countUser (stampSession parseTime (setSessionID s msg) msg) msg).TokenUsage
        = s.TokenUsage := by
    intro msg
    rw [(countUser_fields _ msg).2.2.1, (stampSession_fields parseTime _ msg).2.2.1,
      (setSessionID_fields s msg).2.2.1]
  have hM : ∀ msg : SessionMessage,
      (countUser (stampSession parseTime (setSessionID s msg) msg) msg).Models
        = s.Models := by
    intro msg
    rw [(countUser_fields _ msg).2.2.2, (stampSession_fields parseTime _ msg).2.2.2,
      (setSessionID_fields s msg).2.2.2]
  unfold parseLine billableOfLine usageOfLine
  cases hd : decode l with
  | none => exact ⟨rfl, rfl⟩
  | some msg =>
    simp only [applyMessage, countAssistant_eq]
    by_cases ha : msg.Typ = "assistant"
    · simp only [ha, if_true]
      cases hm : msg.Message with
      | none => exact ⟨hT msg, hM msg⟩
      | some detail =>
        simp only
        rcases Option.eq_none_or_eq_some detail.Usage with hu | ⟨u, hu⟩
        · simp only [hu]
          exact ⟨hT msg, hM msg⟩
        · simp only [hu]
          by_cases hmod : detail.Model = ""
          · simp only [hmod, if_true]
            exact ⟨hT msg, hM msg⟩
          · simp only [hmod, if_false]
            rw [applyUsage_TokenUsage, applyUsage_Models]
            exact ⟨by rw [hT], by rw [hM]⟩
    · simp only [ha, if_false]
      exact ⟨hT msg, hM msg⟩

theorem foldl_proj {α β γ : Type} (step : β → α → β) (proj : β → γ) (g : γ → α → γ)
    (h : ∀ s x, proj (step s x) = g (proj s) x) (l : List α) (s : β) :
    proj (l.foldl step s) = l.foldl g (proj s) := by
  induction l generalizing s with
  | nil => rfl
  | cons x xs ih => rw [List.foldl_cons, List.foldl_cons, ih, h]

theorem foldl_wrapInt64_if {α : Type} (p : α → Bool) (l : List α) (t : Int) :
    l.foldl (fun acc x => if p x = true then wrapInt64 (acc + 1) else acc) (wrapInt64 t)
      = wrapInt64 (t + ((l.filter p).length : Int)) := by
  induction l generalizing t with
  | nil => simp
  | cons x xs ih =>
    rw [List.foldl_cons, List.filter_cons]
    cases hp : p x with
    | true =>
      simp only [if_true, wrapInt64_add_wrap, ih, List.length_cons, Nat.cast_add, Nat.cast_one]
      congr 1
      ring
    | false =>
      simp only [Bool.false_eq_true, if_false, ih]

theorem foldl_wrapInt64_if_zero {α : Type} (p : α → Bool) (l : List α) :
    l.foldl (fun acc x => if p x = true then wrapInt64 (acc + 1) else acc) 0
      = wrapInt64 ((l.filter p).length : Int) := by
  have h := foldl_wrapInt64_if p l 0
  rw [wrapInt64_zero, zero_add] at h
  exact h

theorem ParseSessionFile_ok (decode : String → Option SessionMessage)
    (parseTime : String → Option Time) (project : String) (lines : List String)
    (err : Option String) :
    ParseSessionFile decode parseTime project (Except.ok ⟨lines, err⟩)
      = (some (lines.foldl (parseLine decode parseTime) (emptySession project)), err) := rfl

/-- C21: for every sequence of lines and every outcome of the scan,
`ParseSessionFile` returns the same session, and the same error value, for the
file as for the file without the lines that fail to decode; when the scan ends
without error (every line within the line limit) no error is reported. -/
theorem ParseSessionFile_skips_malformed (decode : String → Option SessionMessage)
    (parseTime : String → Option Time) (project : String) (lines : List String) :
    (∀ err : Option String,
      ParseSessionFile decode parseTime project (Except.ok ⟨lines, err⟩)
        = ParseSessionFile decode parseTime project
            (Except.ok ⟨lines.filter (decodes decode), err⟩))
    ∧ (∃ s, ParseSessionFile decode parseTime project (Except.ok ⟨lines, none⟩)
        = (some s, none))
    ∧ (∀ (before after : List String) (bad : String), decode bad = none →
        ParseSessionFile decode parseTime project (Except.ok ⟨before ++ bad :: after, none⟩)
          = ParseSessionFile decode parseTime project (Except.ok ⟨before ++ after, none⟩)) := by
  have hskip := parseLine_of_not_decodes decode parseTime
  refine ⟨?_, ⟨_, rfl⟩, ?_⟩
  · intro err
    rw [ParseSessionFile_ok, ParseSessionFile_ok,
      foldl_filter_of_skip (parseLine decode parseTime) (decodes decode) hskip]
  · intro before after bad hbad
    rw [ParseSessionFile_ok, ParseSessionFile_ok, List.foldl_append, List.foldl_cons,
      List.foldl_append]
    have : parseLine decode parseTime
        (before.foldl (parseLine decode parseTime) (emptySession project)) bad
        = before.foldl (parseLine decode parseTime) (emptySession project) := by
      apply hskip
      unfold decodes
      rw [hbad]
      rfl
    rw [this]

/-- Witness of C21: a garbage line between a user line and an assistant
line. -/
theorem ParseSessionFile_skips_malformed_witness :
    sampleDecode lineGarbage = none
    ∧ ParseSessionFile sampleDecode sampleParseTime "/p"
        (Except.ok ⟨[lineUser] ++ lineGarbage :: [lineOpus], none⟩)
      = ParseSessionFile sampleDecode sampleParseTime "/p"
          (Except.ok ⟨[lineUser] ++ [lineOpus], none⟩) :=
  ⟨by decide,
    (ParseSessionFile_skips_malformed sampleDecode sampleParseTime "/p" []).2.2
      [lineUser] [lineOpus] lineGarbage (by decide)⟩

/-- C22 fails as stated: an assistant line with a usage payload and no model
name is counted in `MessageCount`, although the log has no assistant line with
both a model name and a usage payload. -/
theorem ParseSessionFile_counts_unnamed_model :
    (ParseSessionFile sampleDecode sampleParseTime "/p"
        (Except.ok ⟨[lineNoModel], none⟩)).1.map (fun s => s.MessageCount) = some 1
    ∧ ([lineNoModel].filter (isBillableLine sampleDecode)).length = 0 := by
  decide

/-- C22, amended: `MessageCount` is the number of decodable lines of type
`assistant` that carry a usage payload, with or without a model name, and
`UserMessages` is the number of decodable lines of type `user` (both counted in
64-bit integer arithmetic, that is exactly for fewer than `2^63` lines). -/
theorem ParseSessionFile_counts (decode : String → Option SessionMessage)
    (parseTime : String → Option Time) (project : String) (lines : List String)
    (err : Option String) :
    ∃ s, ParseSessionFile decode parseTime project (Except.ok ⟨lines, err⟩) = (some s, err)
      ∧ s.MessageCount = wrapInt64 ((lines.filter (hasUsageLine decode)).length : Int)
      ∧ s.UserMessages = wrapInt64 ((lines.filter (isUserLine decode)).length : Int)
      ∧ (((lines.filter (hasUsageLine decode)).length : Int) < 2 ^ 63 →
          s.MessageCount = ((lines.filter (hasUsageLine decode)).length : Int))
      ∧ (((lines.filter (isUserLine decode)).length : Int) < 2 ^ 63 →
          s.UserMessages = ((lines.filter (isUserLine decode)).length : Int)) := by
  refine ⟨_, ParseSessionFile_ok decode parseTime project lines err, ?_⟩
  have hM : (lines.foldl (parseLine decode parseTime) (emptySession project)).MessageCount
      = wrapInt64 ((lines.filter (hasUsageLine decode)).length : Int) := by
    rw [foldl_proj (parseLine decode parseTime) (fun s => s.MessageCount)
      (fun acc l => if hasUsageLine decode l = true then wrapInt64 (acc + 1) else acc)
      (fun s l => parseLine_MessageCount decode parseTime s l)]
    exact foldl_wrapInt64_if_zero _ _
  have hU : (lines.foldl (parseLine decode parseTime) (emptySession project)).UserMessages
      = wrapInt64 ((lines.filter (isUserLine decode)).length : Int) := by
    rw [foldl_proj (parseLine decode parseTime) (fun s => s.UserMessages)
      (fun acc l => if isUserLine decode l = true then wrapInt64 (acc + 1) else acc)
      (fun s l => parseLine_UserMessages decode parseTime s l)]
    exact foldl_wrapInt64_if_zero _ _
  refine ⟨hM, hU, ?_, ?_⟩
  · intro h
    rw [hM]
    exact wrapInt64_of_inRange ⟨by omega, h⟩
  · intro h
    rw [hU]
    exact wrapInt64_of_inRange ⟨by omega, h⟩

set_option maxRecDepth 8000 in
/-- Witness of C22: a user line, the unnamed assistant line and a named
one. -/
theorem ParseSessionFile_counts_witness :
    ∃ s, ParseSessionFile sampleDecode sampleParseTime "/p"
          (Except.ok ⟨[lineUser, lineNoModel, lineOpus], none⟩) = (some s, none)
      ∧ s.MessageCount = 2 ∧ s.UserMessages = 1 :=
  have h := ParseSessionFile_counts sampleDecode sampleParseTime "/p"
    [lineUser, lineNoModel, lineOpus] none
  ⟨h.choose, h.choose_spec.1,
    (h.choose_spec.2.2.2.1 (by decide)).trans (by decide),
    (h.choose_spec.2.2.2.2 (by decide)).trans (by decide)⟩

theorem sum_mapInsert (g : TokenUsage → Int) (hz : g ⟨0, 0, 0, 0⟩ = 0)
    (m : List (String × TokenUsage)) (k : String) (v : TokenUsage) :
    ((mapInsert m k v).map (fun e => g e.2)).sum
      = (m.map (fun e => g e.2)).sum - g ((m.lookup k).getD ⟨0, 0, 0, 0⟩) + g v := by
  induction m with
  | nil => simp [mapInsert, hz]
  | cons e rest ih =>
    unfold mapInsert
    rw [show e = (e.1, e.2) from rfl, List.lookup_cons]
    by_cases hk : e.1 = k
    · have hb : (k == e.1) = true := by simp [hk]
      simp only [beq_iff_eq, hk, if_true, List.map_cons, List.sum_cons, hb, Option.getD_some]
      simp only [beq_self_eq_true, Option.getD_some]
      ring
    · have hb : (k == e.1) = false := by
        rw [beq_eq_false_iff_ne]
        exact fun h => hk h.symm
      simp only [beq_iff_eq, hk, if_false, List.map_cons, List.sum_cons, hb, ih]
      ring

theorem wrapInt64_replace (S o x : Int) :
    wrapInt64 (S - o + wrapInt64 (o + x)) = wrapInt64 (wrapInt64 S + x) := by
  unfold wrapInt64
  omega

theorem foldl_parseLine_TokenUsage (decode : String → Option SessionMessage)
    (parseTime : String → Option Time) (lines : List String) (s : Session) :
    (lines.foldl (parseLine decode parseTime) s).TokenUsage
      = (billableUsages decode lines).foldl addUsage s.TokenUsage := by
  induction lines generalizing s with
  | nil => rfl
  | cons l ls ih =>
    rw [List.foldl_cons, ih, (parseLine_usage decode parseTime s l).1]
    unfold billableUsages
    rw [List.filterMap_cons]
    rcases Option.eq_none_or_eq_some (billableOfLine decode l) with h | ⟨⟨m, u⟩, h⟩
    · simp only [h, Option.map_none']
    · simp only [h, Option.map_some', List.foldl_cons]

theorem foldl_addUsage (us : List Usage) (t : TokenUsage) :
    (us.foldl addUsage t).InputTokens
        = us.foldl (fun acc u => wrapInt64 (acc + u.InputTokens)) t.InputTokens
    ∧ (us.foldl addUsage t).OutputTokens
        = us.foldl (fun acc u => wrapInt64 (acc + u.OutputTokens)) t.OutputTokens
    ∧ (us.foldl addUsage t).CacheRead
        = us.foldl (fun acc u => wrapInt64 (acc + u.CacheReadInputTokens)) t.CacheRead
    ∧ (us.foldl addUsage t).CacheWrite
        = us.foldl (fun acc u => wrapInt64 (acc + u.CacheCreationInputTokens)) t.CacheWrite := by
  induction us generalizing t with
  | nil => exact ⟨rfl, rfl, rfl, rfl⟩
  | cons u us ih =>
    simp only [List.foldl_cons]
    exact ih (addUsage t u)

theorem session_lines_sum (decode : String → Option SessionMessage)
    (parseTime : String → Option Time) (project : String) (lines : List String) :
    (lines.foldl (parseLine decode parseTime) (emptySession project)).TokenUsage.InputTokens
        = wrapInt64 ((billableUsages decode lines).map (fun u => u.InputTokens)).sum
    ∧ (lines.foldl (parseLine decode parseTime) (emptySession project)).TokenUsage.OutputTokens
        = wrapInt64 ((billableUsages decode lines).map (fun u => u.OutputTokens)).sum
    ∧ (lines.foldl (parseLine decode parseTime) (emptySession project)).TokenUsage.CacheRead
        = wrapInt64 ((billableUsages decode lines).map (fun u => u.CacheReadInputTokens)).sum
    ∧ (lines.foldl (parseLine decode parseTime) (emptySession project)).TokenUsage.CacheWrite
        = wrapInt64
            ((billableUsages decode lines).map (fun u => u.CacheCreationInputTokens)).sum := by
  rw [foldl_parseLine_TokenUsage]
  have h := foldl_addUsage (billableUsages decode lines) (emptySession project).TokenUsage
  refine ⟨?_, ?_, ?_, ?_⟩
  · rw [h.1]; exact foldl_wrapInt64_zero _ _
  · rw [h.2.1]; exact foldl_wrapInt64_zero _ _
  · rw [h.2.2.1]; exact foldl_wrapInt64_zero _ _
  · rw [h.2.2.2]; exact foldl_wrapInt64_zero _ _

theorem parseLine_models_sum (decode : String → Option SessionMessage)
    (parseTime : String → Option Time) (s : Session) (l : String)
    (h : s.TokenUsage.InputTokens = wrapInt64 (s.Models.map (fun e => e.2.InputTokens)).sum
      ∧ s.TokenUsage.OutputTokens = wrapInt64 (s.Models.map (fun e => e.2.OutputTokens)).sum
      ∧ s.TokenUsage.CacheRead = wrapInt64 (s.Models.map (fun e => e.2.CacheRead)).sum
      ∧ s.TokenUsage.CacheWrite = wrapInt64 (s.Models.map (fun e => e.2.CacheWrite)).sum) :
    (parseLine decode parseTime s l).TokenUsage.InputTokens
        = wrapInt64 ((parseLine decode parseTime s l).Models.map
            (fun e => e.2.InputTokens)).sum
    ∧ (parseLine decode parseTime s l).TokenUsage.OutputTokens
        = wrapInt64 ((parseLine decode parseTime s l).Models.map
            (fun e => e.2.OutputTokens)).sum
    ∧ (parseLine decode parseTime s l).TokenUsage.CacheRead
        = wrapInt64 ((parseLine decode parseTime s l).Models.map
            (fun e => e.2.CacheRead)).sum
    ∧ (parseLine decode parseTime s l).TokenUsage.CacheWrite
        = wrapInt64 ((parseLine decode parseTime s l).Models.map
            (fun e => e.2.CacheWrite)).sum := by
  rw [(parseLine_usage decode parseTime s l).1, (parseLine_usage decode parseTime s l).2]
  rcases Option.eq_none_or_eq_some (billableOfLine decode l) with hb | ⟨⟨m, u⟩, hb⟩
  · simp only [hb]
    exact h
  · simp only [hb]
    refine ⟨?_, ?_, ?_, ?_⟩
    · rw [sum_mapInsert (fun t => t.InputTokens) rfl]
      simp only [addUsage]
      rw [wrapInt64_replace, ← h.1]
    · rw [sum_mapInsert (fun t => t.OutputTokens) rfl]
      simp only [addUsage]
      rw [wrapInt64_replace, ← h.2.1]
    · rw [sum_mapInsert (fun t => t.CacheRead) rfl]
      simp only [addUsage]
      rw [wrapInt64_replace, ← h.2.2.1]
    · rw [sum_mapInsert (fun t => t.CacheWrite) rfl]
      simp only [addUsage]
      rw [wrapInt64_replace, ← h.2.2.2]

theorem session_models_sum (decode : String → Option SessionMessage)
    (parseTime : String → Option Time) (project : String) (lines : List String) :
    (lines.foldl (parseLine decode parseTime) (emptySession project)).TokenUsage.InputTokens
        = wrapInt64 ((lines.foldl (parseLine decode parseTime) (emptySession project)).Models.map
            (fun e => e.2.InputTokens)).sum
    ∧ (lines.foldl (parseLine decode parseTime) (emptySession project)).TokenUsage.OutputTokens
        = wrapInt64 ((lines.foldl (parseLine decode parseTime) (emptySession project)).Models.map
            (fun e => e.2.OutputTokens)).sum
    ∧ (lines.foldl (parseLine decode parseTime) (emptySession project)).TokenUsage.CacheRead
        = wrapInt64 ((lines.foldl (parseLine decode parseTime) (emptySession project)).Models.map
            (fun e => e.2.CacheRead)).sum
    ∧ (lines.foldl (parseLine decode parseTime) (emptySession project)).TokenUsage.CacheWrite
        = wrapInt64 ((lines.foldl (parseLine decode parseTime) (emptySession project)).Models.map
            (fun e => e.2.CacheWrite)).sum := by
  induction lines using List.reverseRecOn with
  | nil => exact ⟨rfl, rfl, rfl, rfl⟩
  | append_singleton ls l ih =>
    rw [List.foldl_append, List.foldl_cons, List.foldl_nil]
    exact parseLine_models_sum decode parseTime _ l ih

theorem componentConsistent_of (total : Int) (perModel perLine : List Int)
    (h1 : total = wrapInt64 perModel.sum) (h2 : total = wrapInt64 perLine.sum) :
    componentConsistent total perModel perLine :=
  ⟨h1, h2, fun h => h1.trans (wrapInt64_of_inRange h),
    fun h => h2.trans (wrapInt64_of_inRange h)⟩

theorem session_usageConsistent (decode : String → Option SessionMessage)
    (parseTime : String → Option Time) (project : String) (lines : List String) :
    usageConsistent decode (lines.foldl (parseLine decode parseTime) (emptySession project))
      lines :=
  have hm := session_models_sum decode parseTime project lines
  have hl := session_lines_sum decode parseTime project lines
  ⟨componentConsistent_of _ _ _ hm.1 hl.1,
    componentConsistent_of _ _ _ hm.2.1 hl.2.1,
    componentConsistent_of _ _ _ hm.2.2.1 hl.2.2.1,
    componentConsistent_of _ _ _ hm.2.2.2 hl.2.2.2⟩

set_option maxRecDepth 8000 in
/-- C23 fails as stated: for a log of two assistant lines, of `model-a` with
`2^63 - 1` input tokens and of `model-b` with one, the session's input total is
`-2^63`, while the sum of the input component over the entries of `Models` is
`2^63`. -/
theorem ParseSessionFile_total_wraps :
    (ParseSessionFile overflowDecode sampleParseTime "/p"
        (Except.ok ⟨[lineHugeA, lineOneB], none⟩)).1.map
          (fun s => (s.TokenUsage.InputTokens, (s.Models.map (fun e => e.2.InputTokens)).sum))
      = some (-9223372036854775808, 9223372036854775808) := by
  decide

/-- C23, amended: for every session log, split anywhere into the lines
processed so far and the lines still to come, the session state after the lines
processed so far and the session `ParseSessionFile` returns both have each
component of `TokenUsage` (input, output, cache read, cache write) equal to the
sum of that component over the entries of `Models` and to the sum over the
billable assistant lines read, as Go's 64-bit `int` computes these sums
(wrapping around on overflow); the equalities are those of the plain sums
whenever the sums are 64-bit values. -/
theorem ParseSessionFile_usage_invariant (decode : String → Option SessionMessage)
    (parseTime : String → Option Time) (project : String) (done rest : List String)
    (err : Option String) :
    ∃ mid final,
      mid = done.foldl (parseLine decode parseTime) (emptySession project)
      ∧ final = rest.foldl (parseLine decode parseTime) mid
      ∧ ParseSessionFile decode parseTime project (Except.ok ⟨done ++ rest, err⟩)
          = (some final, err)
      ∧ usageConsistent decode mid done
      ∧ usageConsistent decode final (done ++ rest) := by
  refine ⟨_, _, rfl, rfl, ?_, session_usageConsistent decode parseTime project done, ?_⟩
  · rw [ParseSessionFile_ok, List.foldl_append]
  · rw [← List.foldl_append]
    exact session_usageConsistent decode parseTime project (done ++ rest)

/-! ## Codex rollout files -/

theorem foldl_getD_eq_getLast {α β : Type} (f : α → Option β) (l : List α) (b : β) :
    l.foldl (fun acc x => (f x).getD acc) b = ((l.filterMap f).getLast?).getD b := by
  induction l using List.reverseRecOn with
  | nil => rfl
  | append_singleton xs x ih =>
    rw [List.foldl_append, List.foldl_cons, List.foldl_nil, ih, List.filterMap_append]
    cases hx : f x with
    | none => simp [List.filterMap, hx]
    | some y => simp [List.filterMap, hx]

theorem caseSessionMeta_fields (env : RolloutEnv) (st : RolloutState) (l : String) :
    (caseSessionMeta env st l).s.tokens = st.s.tokens
    ∧ (caseSessionMeta env st l).lastTimestamp
        = ((env.sessionMeta l).map (fun m => m.Payload.Timestamp)).getD st.lastTimestamp
    ∧ (caseSessionMeta env st l).s.modelName = st.s.modelName
    ∧ (caseSessionMeta env st l).s.endTime = st.s.endTime := by
  unfold caseSessionMeta
  cases env.sessionMeta l <;> exact ⟨rfl, rfl, rfl, rfl⟩

theorem caseOldMeta_fields (env : RolloutEnv) (st : RolloutState) (l : String) :
    (caseOldMeta env st l).s.tokens = st.s.tokens
    ∧ (caseOldMeta env st l).lastTimestamp
        = ((env.oldMeta l).map (fun m => m.Timestamp)).getD st.lastTimestamp
    ∧ (caseOldMeta env st l).s.modelName = st.s.modelName
    ∧ (caseOldMeta env st l).s.endTime = st.s.endTime := by
  unfold caseOldMeta
  cases env.oldMeta l <;> exact ⟨rfl, rfl, rfl, rfl⟩

theorem caseTurnContext_fields (env : RolloutEnv) (st : RolloutState) (l : String) :
    (caseTurnContext env st l).s.tokens = st.s.tokens
    ∧ (caseTurnContext env st l).lastTimestamp = st.lastTimestamp
    ∧ (caseTurnContext env st l).s.modelName
        = (((env.turnContext l).map (fun tc => tc.Payload.Model)).filter
            (fun m => m ≠ "")).getD st.s.modelName
    ∧ (caseTurnContext env st l).s.endTime = st.s.endTime := by
  unfold caseTurnContext
  cases env.turnContext l with
  | none => exact ⟨rfl, rfl, rfl, rfl⟩
  | some tc =>
    by_cases hm : tc.Payload.Model = "" <;> by_cases hc : tc.Payload.CWD = "" <;>
      simp [hm, hc, Option.filter]

theorem countRole_fields (st : RolloutState) (role : String) :
    (countRole st role).s.tokens = st.s.tokens
    ∧ (countRole st role).lastTimestamp = st.lastTimestamp
    ∧ (countRole st role).s.modelName = st.s.modelName
    ∧ (countRole st role).s.endTime = st.s.endTime := by
  unfold countRole
  by_cases hu : role = "user"
  · rw [if_pos hu]
    exact ⟨rfl, rfl, rfl, rfl⟩
  · rw [if_neg hu]
    by_cases ha : role = "assistant"
    · rw [if_pos ha]
      exact ⟨rfl, rfl, rfl, rfl⟩
    · rw [if_neg ha]
      exact ⟨rfl, rfl, rfl, rfl⟩

theorem caseResponseItem_fields (env : RolloutEnv) (st : RolloutState) (l : String) :
    (caseResponseItem env st l).s.tokens = st.s.tokens
    ∧ (caseResponseItem env st l).lastTimestamp = st.lastTimestamp
    ∧ (caseResponseItem env st l).s.modelName = st.s.modelName
    ∧ (caseResponseItem env st l).s.endTime = st.s.endTime := by
  unfold caseResponseItem
  cases env.responseItem l with
  | none => exact ⟨rfl, rfl, rfl, rfl⟩
  | some ri => exact countRole_fields st ri.Payload.Role

theorem caseOldMessage_fields (env : RolloutEnv) (st : RolloutState) (l : String) :
    (caseOldMessage env st l).s.tokens = st.s.tokens
    ∧ (caseOldMessage env st l).lastTimestamp = st.lastTimestamp
    ∧ (caseOldMessage env st l).s.modelName = st.s.modelName
    ∧ (caseOldMessage env st l).s.endTime = st.s.endTime := by
  unfold caseOldMessage
  cases env.oldMessage l with
  | none => exact ⟨rfl, rfl, rfl, rfl⟩
  | some msg => exact countRole_fields st msg.Role

theorem countEvent_fields (st : RolloutState) (evt : codexEventMsg) :
    (countEvent st evt).s.tokens = st.s.tokens
    ∧ (countEvent st evt).lastTimestamp = st.lastTimestamp
    ∧ (countEvent st evt).s.modelName = st.s.modelName
    ∧ (countEvent st evt).s.endTime = st.s.endTime := by
  unfold countEvent
  by_cases hu : evt.Payload.Typ = "user_message" <;>
    by_cases ha : evt.Payload.Typ = "agent_message" <;>
    simp [hu, ha]

theorem snapshotEvent_fields (env : RolloutEnv) (st : RolloutState) (evt : codexEventMsg) :
    (snapshotEvent env st evt).s.tokens
        = ((if evt.Payload.Typ = "token_count" then evt.Payload.Info.bind env.tokenInfo
            else none).filter
            (fun info => decide (0 < info.TotalTokenUsage.TotalTokens))).getD st.s.tokens
    ∧ (snapshotEvent env st evt).lastTimestamp = st.lastTimestamp
    ∧ (snapshotEvent env st evt).s.modelName = st.s.modelName
    ∧ (snapshotEvent env st evt).s.endTime = st.s.endTime := by
  unfold snapshotEvent
  by_cases ht : evt.Payload.Typ = "token_count"
  · rw [if_pos ht, if_pos ht]
    rcases Option.eq_none_or_eq_some evt.Payload.Info with hi | ⟨raw, hi⟩
    · simp [hi, Option.filter]
    · rcases Option.eq_none_or_eq_some (env.tokenInfo raw) with hr | ⟨info, hr⟩
      · simp [hi, hr, Option.filter]
      · by_cases hp : 0 < info.TotalTokenUsage.TotalTokens
        · simp [hi, hr, hp, Option.filter]
        · simp [hi, hr, hp, Option.filter]
  · rw [if_neg ht, if_neg ht]
    exact ⟨rfl, rfl, rfl, rfl⟩

theorem stampEvent_fields (st : RolloutState) (evt : codexEventMsg) :
    (stampEvent st evt).s = st.s
    ∧ (stampEvent st evt).lastTimestamp
        = ((some evt.Timestamp).filter (fun t => t ≠ "")).getD st.lastTimestamp := by
  unfold stampEvent
  by_cases h : evt.Timestamp = ""
  · simp [h, Option.filter]
  · simp [h, Option.filter]

theorem caseEventMsg_fields (env : RolloutEnv) (st : RolloutState) (l : String) :
    (caseEventMsg env st l).s.tokens
        = ((match env.eventMsg l with
            | none => none
            | some evt =>
              if evt.Payload.Typ = "token_count" then evt.Payload.Info.bind env.tokenInfo
              else none).filter
            (fun info : codexTokenInfo =>
              decide (0 < info.TotalTokenUsage.TotalTokens))).getD st.s.tokens
    ∧ (caseEventMsg env st l).lastTimestamp
        = (((env.eventMsg l).map (fun evt => evt.Timestamp)).filter
            (fun t => t ≠ "")).getD st.lastTimestamp
    ∧ (caseEventMsg env st l).s.modelName = st.s.modelName
    ∧ (caseEventMsg env st l).s.endTime = st.s.endTime := by
  unfold caseEventMsg
  cases env.eventMsg l with
  | none => exact ⟨rfl, rfl, rfl, rfl⟩
  | some evt =>
    have h1 := countEvent_fields (snapshotEvent env (stampEvent st evt) evt) evt
    have h2 := snapshotEvent_fields env (stampEvent st evt) evt
    have h3 := stampEvent_fields st evt
    refine ⟨?_, ?_, ?_, ?_⟩
    · simp only [h1.1, h2.1, h3.1]
    · simp only [h1.2.1, h2.2.1, h3.2, Option.map_some']
    · simp only [h1.2.2.1, h2.2.2.1, h3.1]
    · simp only [h1.2.2.2, h2.2.2.2, h3.1]

theorem rolloutStep_fields (env : RolloutEnv) (st : RolloutState) (l : String) :
    (rolloutStep env st l).s.tokens = (positiveSnapshotOfLine env l).getD st.s.tokens
    ∧ (rolloutStep env st l).lastTimestamp = (lastStampOfLine env l).getD st.lastTimestamp
    ∧ (rolloutStep env st l).s.modelName = (modelOfLine env l).getD st.s.modelName
    ∧ (rolloutStep env st l).s.endTime = st.s.endTime := by
  unfold rolloutStep positiveSnapshotOfLine snapshotOfLine lastStampOfLine headerStampOfLine
    eventOfLine modelOfLine
  by_cases he : l.utf8ByteSize = 0
  · simp [if_pos he, Option.filter]
  · simp only [if_neg he]
    rcases Option.eq_none_or_eq_some (env.peek l) with hp | ⟨peek, hp⟩
    · simp [hp, Option.filter]
    · simp only [hp]
      by_cases h1 : peek.Typ = "session_meta"
      · have h := caseSessionMeta_fields env st l
        have e1 : ¬ peek.Typ = "event_msg" := by rw [h1]; decide
        have e2 : ¬ peek.Typ = "turn_context" := by rw [h1]; decide
        simp only [if_pos h1, if_neg e1, if_neg e2, h.1, h.2.1, h.2.2.1, h.2.2.2]
        cases env.sessionMeta l <;> simp [Option.filter]
      · by_cases h2 : peek.ID ≠ "" ∧ peek.Typ = ""
        · have h := caseOldMeta_fields env st l
          have e1 : ¬ peek.Typ = "event_msg" := by rw [h2.2]; decide
          have e2 : ¬ peek.Typ = "turn_context" := by rw [h2.2]; decide
          simp only [if_neg h1, if_pos h2, if_neg e1, if_neg e2, h.1, h.2.1, h.2.2.1, h.2.2.2]
          cases env.oldMeta l <;> simp [Option.filter]
        · by_cases h3 : peek.Typ = "turn_context"
          · have h := caseTurnContext_fields env st l
            have e1 : ¬ peek.Typ = "event_msg" := by rw [h3]; decide
            simp only [if_neg h1, if_neg h2, if_pos h3, if_neg e1, h.1, h.2.1, h.2.2.1,
              h.2.2.2]
            simp [Option.filter]
          · by_cases h4 : peek.Typ = "event_msg"
            · have h := caseEventMsg_fields env st l
              simp only [if_neg h1, if_neg h2, if_neg h3, if_pos h4, h.1, h.2.1, h.2.2.1,
                h.2.2.2]
              cases env.eventMsg l <;> simp [Option.filter]
            · by_cases h5 : peek.Typ = "response_item"
              · have h := caseResponseItem_fields env st l
                simp only [if_neg h1, if_neg h2, if_neg h3, if_neg h4, if_pos h5, h.1, h.2.1,
                  h.2.2.1, h.2.2.2]
                simp [Option.filter]
              · by_cases h6 : peek.Typ = "message" ∧ peek.Role ≠ ""
                · have h := caseOldMessage_fields env st l
                  simp only [if_neg h1, if_neg h2, if_neg h3, if_neg h4, if_neg h5, if_pos h6,
                    h.1, h.2.1, h.2.2.1, h.2.2.2]
                  simp [Option.filter]
                · simp only [if_neg h1, if_neg h2, if_neg h3, if_neg h4, if_neg h5, if_neg h6]
                  simp [Option.filter]


theorem foldl_rolloutStep_fields (env : RolloutEnv) (lines : List String) (st : RolloutState) :
    (lines.foldl (rolloutStep env) st).s.tokens
        = ((lines.filterMap (positiveSnapshotOfLine env)).getLast?).getD st.s.tokens
    ∧ (lines.foldl (rolloutStep env) st).lastTimestamp
        = ((lines.filterMap (lastStampOfLine env)).getLast?).getD st.lastTimestamp
    ∧ (lines.foldl (rolloutStep env) st).s.modelName
        = ((lines.filterMap (modelOfLine env)).getLast?).getD st.s.modelName
    ∧ (lines.foldl (rolloutStep env) st).s.endTime = st.s.endTime := by
  refine ⟨?_, ?_, ?_, ?_⟩
  · rw [foldl_proj (rolloutStep env) (fun st => st.s.tokens)
      (fun acc l => (positiveSnapshotOfLine env l).getD acc)
      (fun st l => (rolloutStep_fields env st l).1)]
    exact foldl_getD_eq_getLast _ _ _
  · rw [foldl_proj (rolloutStep env) (fun st => st.lastTimestamp)
      (fun acc l => (lastStampOfLine env l).getD acc)
      (fun st l => (rolloutStep_fields env st l).2.1)]
    exact foldl_getD_eq_getLast _ _ _
  · rw [foldl_proj (rolloutStep env) (fun st => st.s.modelName)
      (fun acc l => (modelOfLine env l).getD acc)
      (fun st l => (rolloutStep_fields env st l).2.2.1)]
    exact foldl_getD_eq_getLast _ _ _
  · rw [foldl_proj (rolloutStep env) (fun st => st.s.endTime) (fun acc _ => acc)
      (fun st l => (rolloutStep_fields env st l).2.2.2)]
    induction lines with
    | nil => rfl
    | cons x xs ih => exact ih

theorem finishRollout_fields (env : RolloutEnv) (st : RolloutState) :
    (finishRollout env st).tokens = st.s.tokens
    ∧ (finishRollout env st).modelName
        = (if st.s.modelName = "" then "codex-unknown" else st.s.modelName)
    ∧ (finishRollout env st).endTime
        = (if st.lastTimestamp = "" then st.s.endTime
           else (parseStamp env st.lastTimestamp).getD st.s.endTime) := by
  unfold finishRollout
  by_cases hf : st.firstTimestamp = "" <;> by_cases hl : st.lastTimestamp = "" <;>
    by_cases hm : st.s.modelName = "" <;>
    cases parseStamp env st.firstTimestamp <;> cases parseStamp env st.lastTimestamp <;>
    simp [hf, hl, hm]

theorem parseRolloutFile_ok (env : RolloutEnv) (dateKey : String) (lines : List String) :
    parseRolloutFile env dateKey (Except.ok lines)
      = Except.ok (finishRollout env (lines.foldl (rolloutStep env)
          { s := newCodexSession dateKey, firstTimestamp := "", lastTimestamp := "" })) := rfl

theorem getLast?_filterMap_split {α β : Type} (f : α → Option β) (before after : List α)
    (l : α) (b : β) (hl : f l = some b) (hafter : ∀ x ∈ after, f x = none) :
    ((before ++ l :: after).filterMap f).getLast? = some b := by
  have h0 : after.filterMap f = [] := by
    rw [List.filterMap_eq_nil_iff]
    exact hafter
  rw [List.filterMap_append, List.filterMap_cons, hl, h0]
  simp

set_option maxRecDepth 8000 in
/-- C24 fails as stated: the last `token_count` line of the file carries a
decodable snapshot (input 100, output 50, no `total_tokens` member), yet the
session keeps the earlier snapshot (input 10, output 5, total 15). -/
theorem parseRolloutFile_keeps_earlier_snapshot :
    ([lineSnap15, lineSnapNoTotal].filterMap (snapshotOfLine sampleRolloutEnv)).getLast?
      = some ⟨⟨100, 0, 50, 0, 0⟩⟩
    ∧ (parseRolloutFile sampleRolloutEnv "2025-11-01"
        (Except.ok [lineSnap15, lineSnapNoTotal])).toOption.map (fun s => s.tokens)
      = some ⟨⟨10, 0, 5, 0, 15⟩⟩ := by
  decide

/-- C24, amended: the token usage of the session returned by `parseRolloutFile`
is the snapshot of the last `event_msg` line of payload type `token_count`, in
file order, whose decodable `info` object has a positive `total_tokens` (the
zero value when the file has no such line); snapshots are never added, and a
snapshot whose `total_tokens` is not positive is ignored. -/
theorem parseRolloutFile_latest_positive_snapshot (env : RolloutEnv) (dateKey : String)
    (lines : List String) :
    ∃ s, parseRolloutFile env dateKey (Except.ok lines) = Except.ok s
      ∧ s.tokens
          = ((lines.filterMap (positiveSnapshotOfLine env)).getLast?).getD ⟨⟨0, 0, 0, 0, 0⟩⟩
      ∧ (∀ (before after : List String) (l : String) (info : codexTokenInfo),
          lines = before ++ l :: after →
          snapshotOfLine env l = some info →
          0 < info.TotalTokenUsage.TotalTokens →
          (∀ x ∈ after, ∀ later, snapshotOfLine env x = some later →
            later.TotalTokenUsage.TotalTokens ≤ 0) →
          s.tokens = info) := by
  have hT : (finishRollout env (lines.foldl (rolloutStep env)
      { s := newCodexSession dateKey, firstTimestamp := "", lastTimestamp := "" })).tokens
      = ((lines.filterMap (positiveSnapshotOfLine env)).getLast?).getD ⟨⟨0, 0, 0, 0, 0⟩⟩ := by
    rw [(finishRollout_fields env _).1, (foldl_rolloutStep_fields env lines _).1]
    rfl
  refine ⟨_, parseRolloutFile_ok env dateKey lines, hT, ?_⟩
  intro before after l info hsplit hl hpos hafter
  rw [hT, hsplit, getLast?_filterMap_split (positiveSnapshotOfLine env) before after l info]
  · rfl
  · unfold positiveSnapshotOfLine
    rw [hl]
    simp [Option.filter, hpos]
  · intro x hx
    unfold positiveSnapshotOfLine
    rcases Option.eq_none_or_eq_some (snapshotOfLine env x) with hn | ⟨later, hs⟩
    · rw [hn]
      rfl
    · rw [hs]
      have := hafter x hx later hs
      simp only [Option.filter, decide_eq_true_eq, ite_eq_right_iff, reduceCtorEq, imp_false,
        not_lt]
      exact this

set_option maxRecDepth 8000 in
/-- Witness of C24: of three snapshots (total 15, total 150, no total), the
session keeps the second. -/
theorem parseRolloutFile_latest_positive_snapshot_witness :
    ∃ s, parseRolloutFile sampleRolloutEnv "2025-11-01"
          (Except.ok [lineSnap15, lineSnap150, lineSnapNoTotal]) = Except.ok s
      ∧ s.tokens = ⟨⟨100, 0, 50, 0, 150⟩⟩ :=
  have h := parseRolloutFile_latest_positive_snapshot sampleRolloutEnv "2025-11-01"
    [lineSnap15, lineSnap150, lineSnapNoTotal]
  ⟨h.choose, h.choose_spec.1,
    h.choose_spec.2.2 [lineSnap15] [lineSnapNoTotal] lineSnap150 ⟨⟨100, 0, 50, 0, 150⟩⟩ rfl
      (by decide) (by decide)
      (by
        intro x hx later hs
        rw [List.mem_singleton] at hx
        subst hx
        have h0 : snapshotOfLine sampleRolloutEnv lineSnapNoTotal
            = some ⟨⟨100, 0, 50, 0, 0⟩⟩ := by decide
        rw [h0] at hs
        cases hs
        decide)⟩

set_option maxRecDepth 8000 in
/-- C26 fails as stated: of two `event_msg` lines stamped 12:00 and then 10:00,
both timestamps parseable, the session's `endTime` is 10:00, the timestamp of
the line that comes last in the file, not the latest one. -/
theorem parseRolloutFile_endTime_not_latest :
    stampTimes sampleRolloutEnv [lineSnap15, lineSnapNoTotal]
      = [⟨63897595200000000000⟩, ⟨63897588000000000000⟩]
    ∧ (parseRolloutFile sampleRolloutEnv "2025-11-01"
        (Except.ok [lineSnap15, lineSnapNoTotal])).toOption.map (fun s => s.endTime)
      = some ⟨63897588000000000000⟩ := by
  decide

/-- C26, amended: the `endTime` of the session returned by `parseRolloutFile` is
the parsed timestamp of the line that comes last in file order among the header
lines (`session_meta` or old-format header, whose timestamp may be empty) and
the `event_msg` lines with a non-empty timestamp, parsed as `RFC3339Nano` and
else as `RFC3339`; it is the zero time when the file has no such line or when
that timestamp is empty or does not parse. -/
theorem parseRolloutFile_endTime (env : RolloutEnv) (dateKey : String) (lines : List String) :
    ∃ s, parseRolloutFile env dateKey (Except.ok lines) = Except.ok s
      ∧ s.endTime
          = (match (lines.filterMap (lastStampOfLine env)).getLast? with
            | none => Time.zero
            | some stamp =>
              if stamp = "" then Time.zero else (parseStamp env stamp).getD Time.zero) := by
  refine ⟨_, parseRolloutFile_ok env dateKey lines, ?_⟩
  rw [(finishRollout_fields env _).2.2, (foldl_rolloutStep_fields env lines _).2.1,
    (foldl_rolloutStep_fields env lines _).2.2.2]
  cases (lines.filterMap (lastStampOfLine env)).getLast? with
  | none => rfl
  | some stamp => rfl

theorem codexSeenStep_Sessions (data : ProviderData) (s : codexSession) :
    (codexSeenStep data s).Sessions = data.Sessions := by
  unfold codexSeenStep codexLastSeen codexFirstSeen
  split_ifs <;> rfl

theorem foldl_codexLoadStep_Sessions (sessions : List codexSession) (st : CodexLoadState) :
    (sessions.foldl codexLoadStep st).data.Sessions
      = st.data.Sessions ++ sessions.map codexSessionInfo := by
  induction sessions generalizing st with
  | nil => simp
  | cons s ss ih =>
    rw [List.foldl_cons, ih]
    simp only [codexLoadStep, codexSeenStep_Sessions, List.map_cons, List.append_assoc,
      List.singleton_append]

theorem foldl_keep {α β : Type} (l : List α) (b : β) :
    l.foldl (fun acc _ => acc) b = b := by
  induction l with
  | nil => rfl
  | cons x xs ih => exact ih

theorem codexLoadSessions_Sessions
    (visitModels : List (String × ModelBreakdown) → List (String × ModelBreakdown))
    (visitDaily : List (String × DailyUsage) → List (String × DailyUsage))
    (sortDaily : List DailyUsage → List DailyUsage) (sessions : List codexSession) :
    (codexLoadSessions visitModels visitDaily sortDaily sessions).Sessions
      = sessions.map codexSessionInfo := by
  unfold codexLoadSessions
  simp only
  rw [foldl_proj (fun (data : ProviderData) (e : String × DailyUsage) =>
        { data with DailyUsage := data.DailyUsage ++ [e.2] })
      (fun data => data.Sessions) (fun acc _ => acc) (fun _ _ => rfl),
    foldl_keep,
    foldl_proj (fun (data : ProviderData) (e : String × ModelBreakdown) =>
        { data with Models := data.Models ++ [e.2] })
      (fun data => data.Sessions) (fun acc _ => acc) (fun _ _ => rfl),
    foldl_keep, foldl_codexLoadStep_Sessions]
  rfl

theorem modelOfLine_of_snapshot (env : RolloutEnv) (l : String) (info : codexTokenInfo)
    (h : snapshotOfLine env l = some info) : modelOfLine env l = none := by
  unfold snapshotOfLine eventOfLine at h
  unfold modelOfLine
  by_cases he : l.utf8ByteSize = 0
  · rw [if_pos he]
  · rw [if_neg he] at h ⊢
    rcases Option.eq_none_or_eq_some (env.peek l) with hp | ⟨peek, hp⟩
    · simp only [hp]
    · simp only [hp] at h ⊢
      by_cases h4 : peek.Typ = "event_msg"
      · have e : ¬ peek.Typ = "turn_context" := by rw [h4]; decide
        rw [if_neg e]
      · rw [if_neg h4] at h
        simp at h

set_option maxRecDepth 8000 in
/-- A snapshot that carries no `total_tokens` member is left out by the guard
of line 323: after `turn_context` lines naming `gpt-4o` and then `gpt-4.1`, the
session's model is `gpt-4.1` and the session costs nothing, while
`CalculateCost("gpt-4.1", input 100, output 50)` is positive. -/
theorem Codex_Load_ignores_snapshot_without_total :
    snapshotOfLine sampleRolloutEnv lineSnapNoTotal = some ⟨⟨100, 0, 50, 0, 0⟩⟩
    ∧ (Codex.Load sampleRolloutEnv id id id
        [⟨"2025-11-01", Except.ok [lineTurnA, lineTurnB, lineSnapNoTotal]⟩]).Sessions.map
          (fun si => (si.Model, si.Cost)) = [("gpt-4.1", 0)]
    ∧ CalculateCost "gpt-4.1" ⟨100, 50, 0, 0⟩ ≠ 0 := by
  have hp : GetPricing "gpt-4.1" = (⟨2.0, 8.0, 0, 0⟩, true) := rfl
  refine ⟨by decide, ?_, ?_⟩
  · have hs : parseSessions sampleRolloutEnv
        [⟨"2025-11-01", Except.ok [lineTurnA, lineTurnB, lineSnapNoTotal]⟩]
        = [{ id := "", project := "", modelName := "gpt-4.1", startTime := Time.zero
             endTime := ⟨63897588000000000000⟩, messages := 0, userMessages := 0
             tokens := ⟨⟨0, 0, 0, 0, 0⟩⟩, dateKey := "2025-11-01" }] := by
      decide
    unfold Codex.Load
    rw [codexLoadSessions_Sessions, hs]
    simp only [List.map_cons, List.map_nil, codexSessionInfo, codexCost, codexOutputTokens]
    rw [CalculateCost_of_found hp]
    norm_num [wrapInt64]
  · rw [CalculateCost_of_found hp]
    norm_num
theorem modelOfLine_ne_empty (env : RolloutEnv) (l m : String)
    (h : modelOfLine env l = some m) : m ≠ "" := by
  unfold modelOfLine at h
  by_cases he : l.utf8ByteSize = 0
  · rw [if_pos he] at h
    cases h
  · rw [if_neg he] at h
    rcases Option.eq_none_or_eq_some (env.peek l) with hp | ⟨peek, hp⟩
    · simp only [hp] at h
      cases h
    · simp only [hp] at h
      by_cases h3 : peek.Typ = "turn_context"
      · rw [if_pos h3] at h
        rcases Option.eq_none_or_eq_some (env.turnContext l) with ht | ⟨tc, ht⟩
        · simp [ht, Option.filter] at h
        · simp only [ht, Option.map_some', Option.filter] at h
          by_cases hm : tc.Payload.Model = ""
          · simp [hm] at h
          · simp only [ne_eq, hm, not_false_eq_true, decide_True, if_true, Option.some.injEq] at h
            rw [← h]
            exact hm
      · rw [if_neg h3] at h
        cases h

theorem parseSessions_single (env : RolloutEnv) (dateKey : String) (lines : List String) :
    parseSessions env [⟨dateKey, Except.ok lines⟩]
      = [finishRollout env (lines.foldl (rolloutStep env)
          { s := newCodexSession dateKey, firstTimestamp := "", lastTimestamp := "" })] := rfl

/-- C25: for a rollout file holding a `turn_context` line naming model `A`, a
later `turn_context` line naming model `B`, the last of the file to name a
model, and then a final cumulative `token_count` snapshot with input 100 and
output 50 (no cached or reasoning tokens, and a positive `total_tokens`, 150 in
a snapshot as Codex writes it), whatever other lines stand between and around
them, `parseRolloutFile` reports the model `B` and `Codex.Load` gives the
session the cost `CalculateCost(B, input 100, output 50)`, priced entirely at
the rates of `B`. -/
theorem Codex_Load_prices_last_model (env : RolloutEnv)
    (visitModels : List (String × ModelBreakdown) → List (String × ModelBreakdown))
    (visitDaily : List (String × DailyUsage) → List (String × DailyUsage))
    (sortDaily : List DailyUsage → List DailyUsage)
    (dateKey : String) (l1 l2 l3 l4 : List String) (tcA tcB snap A B : String)
    (info : codexTokenInfo)
    (_hA : modelOfLine env tcA = some A) (hB : modelOfLine env tcB = some B)
    (h3 : ∀ x ∈ l3, modelOfLine env x = none) (h4 : ∀ x ∈ l4, modelOfLine env x = none)
    (hsnap : snapshotOfLine env snap = some info)
    (hin : info.TotalTokenUsage.InputTokens = 100)
    (hout : info.TotalTokenUsage.OutputTokens = 50)
    (hcached : info.TotalTokenUsage.CachedInputTokens = 0)
    (hreason : info.TotalTokenUsage.ReasoningOutputTokens = 0)
    (htotal : 0 < info.TotalTokenUsage.TotalTokens)
    (hfinal : ∀ x ∈ l4, snapshotOfLine env x = none) :
    ∃ s, parseRolloutFile env dateKey
          (Except.ok ((l1 ++ tcA :: l2) ++ tcB :: (l3 ++ snap :: l4))) = Except.ok s
      ∧ s.modelName = B
      ∧ (Codex.Load env visitModels visitDaily sortDaily
          [⟨dateKey, Except.ok ((l1 ++ tcA :: l2) ++ tcB :: (l3 ++ snap :: l4))⟩]).Sessions.map
            (fun si => (si.Model, si.Cost)) = [(B, CalculateCost B ⟨100, 50, 0, 0⟩)] := by
  have hmodel : ((((l1 ++ tcA :: l2) ++ tcB :: (l3 ++ snap :: l4))).filterMap
      (modelOfLine env)).getLast? = some B := by
    apply getLast?_filterMap_split _ _ _ _ _ hB
    intro x hx
    rcases List.mem_append.1 hx with h | h
    · exact h3 x h
    · rcases List.mem_cons.1 h with h | h
      · rw [h]
        exact modelOfLine_of_snapshot env snap info hsnap
      · exact h4 x h
  have hpos : positiveSnapshotOfLine env snap = some info := by
    unfold positiveSnapshotOfLine
    rw [hsnap]
    simp [Option.filter, htotal]
  have htok : ((((l1 ++ tcA :: l2) ++ tcB :: (l3 ++ snap :: l4))).filterMap
      (positiveSnapshotOfLine env)).getLast? = some info := by
    have e : (l1 ++ tcA :: l2) ++ tcB :: (l3 ++ snap :: l4)
        = ((l1 ++ tcA :: l2) ++ tcB :: l3) ++ snap :: l4 := by simp
    rw [e]
    apply getLast?_filterMap_split _ _ _ _ _ hpos
    intro x hx
    unfold positiveSnapshotOfLine
    rw [hfinal x hx]
    rfl
  have hname : (finishRollout env
      (((l1 ++ tcA :: l2) ++ tcB :: (l3 ++ snap :: l4)).foldl (rolloutStep env)
        { s := newCodexSession dateKey, firstTimestamp := "", lastTimestamp := "" })).modelName
      = B := by
    rw [(finishRollout_fields env _).2.1, (foldl_rolloutStep_fields env _ _).2.2.1, hmodel,
      Option.getD_some, if_neg (modelOfLine_ne_empty env tcB B hB)]
  have htokens : (finishRollout env
      (((l1 ++ tcA :: l2) ++ tcB :: (l3 ++ snap :: l4)).foldl (rolloutStep env)
        { s := newCodexSession dateKey, firstTimestamp := "", lastTimestamp := "" })).tokens
      = info := by
    rw [(finishRollout_fields env _).1, (foldl_rolloutStep_fields env _ _).1, htok,
      Option.getD_some]
  refine ⟨_, parseRolloutFile_ok env dateKey _, hname, ?_⟩
  unfold Codex.Load
  rw [codexLoadSessions_Sessions, parseSessions_single]
  simp only [List.map_cons, List.map_nil, codexSessionInfo, codexCost, codexOutputTokens,
    hname, htokens, hin, hout, hcached, hreason]
  have hw : wrapInt64 (50 + 0) = 50 := by decide
  rw [hw]

set_option maxRecDepth 8000 in
/-- Witness of C25: `turn_context` lines naming `gpt-4o` and then `gpt-4.1`,
followed by the snapshot with input 100, output 50 and total 150. -/
theorem Codex_Load_prices_last_model_witness :
    ∃ s, parseRolloutFile sampleRolloutEnv "2025-11-01"
          (Except.ok (([] ++ lineTurnA :: []) ++ lineTurnB :: ([] ++ lineSnap150 :: [])))
          = Except.ok s
      ∧ s.modelName = "gpt-4.1"
      ∧ (Codex.Load sampleRolloutEnv id id id
          [⟨"2025-11-01",
            Except.ok (([] ++ lineTurnA :: []) ++ lineTurnB :: ([] ++ lineSnap150 :: []))⟩]
          ).Sessions.map (fun si => (si.Model, si.Cost))
        = [("gpt-4.1", CalculateCost "gpt-4.1" ⟨100, 50, 0, 0⟩)] :=
  Codex_Load_prices_last_model sampleRolloutEnv id id id "2025-11-01" [] [] [] []
    lineTurnA lineTurnB lineSnap150 "gpt-4o" "gpt-4.1" ⟨⟨100, 0, 50, 0, 150⟩⟩
    (by decide) (by decide) (by simp) (by simp) (by decide) rfl rfl rfl rfl (by decide)
    (by simp)

/-! ## Gemini sessions -/

theorem geminiMsgStep_maps (st : GeminiScan) (msg : geminiMessage) :
    (geminiMsgStep st msg).sessionModelTokens
        = (match geminiBillable msg with
          | some t => addSessionTokens st.sessionModelTokens (geminiModelName msg) t
          | none => st.sessionModelTokens)
    ∧ (geminiMsgStep st msg).modelAgg
        = (match geminiBillable msg with
          | some t => addModelAgg st.modelAgg (geminiModelName msg) t
          | none => st.modelAgg) := by
  unfold geminiMsgStep geminiBillable
  by_cases hu : msg.Typ = "user"
  · have hg : ¬ msg.Typ = "gemini" := by rw [hu]; decide
    rw [if_pos hu, if_neg hg]
    exact ⟨rfl, rfl⟩
  · rw [if_neg hu]
    by_cases hg : msg.Typ = "gemini"
    · have hg2 : ¬ msg.Typ ≠ "gemini" := fun h => h hg
      rw [if_neg hg2, if_pos hg]
      rcases Option.eq_none_or_eq_some msg.Tokens with ht | ⟨t, ht⟩
      · simp only [ht]
        exact ⟨trivial, trivial⟩
      · simp only [ht]
        exact ⟨rfl, rfl⟩
    · have hg2 : msg.Typ ≠ "gemini" := hg
      rw [if_pos hg2, if_neg hg]
      exact ⟨rfl, rfl⟩

theorem foldl_geminiMsgStep_maps (msgs : List geminiMessage) (st : GeminiScan) :
    (msgs.foldl geminiMsgStep st).sessionModelTokens
        = (geminiPriced msgs).foldl (fun acc e => addSessionTokens acc e.1 e.2)
            st.sessionModelTokens
    ∧ (msgs.foldl geminiMsgStep st).modelAgg
        = (geminiPriced msgs).foldl (fun acc e => addModelAgg acc e.1 e.2) st.modelAgg := by
  induction msgs generalizing st with
  | nil => exact ⟨rfl, rfl⟩
  | cons msg rest ih =>
    rw [List.foldl_cons, (ih _).1, (ih _).2, (geminiMsgStep_maps st msg).1,
      (geminiMsgStep_maps st msg).2]
    unfold geminiPriced
    rw [List.filterMap_cons]
    rcases Option.eq_none_or_eq_some (geminiBillable msg) with hb | ⟨t, hb⟩
    · simp only [hb, Option.map_none']
      exact ⟨trivial, trivial⟩
    · simp only [hb, Option.map_some', List.foldl_cons]
      exact ⟨trivial, trivial⟩

theorem keyed_keys {V X : Type} (init : String → V) (add : V → X → V)
    (xs : List (String × X)) (map : List (String × V)) :
    (xs.foldl (fun acc e => mapInsert acc e.1 (add ((acc.lookup e.1).getD (init e.1)) e.2))
        map).map Prod.fst
      = (xs.map Prod.fst).foldl (fun acc m => if m ∈ acc then acc else acc ++ [m])
          (map.map Prod.fst) := by
  induction xs generalizing map with
  | nil => rfl
  | cons e rest ih =>
    rw [List.foldl_cons, ih, keys_mapInsert, List.map_cons, List.foldl_cons]

theorem keyed_nodup {V X : Type} (init : String → V) (add : V → X → V)
    (xs : List (String × X)) (map : List (String × V)) (h : (map.map Prod.fst).Nodup) :
    ((xs.foldl (fun acc e => mapInsert acc e.1 (add ((acc.lookup e.1).getD (init e.1)) e.2))
        map).map Prod.fst).Nodup := by
  induction xs generalizing map with
  | nil => exact h
  | cons e rest ih =>
    rw [List.foldl_cons]
    exact ih _ (nodup_keys_mapInsert map e.1 _ h)

theorem keyed_lookup {V X : Type} (init : String → V) (add : V → X → V)
    (xs : List (String × X)) (map : List (String × V)) (k : String) :
    ((xs.foldl (fun acc e => mapInsert acc e.1 (add ((acc.lookup e.1).getD (init e.1)) e.2))
        map).lookup k).getD (init k)
      = (xs.filter (fun e => e.1 = k)).foldl (fun v e => add v e.2)
          ((map.lookup k).getD (init k)) := by
  induction xs generalizing map with
  | nil => rfl
  | cons e rest ih =>
    rw [List.foldl_cons, ih, List.filter_cons]
    by_cases hk : e.1 = k
    · simp only [hk, decide_True, if_true, List.foldl_cons, lookup_mapInsert_self,
        Option.getD_some]
    · simp only [hk, decide_False, Bool.false_eq_true, if_false]
      rw [lookup_mapInsert_of_ne map _ hk]

theorem keys_foldl_mem (ms : List String) (acc : List String) (k : String) :
    k ∈ ms.foldl (fun acc m => if m ∈ acc then acc else acc ++ [m]) acc
      ↔ k ∈ acc ∨ k ∈ ms := by
  induction ms generalizing acc with
  | nil => simp
  | cons m rest ih =>
    rw [List.foldl_cons, ih]
    by_cases hm : m ∈ acc
    · rw [if_pos hm, List.mem_cons]
      constructor
      · rintro (h | h)
        · exact Or.inl h
        · exact Or.inr (Or.inr h)
      · rintro (h | h | h)
        · exact Or.inl h
        · exact Or.inl (h ▸ hm)
        · exact Or.inr h
    · rw [if_neg hm, List.mem_append, List.mem_singleton, List.mem_cons]
      tauto

theorem lookup_isSome_of_mem_keys {V : Type} (map : List (String × V)) (k : String)
    (h : k ∈ map.map Prod.fst) : ∃ v, map.lookup k = some v := by
  induction map with
  | nil => simp at h
  | cons e rest ih =>
    rw [show e = (e.1, e.2) from rfl, List.lookup_cons]
    by_cases hk : k = e.1
    · exact ⟨e.2, by simp [hk]⟩
    · have hb : (k == e.1) = false := by rw [beq_eq_false_iff_ne]; exact hk
      rw [hb]
      rw [List.map_cons, List.mem_cons] at h
      rcases h with h | h
      · exact absurd h hk
      · exact ih h

theorem map_eq_of_values {V : Type} (map : List (String × V)) (h : (map.map Prod.fst).Nodup)
    (F : String → V) (hF : ∀ k ∈ map.map Prod.fst, map.lookup k = some (F k))
    (g : String → V → ℚ) :
    map.map (fun e => g e.1 e.2) = (map.map Prod.fst).map (fun k => g k (F k)) := by
  rw [List.map_map]
  apply List.map_congr_left
  intro e he
  have h1 : map.lookup e.1 = some e.2 := (mem_iff_lookup map h e.1 e.2).1 he
  have h2 := hF e.1 (List.mem_map_of_mem Prod.fst he)
  rw [h1] at h2
  simp only [Function.comp, Option.some.injEq] at h2 ⊢
  rw [h2]

theorem foldl_tokensPlus (l : List (String × geminiTokens)) (v : TokenUsage) :
    (l.foldl (fun v e => tokensPlus v e.2) v).InputTokens
        = l.foldl (fun acc e => wrapInt64 (acc + e.2.Input)) v.InputTokens
    ∧ (l.foldl (fun v e => tokensPlus v e.2) v).OutputTokens
        = l.foldl (fun acc e => wrapInt64 (acc + e.2.Output)) v.OutputTokens
    ∧ (l.foldl (fun v e => tokensPlus v e.2) v).CacheRead
        = l.foldl (fun acc e => wrapInt64 (acc + e.2.Cached)) v.CacheRead
    ∧ (l.foldl (fun v e => tokensPlus v e.2) v).CacheWrite = v.CacheWrite := by
  induction l generalizing v with
  | nil => exact ⟨rfl, rfl, rfl, rfl⟩
  | cons e rest ih =>
    simp only [List.foldl_cons]
    exact ih (tokensPlus v e.2)

theorem foldl_breakdownPlus (l : List (String × geminiTokens)) (v : ModelBreakdown) :
    (l.foldl (fun v e => breakdownPlus v e.2) v).InputTokens
        = l.foldl (fun acc e => wrapInt64 (acc + e.2.Input)) v.InputTokens
    ∧ (l.foldl (fun v e => breakdownPlus v e.2) v).OutputTokens
        = l.foldl (fun acc e => wrapInt64 (acc + e.2.Output)) v.OutputTokens
    ∧ (l.foldl (fun v e => breakdownPlus v e.2) v).CacheRead
        = l.foldl (fun acc e => wrapInt64 (acc + e.2.Cached)) v.CacheRead := by
  induction l generalizing v with
  | nil => exact ⟨rfl, rfl, rfl⟩
  | cons e rest ih =>
    simp only [List.foldl_cons]
    exact ih (breakdownPlus v e.2)

theorem foldl_tokensPlus_eq_usage (msgs : List geminiMessage) (m : String) :
    ((geminiPriced msgs).filter (fun e => e.1 = m)).foldl (fun v e => tokensPlus v e.2)
        ⟨0, 0, 0, 0⟩
      = geminiUsage msgs m := by
  have h := foldl_tokensPlus ((geminiPriced msgs).filter (fun e => e.1 = m)) ⟨0, 0, 0, 0⟩
  have e1 := foldl_wrapInt64_zero (fun e : String × geminiTokens => e.2.Input)
    ((geminiPriced msgs).filter (fun e => e.1 = m))
  have e2 := foldl_wrapInt64_zero (fun e : String × geminiTokens => e.2.Output)
    ((geminiPriced msgs).filter (fun e => e.1 = m))
  have e3 := foldl_wrapInt64_zero (fun e : String × geminiTokens => e.2.Cached)
    ((geminiPriced msgs).filter (fun e => e.1 = m))
  rcases hf : ((geminiPriced msgs).filter (fun e => e.1 = m)).foldl
      (fun v e => tokensPlus v e.2) ⟨0, 0, 0, 0⟩ with ⟨a, b, c, d⟩
  rw [hf] at h
  simp only at h
  obtain ⟨h1, h2, h3, h4⟩ := h
  unfold geminiUsage geminiCount
  rw [hf, h1, h2, h3, h4, e1, e2, e3]

theorem finishModel_foldl_breakdownPlus (msgs : List geminiMessage) (m : String) :
    CalculateCost m
        { InputTokens := (((geminiPriced msgs).filter (fun e => e.1 = m)).foldl
              (fun v e => breakdownPlus v e.2) ⟨m, 0, 0, 0, 0, 0, 0⟩).InputTokens
          OutputTokens := (((geminiPriced msgs).filter (fun e => e.1 = m)).foldl
              (fun v e => breakdownPlus v e.2) ⟨m, 0, 0, 0, 0, 0, 0⟩).OutputTokens
          CacheRead := (((geminiPriced msgs).filter (fun e => e.1 = m)).foldl
              (fun v e => breakdownPlus v e.2) ⟨m, 0, 0, 0, 0, 0, 0⟩).CacheRead
          CacheWrite := 0 }
      = CalculateCost m (geminiUsage msgs m) := by
  have h := foldl_breakdownPlus ((geminiPriced msgs).filter (fun e => e.1 = m))
    ⟨m, 0, 0, 0, 0, 0, 0⟩
  have e1 := foldl_wrapInt64_zero (fun e : String × geminiTokens => e.2.Input)
    ((geminiPriced msgs).filter (fun e => e.1 = m))
  have e2 := foldl_wrapInt64_zero (fun e : String × geminiTokens => e.2.Output)
    ((geminiPriced msgs).filter (fun e => e.1 = m))
  have e3 := foldl_wrapInt64_zero (fun e : String × geminiTokens => e.2.Cached)
    ((geminiPriced msgs).filter (fun e => e.1 = m))
  rw [h.1, h.2.1, h.2.2]
  unfold geminiUsage geminiCount
  simp only at e1 e2 e3 ⊢
  rw [e1, e2, e3]

theorem geminiModels_eq_keys (msgs : List geminiMessage) :
    geminiModels msgs
      = ((geminiPriced msgs).map Prod.fst).foldl
          (fun acc m => if m ∈ acc then acc else acc ++ [m]) [] := rfl

theorem sessionTokens_cost (msgs : List geminiMessage) :
    (((geminiPriced msgs).foldl (fun acc e => addSessionTokens acc e.1 e.2) []).map
        (fun e => CalculateCost e.1 e.2)).sum
      = geminiCostOf msgs := by
  have hk := keyed_keys (fun _ => (⟨0, 0, 0, 0⟩ : TokenUsage)) tokensPlus (geminiPriced msgs) []
  have hn := keyed_nodup (fun _ => (⟨0, 0, 0, 0⟩ : TokenUsage)) tokensPlus (geminiPriced msgs) []
    List.nodup_nil
  have hl := keyed_lookup (fun _ => (⟨0, 0, 0, 0⟩ : TokenUsage)) tokensPlus (geminiPriced msgs) []
  have hfold : (geminiPriced msgs).foldl (fun acc e => addSessionTokens acc e.1 e.2) []
      = (geminiPriced msgs).foldl (fun acc e => mapInsert acc e.1
          (tokensPlus ((acc.lookup e.1).getD ⟨0, 0, 0, 0⟩) e.2)) [] := rfl
  rw [hfold, map_eq_of_values _ hn (geminiUsage msgs) _ (fun k v => CalculateCost k v), hk]
  · rfl
  · intro k hkk
    obtain ⟨v, hv⟩ := lookup_isSome_of_mem_keys _ k hkk
    have := hl k
    rw [hv, Option.getD_some] at this
    rw [hv, this]
    exact congrArg some (foldl_tokensPlus_eq_usage msgs k)

theorem modelAgg_cost (msgs : List geminiMessage) :
    (((geminiPriced msgs).foldl (fun acc e => addModelAgg acc e.1 e.2) []).map
        (fun e => (geminiFinishModel e).Cost)).sum
      = geminiCostOf msgs := by
  have hk := keyed_keys (fun m => (⟨m, 0, 0, 0, 0, 0, 0⟩ : ModelBreakdown)) breakdownPlus
    (geminiPriced msgs) []
  have hn := keyed_nodup (fun m => (⟨m, 0, 0, 0, 0, 0, 0⟩ : ModelBreakdown)) breakdownPlus
    (geminiPriced msgs) [] List.nodup_nil
  have hl := keyed_lookup (fun m => (⟨m, 0, 0, 0, 0, 0, 0⟩ : ModelBreakdown)) breakdownPlus
    (geminiPriced msgs) []
  have hfold : (geminiPriced msgs).foldl (fun acc e => addModelAgg acc e.1 e.2) []
      = (geminiPriced msgs).foldl (fun acc e => mapInsert acc e.1
          (breakdownPlus ((acc.lookup e.1).getD ⟨e.1, 0, 0, 0, 0, 0, 0⟩) e.2)) [] := rfl
  rw [hfold, map_eq_of_values _ hn
    (fun k => ((geminiPriced msgs).filter (fun e => e.1 = k)).foldl
      (fun v e => breakdownPlus v e.2) ⟨k, 0, 0, 0, 0, 0, 0⟩) _
    (fun k v => (geminiFinishModel (k, v)).Cost), hk]
  · unfold geminiCostOf
    rw [geminiModels_eq_keys]
    apply congrArg List.sum
    apply List.map_congr_left
    intro m _
    exact finishModel_foldl_breakdownPlus msgs m
  · intro k hkk
    obtain ⟨v, hv⟩ := lookup_isSome_of_mem_keys _ k hkk
    have := hl k
    rw [hv, Option.getD_some] at this
    rw [hv, this]
    rfl

theorem geminiScan_maps (agg : List (String × ModelBreakdown)) (sess : geminiSession) :
    (geminiScan agg sess).sessionModelTokens
        = (geminiPriced sess.Messages).foldl (fun acc e => addSessionTokens acc e.1 e.2) []
    ∧ (geminiScan agg sess).modelAgg
        = (geminiPriced sess.Messages).foldl (fun acc e => addModelAgg acc e.1 e.2) agg :=
  foldl_geminiMsgStep_maps sess.Messages _

theorem geminiSessionCost_eq (env : GeminiEnv) (hv : ∀ m, (env.visitTokens m).Perm m)
    (agg : List (String × ModelBreakdown)) (sess : geminiSession) :
    geminiSessionCost env (geminiScan agg sess) = geminiCostOf sess.Messages := by
  unfold geminiSessionCost
  rw [foldl_add_eq_sum (fun e : String × TokenUsage => CalculateCost e.1 e.2), zero_add,
    ((hv _).map _).sum_eq, (geminiScan_maps agg sess).1]
  exact sessionTokens_cost sess.Messages

theorem geminiSeen_fields (data : ProviderData) (t u : Time) :
    (geminiLastSeen (geminiFirstSeen data t) u).Sessions = data.Sessions
    ∧ (geminiLastSeen (geminiFirstSeen data t) u).TotalCost = data.TotalCost := by
  unfold geminiLastSeen geminiFirstSeen
  split_ifs <;> exact ⟨rfl, rfl⟩

theorem geminiSessionStep_fields (env : GeminiEnv) (st : GeminiLoadState)
    (sess : geminiSession) :
    (geminiSessionStep env st sess).modelAgg
        = (geminiPriced sess.Messages).foldl (fun acc e => addModelAgg acc e.1 e.2) st.modelAgg
    ∧ (geminiSessionStep env st sess).data.Sessions
        = st.data.Sessions ++ [geminiSessionInfo env sess (geminiScan st.modelAgg sess)]
    ∧ (geminiSessionStep env st sess).data.TotalCost
        = st.data.TotalCost + geminiSessionCost env (geminiScan st.modelAgg sess) := by
  refine ⟨(geminiScan_maps st.modelAgg sess).2, ?_, ?_⟩
  · unfold geminiSessionStep
    simp only
    rw [(geminiSeen_fields _ _ _).1]
    rfl
  · unfold geminiSessionStep
    simp only
    rw [(geminiSeen_fields _ _ _).2]
    rfl

theorem geminiPriced_append (a b : List geminiMessage) :
    geminiPriced (a ++ b) = geminiPriced a ++ geminiPriced b := by
  unfold geminiPriced
  exact List.filterMap_append _ _ _

theorem geminiAllMessages_cons (sess : geminiSession) (rest : List geminiSession) :
    geminiAllMessages (sess :: rest) = sess.Messages ++ geminiAllMessages rest := by
  unfold geminiAllMessages
  simp

theorem foldl_geminiSessionStep (env : GeminiEnv) (hv : ∀ m, (env.visitTokens m).Perm m)
    (sessions : List geminiSession) (st : GeminiLoadState) :
    (sessions.foldl (geminiSessionStep env) st).modelAgg
        = (geminiPriced (geminiAllMessages sessions)).foldl
            (fun acc e => addModelAgg acc e.1 e.2) st.modelAgg
    ∧ (sessions.foldl (geminiSessionStep env) st).data.Sessions.map (fun si => si.Cost)
        = st.data.Sessions.map (fun si => si.Cost)
            ++ sessions.map (fun sess => geminiCostOf sess.Messages)
    ∧ (sessions.foldl (geminiSessionStep env) st).data.TotalCost
        = st.data.TotalCost + (sessions.map (fun sess => geminiCostOf sess.Messages)).sum := by
  induction sessions generalizing st with
  | nil => simp [geminiAllMessages, geminiPriced]
  | cons sess rest ih =>
    have hs := geminiSessionStep_fields env st sess
    obtain ⟨i1, i2, i3⟩ := ih (geminiSessionStep env st sess)
    rw [List.foldl_cons]
    refine ⟨?_, ?_, ?_⟩
    · rw [i1, hs.1, geminiAllMessages_cons, geminiPriced_append, List.foldl_append]
    · rw [i2, hs.2.1, List.map_append, List.map_cons, List.map_nil, List.map_cons,
        List.append_assoc, List.singleton_append]
      simp only [geminiSessionInfo, geminiSessionCost_eq env hv]
    · rw [i3, hs.2.2, geminiSessionCost_eq env hv, List.map_cons, List.sum_cons, add_assoc]

theorem geminiLoadSessions_costs (env : GeminiEnv) (hv : ∀ m, (env.visitTokens m).Perm m)
    (sessions : List geminiSession) :
    (geminiLoadSessions env sessions).Sessions.map (fun si => si.Cost)
        = sessions.map (fun sess => geminiCostOf sess.Messages)
    ∧ (geminiLoadSessions env sessions).TotalCost
        = (sessions.map (fun sess => geminiCostOf sess.Messages)).sum := by
  obtain ⟨-, h2, h3⟩ := foldl_geminiSessionStep env hv sessions
    { data :=
        { ProviderName := "Gemini", Icon := "✦", Color := "#74c7ec", TotalCost := 0
          DailyUsage := [], Models := [], Sessions := [], Generations := 0
          FirstSeen := Time.zero, LastSeen := Time.zero, Metadata := [] }
      modelAgg := []
      dailyAgg := [] }
  unfold geminiLoadSessions
  simp only
  refine ⟨?_, ?_⟩
  · rw [h2]
    rfl
  · rw [h3]
    simp

theorem geminiLoadSessions_models (env : GeminiEnv) (hv : ∀ m, (env.visitTokens m).Perm m)
    (hm : ∀ m, (env.visitModels m).Perm m) (hs : ∀ l, (env.sortModels l).Perm l)
    (sessions : List geminiSession) :
    ((geminiLoadSessions env sessions).Models.map (fun mb => mb.Cost)).sum
      = geminiCostOf (geminiAllMessages sessions) := by
  obtain ⟨h1, -, -⟩ := foldl_geminiSessionStep env hv sessions
    { data :=
        { ProviderName := "Gemini", Icon := "✦", Color := "#74c7ec", TotalCost := 0
          DailyUsage := [], Models := [], Sessions := [], Generations := 0
          FirstSeen := Time.zero, LastSeen := Time.zero, Metadata := [] }
      modelAgg := []
      dailyAgg := [] }
  unfold geminiLoadSessions
  simp only
  rw [((hs _).map _).sum_eq, List.map_map, ((hm _).map _).sum_eq, h1]
  exact modelAgg_cost (geminiAllMessages sessions)

theorem CalculateCost_fields_add (m : String) (a b c a' b' c' : Int) :
    CalculateCost m ⟨a + a', b + b', c + c', 0⟩
      = CalculateCost m ⟨a, b, c, 0⟩ + CalculateCost m ⟨a', b', c', 0⟩ := by
  rcases hg : GetPricing m with ⟨p, ok⟩
  cases ok
  · have h : (GetPricing m).2 = false := by rw [hg]
    simp only [CalculateCost_of_not_found h, add_zero]
  · simp only [CalculateCost_of_found hg, Int.cast_add]
    ring

theorem CalculateCost_zero (m : String) : CalculateCost m ⟨0, 0, 0, 0⟩ = 0 := by
  rcases hg : GetPricing m with ⟨p, ok⟩
  cases ok
  · have h : (GetPricing m).2 = false := by rw [hg]
    exact CalculateCost_of_not_found h _
  · simp only [CalculateCost_of_found hg]
    simp

theorem sum_ite_of_nodup (ms : List String) (hn : ms.Nodup) (k : String) (hk : k ∈ ms)
    (c : ℚ) : (ms.map (fun m => if k = m then c else 0)).sum = c := by
  induction ms with
  | nil => simp at hk
  | cons x xs ih =>
    rw [List.nodup_cons] at hn
    rw [List.map_cons, List.sum_cons]
    by_cases hx : k = x
    · have hz : (xs.map (fun m => if k = m then c else 0)).sum = 0 := by
        apply List.sum_eq_zero
        intro y hy
        rw [List.mem_map] at hy
        obtain ⟨m, hm, rfl⟩ := hy
        have : k ≠ m := fun h => hn.1 (hx ▸ h ▸ hm)
        rw [if_neg this]
      rw [if_pos hx, hz, add_zero]
    · rw [if_neg hx, zero_add]
      rcases List.mem_cons.1 hk with h | h
      · exact absurd h hx
      · exact ih hn.2 h

theorem exact_cost_sum (P : List (String × geminiTokens)) (ms : List String) (hn : ms.Nodup)
    (hsub : ∀ e ∈ P, e.1 ∈ ms) :
    (ms.map (fun m => CalculateCost m
        { InputTokens := ((P.filter (fun e => e.1 = m)).map (fun e => e.2.Input)).sum
          OutputTokens := ((P.filter (fun e => e.1 = m)).map (fun e => e.2.Output)).sum
          CacheRead := ((P.filter (fun e => e.1 = m)).map (fun e => e.2.Cached)).sum
          CacheWrite := 0 })).sum
      = (P.map geminiMessageCost).sum := by
  induction P with
  | nil =>
    simp only [List.filter_nil, List.map_nil, List.sum_nil]
    apply List.sum_eq_zero
    intro y hy
    rw [List.mem_map] at hy
    obtain ⟨m, -, rfl⟩ := hy
    exact CalculateCost_zero m
  | cons e rest ih =>
    have hstep : ∀ m, CalculateCost m
        { InputTokens := (((e :: rest).filter (fun e => e.1 = m)).map (fun e => e.2.Input)).sum
          OutputTokens := (((e :: rest).filter (fun e => e.1 = m)).map (fun e => e.2.Output)).sum
          CacheRead := (((e :: rest).filter (fun e => e.1 = m)).map (fun e => e.2.Cached)).sum
          CacheWrite := 0 }
        = (if e.1 = m then geminiMessageCost e else 0)
          + CalculateCost m
            { InputTokens := ((rest.filter (fun e => e.1 = m)).map (fun e => e.2.Input)).sum
              OutputTokens := ((rest.filter (fun e => e.1 = m)).map (fun e => e.2.Output)).sum
              CacheRead := ((rest.filter (fun e => e.1 = m)).map (fun e => e.2.Cached)).sum
              CacheWrite := 0 } := by
      intro m
      by_cases hm : e.1 = m
      · simp only [List.filter_cons, hm, decide_True, if_true, List.map_cons, List.sum_cons]
        rw [CalculateCost_fields_add]
        unfold geminiMessageCost
        rw [hm]
      · simp only [List.filter_cons, hm, decide_False, Bool.false_eq_true, if_false, zero_add]
    simp only [hstep]
    rw [List.sum_map_add, sum_ite_of_nodup ms hn e.1 (hsub e (List.mem_cons_self _ _)),
      ih (fun x hx => hsub x (List.mem_cons_of_mem _ hx)), List.map_cons, List.sum_cons]

theorem geminiModels_nodup_aux (ms acc : List String) (h : acc.Nodup) :
    (ms.foldl (fun acc m => if m ∈ acc then acc else acc ++ [m]) acc).Nodup := by
  induction ms generalizing acc with
  | nil => exact h
  | cons m rest ih =>
    rw [List.foldl_cons]
    apply ih
    by_cases hm : m ∈ acc
    · rw [if_pos hm]
      exact h
    · rw [if_neg hm, List.nodup_append]
      refine ⟨h, List.nodup_singleton _, ?_⟩
      intro a ha hb
      rw [List.mem_singleton] at hb
      exact hm (hb ▸ ha)

theorem geminiModels_nodup (msgs : List geminiMessage) : (geminiModels msgs).Nodup :=
  geminiModels_nodup_aux _ [] List.nodup_nil

theorem mem_geminiModels (msgs : List geminiMessage) (m : String) :
    m ∈ geminiModels msgs ↔ m ∈ (geminiPriced msgs).map Prod.fst := by
  unfold geminiModels
  rw [keys_foldl_mem]
  simp

theorem geminiUsage_eq_exact (msgs : List geminiMessage) (h : geminiInRange msgs) (m : String)
    (hm : m ∈ geminiModels msgs) : geminiUsage msgs m = geminiUsageExact msgs m := by
  obtain ⟨h1, h2, h3⟩ := h m hm
  unfold geminiUsage geminiUsageExact
  rw [wrapInt64_of_inRange h1, wrapInt64_of_inRange h2, wrapInt64_of_inRange h3]

theorem geminiCostOf_eq_messages (msgs : List geminiMessage) (h : geminiInRange msgs) :
    geminiCostOf msgs = ((geminiPriced msgs).map geminiMessageCost).sum := by
  rw [← exact_cost_sum (geminiPriced msgs) (geminiModels msgs) (geminiModels_nodup msgs)
    (fun e he => (mem_geminiModels msgs e.1).2 (List.mem_map_of_mem Prod.fst he))]
  unfold geminiCostOf
  apply congrArg List.sum
  apply List.map_congr_left
  intro m hm
  rw [geminiUsage_eq_exact msgs h m hm]
  rfl

theorem sum_messages_all (sessions : List geminiSession) :
    ((geminiPriced (geminiAllMessages sessions)).map geminiMessageCost).sum
      = (sessions.map (fun sess =>
          ((geminiPriced sess.Messages).map geminiMessageCost).sum)).sum := by
  induction sessions with
  | nil => simp [geminiAllMessages, geminiPriced]
  | cons sess rest ih =>
    rw [geminiAllMessages_cons, geminiPriced_append, List.map_append, List.sum_append, ih,
      List.map_cons, List.sum_cons]

theorem geminiCostOf_all (sessions : List geminiSession)
    (hall : geminiInRange (geminiAllMessages sessions))
    (hsess : ∀ sess ∈ sessions, geminiInRange sess.Messages) :
    geminiCostOf (geminiAllMessages sessions)
      = (sessions.map (fun sess => geminiCostOf sess.Messages)).sum := by
  rw [geminiCostOf_eq_messages _ hall, sum_messages_all]
  apply congrArg List.sum
  apply List.map_congr_left
  intro sess hs
  exact (geminiCostOf_eq_messages _ (hsess sess hs)).symm

theorem geminiUsage_of_not_mem (msgs : List geminiMessage) (m : String)
    (hm : m ∉ geminiModels msgs) : geminiUsage msgs m = ⟨0, 0, 0, 0⟩ := by
  have hf : (geminiPriced msgs).filter (fun e => e.1 = m) = [] := by
    rw [List.filter_eq_nil_iff]
    intro e he heq
    apply hm
    rw [mem_geminiModels]
    have := List.mem_map_of_mem Prod.fst he
    rw [of_decide_eq_true heq] at this
    exact this
  unfold geminiUsage geminiCount
  rw [hf]
  rfl

theorem geminiCostOf_superset (msgs : List geminiMessage) (ms : List String) (hn : ms.Nodup)
    (hsub : ∀ m ∈ geminiModels msgs, m ∈ ms) :
    (ms.map (fun m => CalculateCost m (geminiUsage msgs m))).sum = geminiCostOf msgs := by
  unfold geminiCostOf
  rw [← List.sum_toFinset _ hn, ← List.sum_toFinset _ (geminiModels_nodup msgs)]
  symm
  apply Finset.sum_subset
  · intro m hm
    rw [List.mem_toFinset] at hm ⊢
    exact hsub m hm
  · intro m _ hm
    rw [List.mem_toFinset] at hm
    rw [geminiUsage_of_not_mem msgs m hm]
    exact CalculateCost_zero m

theorem geminiPriced_keepAccounted (msgs : List geminiMessage) :
    geminiPriced (msgs.filter (fun msg => (geminiBillable msg).isSome)) = geminiPriced msgs := by
  unfold geminiPriced
  induction msgs with
  | nil => rfl
  | cons msg rest ih =>
    rw [List.filter_cons]
    rcases Option.eq_none_or_eq_some (geminiBillable msg) with hb | ⟨t, hb⟩
    · simp only [hb, Option.isSome_none, Bool.false_eq_true, if_false, List.filterMap_cons,
        Option.map_none']
      exact ih
    · simp only [hb, Option.isSome_some, if_true, List.filterMap_cons, Option.map_some']
      rw [ih]

theorem geminiCostOf_keepAccounted (sess : geminiSession) :
    geminiCostOf (geminiKeepAccounted sess).Messages = geminiCostOf sess.Messages := by
  unfold geminiCostOf geminiModels geminiUsage geminiCount geminiKeepAccounted
  simp only [geminiPriced_keepAccounted]

theorem Gemini_Load_ok (env : GeminiEnv) (sessions : List geminiSession) :
    Gemini.Load env (Except.ok sessions) = Except.ok (geminiLoadSessions env sessions) := rfl

/-- C27: when the `range` loop over the per-session map visits each entry once,
the cost `Gemini.Load` assigns to each session is the sum, over the models `m`
of the session's accounted messages, of `CalculateCost(m, U_m)`, where `U_m`
holds the input, output and cached counts of the `gemini`-typed messages with
a token payload whose model name (`gemini-2.5-pro` when omitted) is `m`, added
up in 64-bit integers (the plain sums when these are 64-bit values); the sum
may run over any duplicate-free list of names that holds those models; and
dropping the `user`-typed messages, the messages of other types and the
messages without a token payload changes no session cost. -/
theorem Gemini_Load_session_cost (env : GeminiEnv)
    (hv : ∀ m, (env.visitTokens m).Perm m) (sessions : List geminiSession) :
    ∃ data, Gemini.Load env (Except.ok sessions) = Except.ok data
      ∧ data.Sessions.map (fun si => si.Cost)
          = sessions.map (fun sess =>
              ((geminiModels sess.Messages).map
                (fun m => CalculateCost m (geminiUsage sess.Messages m))).sum)
      ∧ (∀ sess ∈ sessions, ∀ ms : List String, ms.Nodup →
          (∀ m ∈ geminiModels sess.Messages, m ∈ ms) →
          (ms.map (fun m => CalculateCost m (geminiUsage sess.Messages m))).sum
            = ((geminiModels sess.Messages).map
                (fun m => CalculateCost m (geminiUsage sess.Messages m))).sum)
      ∧ (∀ sess ∈ sessions, geminiInRange sess.Messages →
          ∀ m ∈ geminiModels sess.Messages,
            geminiUsage sess.Messages m = geminiUsageExact sess.Messages m)
      ∧ (∃ kept, Gemini.Load env (Except.ok (sessions.map geminiKeepAccounted))
            = Except.ok kept
          ∧ kept.Sessions.map (fun si => si.Cost) = data.Sessions.map (fun si => si.Cost)) := by
  refine ⟨_, Gemini_Load_ok env sessions, (geminiLoadSessions_costs env hv sessions).1, ?_, ?_,
    _, Gemini_Load_ok env _, ?_⟩
  · intro sess _ ms hn hsub
    exact geminiCostOf_superset sess.Messages ms hn hsub
  · intro sess _ hr m hm
    exact geminiUsage_eq_exact sess.Messages hr m hm
  · rw [(geminiLoadSessions_costs env hv _).1, (geminiLoadSessions_costs env hv sessions).1,
      List.map_map]
    apply List.map_congr_left
    intro sess _
    exact geminiCostOf_keepAccounted sess

/-- Witness of C27: a session with messages of two models, a user message, a
message without token payload and a message of another type. -/
theorem Gemini_Load_session_cost_witness :
    ∃ data, Gemini.Load sampleGeminiEnv (Except.ok [sampleGeminiSession]) = Except.ok data
      ∧ data.Sessions.map (fun si => si.Cost)
          = [CalculateCost "gemini-2.5-pro" ⟨110, 220, 55, 0⟩
              + CalculateCost "gemini-2.5-flash" ⟨1, 2, 3, 0⟩] := by
  obtain ⟨data, h1, h2, -⟩ := Gemini_Load_session_cost sampleGeminiEnv
    (fun m => List.Perm.refl m) [sampleGeminiSession]
  refine ⟨data, h1, ?_⟩
  have hm : geminiModels sampleGeminiSession.Messages
      = ["gemini-2.5-pro", "gemini-2.5-flash"] := by decide
  have hp : geminiUsage sampleGeminiSession.Messages "gemini-2.5-pro" = ⟨110, 220, 55, 0⟩ := by
    decide
  have hf : geminiUsage sampleGeminiSession.Messages "gemini-2.5-flash" = ⟨1, 2, 3, 0⟩ := by
    decide
  rw [h2]
  simp only [List.map_cons, List.map_nil, hm, hp, hf, List.sum_cons, List.sum_nil, add_zero]

/-- C30 fails as stated: two sessions that each report `2^62` input tokens of
`gemini-2.5-pro` make the per-model input count wrap to `-2^63`, so the model
costs sum to a negative amount while `TotalCost`, the sum of the session costs,
is positive. -/
theorem Gemini_Load_costs_diverge_on_overflow :
    (Gemini.Load sampleGeminiEnv
        (Except.ok [hugeGeminiSession "a", hugeGeminiSession "b"])).toOption.map
          (fun data => ((data.Models.map (fun mb => mb.Cost)).sum, data.TotalCost,
            (data.Sessions.map (fun si => si.Cost)).sum))
      = some (-(11529215046068469760 : ℚ) / 1000000, (11529215046068469760 : ℚ) / 1000000,
          (11529215046068469760 : ℚ) / 1000000)
    ∧ -(11529215046068469760 : ℚ) / 1000000 ≠ (11529215046068469760 : ℚ) / 1000000 := by
  have hr : ∀ m : List (String × TokenUsage), (sampleGeminiEnv.visitTokens m).Perm m :=
    fun m => List.Perm.refl m
  have hp : GetPricing "gemini-2.5-pro" = (⟨1.25, 10.0, 0, 0⟩, true) := rfl
  have hmodels := geminiLoadSessions_models sampleGeminiEnv hr (fun m => List.Perm.refl m)
    (fun l => List.Perm.refl l) [hugeGeminiSession "a", hugeGeminiSession "b"]
  have hcosts := geminiLoadSessions_costs sampleGeminiEnv hr
    [hugeGeminiSession "a", hugeGeminiSession "b"]
  have hall : geminiModels (geminiAllMessages [hugeGeminiSession "a", hugeGeminiSession "b"])
      = ["gemini-2.5-pro"] := by decide
  have huse : geminiUsage (geminiAllMessages [hugeGeminiSession "a", hugeGeminiSession "b"])
      "gemini-2.5-pro" = ⟨-9223372036854775808, 0, 0, 0⟩ := by decide
  have hone : ∀ sid, geminiModels (hugeGeminiSession sid).Messages = ["gemini-2.5-pro"] := by
    intro sid
    rfl
  have husd : ∀ sid, geminiUsage (hugeGeminiSession sid).Messages "gemini-2.5-pro"
      = ⟨4611686018427387904, 0, 0, 0⟩ := by
    intro sid
    rw [show (hugeGeminiSession sid).Messages = (hugeGeminiSession "a").Messages from rfl]
    decide
  have hA : geminiCostOf (geminiAllMessages [hugeGeminiSession "a", hugeGeminiSession "b"])
      = -(11529215046068469760 : ℚ) / 1000000 := by
    unfold geminiCostOf
    rw [hall]
    simp only [List.map_cons, List.map_nil, List.sum_cons, List.sum_nil, huse]
    rw [CalculateCost_of_found hp]
    norm_num
  have hS : ∀ sid, geminiCostOf (hugeGeminiSession sid).Messages
      = (5764607523034234880 : ℚ) / 1000000 := by
    intro sid
    unfold geminiCostOf
    rw [hone]
    simp only [List.map_cons, List.map_nil, List.sum_cons, List.sum_nil, husd]
    rw [CalculateCost_of_found hp]
    norm_num
  refine ⟨?_, by norm_num⟩
  rw [Gemini_Load_ok]
  simp only [Except.toOption, Option.map_some', hmodels, hcosts.1, hcosts.2, hA, List.map_cons,
    List.map_nil, hS, List.sum_cons, List.sum_nil]
  norm_num

/-- C30, amended: when the `range` loops visit each map entry once and
`sort.Slice` permutes its slice, `TotalCost` equals the sum of `Cost` over the
sessions; and when moreover, for every model, the sums of the input, output and
cached counts of its accounted messages, over each session and over all
sessions together, are 64-bit values (no counter overflows), the sum of `Cost`
over the per-model breakdown entries equals `TotalCost` as well. -/
theorem Gemini_Load_cost_sums (env : GeminiEnv)
    (hv : ∀ m, (env.visitTokens m).Perm m) (hm : ∀ m, (env.visitModels m).Perm m)
    (hs : ∀ l, (env.sortModels l).Perm l) (sessions : List geminiSession) :
    ∃ data, Gemini.Load env (Except.ok sessions) = Except.ok data
      ∧ data.TotalCost = (data.Sessions.map (fun si => si.Cost)).sum
      ∧ (geminiInRange (geminiAllMessages sessions) →
          (∀ sess ∈ sessions, geminiInRange sess.Messages) →
          (data.Models.map (fun mb => mb.Cost)).sum = data.TotalCost) := by
  refine ⟨_, Gemini_Load_ok env sessions, ?_, ?_⟩
  · rw [(geminiLoadSessions_costs env hv sessions).1, (geminiLoadSessions_costs env hv sessions).2]
  · intro hall hsess
    rw [geminiLoadSessions_models env hv hm hs, (geminiLoadSessions_costs env hv sessions).2]
    exact geminiCostOf_all sessions hall hsess

/-- Witness of C30: the sample session together with a session of `2^62` input
tokens, whose counts stay within 64 bits. -/
theorem Gemini_Load_cost_sums_witness :
    ∃ data, Gemini.Load sampleGeminiEnv
          (Except.ok [sampleGeminiSession, hugeGeminiSession "a"]) = Except.ok data
      ∧ data.TotalCost = (data.Sessions.map (fun si => si.Cost)).sum
      ∧ (data.Models.map (fun mb => mb.Cost)).sum = data.TotalCost := by
  obtain ⟨data, h1, h2, h3⟩ := Gemini_Load_cost_sums sampleGeminiEnv
    (fun m => List.Perm.refl m) (fun m => List.Perm.refl m) (fun l => List.Perm.refl l)
    [sampleGeminiSession, hugeGeminiSession "a"]
  exact ⟨data, h1, h2, h3 (by decide) (by decide)⟩

end Aitop
